import Mathlib

/-!
# go-contract: the copyright record manager of `main.go`

A shallow embedding of the six contract methods of `CopyrightManager`
(`Initialize`, `RegisterCopyright`, `QueryCopyright`, `TransferCopyright`,
`UpdateCopyrightDescription`, `DeleteCopyright`) together with the parts of
the host they call: the argument mapping, the caller identity, the object
store (`GetObject` / `PutObject`), the event channel (`EmitJSONEvent`), the
clock and the JSON codec.

Modelling conventions.

* Go `string` and `[]byte` values are byte sequences, modelled by `Bytes`; the
  conversions `string(b)` and `[]byte(s)` are the identity. The ASCII literals
  of `main.go` are written `txt "..."`. A byte sequence need not be valid
  UTF-8: the argument mapping is `map[string][]byte`.
* A contract method is a function from what the host furnishes for one
  invocation (`Env`) and the host state before the call (`World`) to the
  response and the host state after the call.
* The host state is the object store plus a chronological log of every host
  call the method made, so that "no read", "no write" and "no event" are
  statements about the log.
* `json.Marshal` / `json.Unmarshal` are a parameter (`Json`). The theorems
  that decode what was encoded assume `Json.Faithful`, the behaviour of
  `encoding/json` at the record type: every record encodes; decoding the
  encoding gives the record with each string coerced to valid UTF-8 (each
  invalid byte replaced by U+FFFD, as `Bytes.toValidUTF8` does); and every
  decoded string is valid UTF-8. `refJson` is a concrete codec satisfying it.
-/

namespace CopyrightManager

/-! ## Byte strings -/

/-- A Go `string` or `[]byte`: a sequence of bytes. -/
structure Bytes where
  data : List UInt8
deriving DecidableEq, Repr

instance : Append Bytes := ⟨fun a b => ⟨a.data ++ b.data⟩⟩

/-- The bytes of a text literal (its UTF-8 encoding). -/
def txt (s : String) : Bytes := ⟨s.toUTF8.data.toList⟩

namespace UTF8

/-- A continuation byte, `0x80..0xBF`. -/
def isCont (b : UInt8) : Bool := decide (0x80 ≤ b) && decide (b ≤ 0xBF)

/-- A one-byte rune, `0x00..0x7F`. -/
def isAscii (b : UInt8) : Bool := decide (b < 0x80)

/-- The two bytes are a two-byte rune. -/
def isTwo (b0 b1 : UInt8) : Bool := decide (0xC2 ≤ b0) && decide (b0 ≤ 0xDF) && isCont b1

/-- The three bytes are a three-byte rune (no overlong form, no surrogate). -/
def isThree (b0 b1 b2 : UInt8) : Bool :=
  ((decide (b0 = 0xE0) && decide (0xA0 ≤ b1) && decide (b1 ≤ 0xBF)) ||
   (decide (0xE1 ≤ b0) && decide (b0 ≤ 0xEC) && isCont b1) ||
   (decide (b0 = 0xED) && decide (0x80 ≤ b1) && decide (b1 ≤ 0x9F)) ||
   (decide (0xEE ≤ b0) && decide (b0 ≤ 0xEF) && isCont b1)) && isCont b2

/-- The four bytes are a four-byte rune (no overlong form, at most U+10FFFF). -/
def isFour (b0 b1 b2 b3 : UInt8) : Bool :=
  ((decide (b0 = 0xF0) && decide (0x90 ≤ b1) && decide (b1 ≤ 0xBF)) ||
   (decide (0xF1 ≤ b0) && decide (b0 ≤ 0xF3) && isCont b1) ||
   (decide (b0 = 0xF4) && decide (0x80 ≤ b1) && decide (b1 ≤ 0x8F))) && isCont b2 && isCont b3

/-- The length of the rune encoded at the head of the input, `0` when the head
byte starts no valid encoding (`utf8.DecodeRune` answering `RuneError` with
width 1, or the empty input). -/
def runeLen (l : List UInt8) : Nat :=
  match l with
  | [] => 0
  | b0 :: t0 =>
    if isAscii b0 then 1
    else
      match t0 with
      | [] => 0
      | b1 :: t1 =>
        if isTwo b0 b1 then 2
        else
          match t1 with
          | [] => 0
          | b2 :: t2 =>
            if isThree b0 b1 b2 then 3
            else
              match t2 with
              | [] => 0
              | b3 :: _ => if isFour b0 b1 b2 b3 then 4 else 0

/-- Coerce to valid UTF-8 as `encoding/json` does: a rune is copied, a byte
that starts no rune is replaced by U+FFFD (`EF BF BD`). The first argument is
the number of bytes still to copy of the rune being copied. -/
def coerce : Nat → List UInt8 → List UInt8
  | _, [] => []
  | k + 1, b :: rest => b :: coerce k rest
  | 0, b :: rest =>
    match runeLen (b :: rest) with
    | 0 => 0xEF :: 0xBF :: 0xBD :: coerce 0 rest
    | n + 1 => b :: coerce n rest

end UTF8

/-- The string coerced to valid UTF-8: each byte that is not part of a valid
encoding is replaced by the replacement character U+FFFD. -/
def Bytes.toValidUTF8 (s : Bytes) : Bytes := ⟨UTF8.coerce 0 s.data⟩

/-- The string is valid UTF-8. -/
def Bytes.IsValidUTF8 (s : Bytes) : Prop := s.toValidUTF8 = s

instance (s : Bytes) : Decidable s.IsValidUTF8 := by
  unfold Bytes.IsValidUTF8
  infer_instance

/-! ## Data model -/

/-- The record type `DigitalCopyright` of `main.go` (lines 14-24). -/
structure DigitalCopyright where
  CopyrightID : Bytes
  WorkName : Bytes
  Author : Bytes
  OwnerAddress : Bytes
  RegistrationDate : Bytes
  WorkType : Bytes
  Description : Bytes
  TransactionHistory : List Bytes
  IsDeleted : Bool
deriving DecidableEq, Repr

/-- Modelled from the spec: the type `code.Response` of the contract SDK, which
is not part of the repository. Every operation returns either a success payload
or a failure carrying a human-readable message. `code.OK(body)` is `OK body`,
`code.Errors(msg)` is `Errors msg`. -/
inductive Response where
  | OK (body : Bytes)
  | Errors (msg : Bytes)
deriving DecidableEq, Repr

/-- Modelled from the spec: `code.Error(err)` of the contract SDK, the failure
response carrying the message of `err`. -/
def Response.Error (err : Bytes) : Response := Response.Errors err

/-- A response is a failure. -/
def Response.isFailure : Response → Bool
  | Response.OK _ => false
  | Response.Errors _ => true

/-- A response is a success. -/
def Response.isOK : Response → Bool
  | Response.OK _ => true
  | Response.Errors _ => false

/-! ## The host -/

/-- The object store of the host: a key holds a value or nothing. -/
abbrev Store := Bytes → Option Bytes

/-- The store in which no key holds a value. -/
def Store.empty : Store := fun _ => none

/-- The store after a successful write of `value` under `key`. -/
def Store.put (s : Store) (key value : Bytes) : Store :=
  fun k => if k = key then some value else s k

/-- One call from a contract method to the host. -/
inductive HostCall where
  | getObject (key : Bytes)
  | putObject (key value : Bytes) (ok : Bool)
  | emitJSONEvent (name : Bytes) (data : List (Bytes × Bytes))
deriving DecidableEq, Repr

/-- The host state: the store and the log of host calls, oldest first. -/
structure World where
  store : Store
  log : List HostCall

/-- What the host furnishes to one invocation: the argument mapping
(`ctx.Args()`), the caller identity (`ctx.Initiator()`), the value of
`time.Now().Format("2006-01-02 15:04:05")`, which is text (digits, dashes, a
blank and colons) and so valid UTF-8, the error (if any) with which the host
answers a `PutObject`, and the error text with which it answers a `GetObject`
on a key without a value. -/
structure Env where
  args : List (Bytes × Bytes)
  initiator : Bytes
  now : Bytes
  now_valid : now.IsValidUTF8
  putErr : Bytes → Bytes → Option Bytes
  getErr : Bytes → Bytes

/-- The JSON codec used for records: `json.Marshal` and `json.Unmarshal` at
type `DigitalCopyright`. -/
structure Json where
  Marshal : DigitalCopyright → Except Bytes Bytes
  Unmarshal : Bytes → Except Bytes DigitalCopyright

/-- The record with every string coerced to valid UTF-8. -/
def DigitalCopyright.toValidUTF8 (r : DigitalCopyright) : DigitalCopyright :=
  { CopyrightID := r.CopyrightID.toValidUTF8, WorkName := r.WorkName.toValidUTF8,
    Author := r.Author.toValidUTF8, OwnerAddress := r.OwnerAddress.toValidUTF8,
    RegistrationDate := r.RegistrationDate.toValidUTF8, WorkType := r.WorkType.toValidUTF8,
    Description := r.Description.toValidUTF8,
    TransactionHistory := r.TransactionHistory.map Bytes.toValidUTF8,
    IsDeleted := r.IsDeleted }

/-- The codec behaves as `encoding/json` does at the record type: every record
encodes, the encoding decodes to the record with its strings coerced to valid
UTF-8, and whatever decodes has valid UTF-8 strings. -/
def Json.Faithful (J : Json) : Prop :=
  (∀ r : DigitalCopyright, ∃ b : Bytes,
    J.Marshal r = Except.ok b ∧ J.Unmarshal b = Except.ok r.toValidUTF8) ∧
  (∀ (b : Bytes) (r : DigitalCopyright), J.Unmarshal b = Except.ok r → r.toValidUTF8 = r)

/-- The result of `ctx.GetObject`: the Go pair `(data, err)`, `none` for `nil`. -/
structure GetResult where
  data : Option Bytes
  err : Option Bytes

/-- The host call `ctx.GetObject(key)`: the value when the key holds one, an
error otherwise. The call is logged. -/
def GetObject (e : Env) (w : World) (key : Bytes) : GetResult × World :=
  (match w.store key with
   | some v => { data := some v, err := none }
   | none => { data := none, err := some (e.getErr key) },
   { w with log := w.log ++ [HostCall.getObject key] })

/-- The host call `ctx.PutObject(key, value)`: on success the store holds
`value` under `key`; on failure the store is as before. The call is logged. -/
def PutObject (e : Env) (w : World) (key value : Bytes) : Option Bytes × World :=
  match e.putErr key value with
  | none =>
    (none, { store := w.store.put key value,
             log := w.log ++ [HostCall.putObject key value true] })
  | some err =>
    (some err, { w with log := w.log ++ [HostCall.putObject key value false] })

/-- The host call `ctx.EmitJSONEvent(name, data)`; its result is discarded by
every caller in `main.go`. -/
def EmitJSONEvent (w : World) (name : Bytes) (data : List (Bytes × Bytes)) : World :=
  { w with log := w.log ++ [HostCall.emitJSONEvent name data] }

/-- The events in a log, oldest first. -/
def eventsOf : List HostCall → List (Bytes × List (Bytes × Bytes))
  | [] => []
  | HostCall.emitJSONEvent n d :: t => (n, d) :: eventsOf t
  | _ :: t => eventsOf t

/-- The keys read in a log, oldest first. -/
def readsOf : List HostCall → List Bytes
  | [] => []
  | HostCall.getObject k :: t => k :: readsOf t
  | _ :: t => readsOf t

/-- The writes attempted in a log, oldest first. -/
def writesOf : List HostCall → List (Bytes × Bytes)
  | [] => []
  | HostCall.putObject k v _ :: t => (k, v) :: writesOf t
  | _ :: t => writesOf t

/-- The events emitted so far. -/
def World.events (w : World) : List (Bytes × List (Bytes × Bytes)) := eventsOf w.log

/-! ## The contract methods -/

/-- The method `Initialize` of `main.go` (lines 34-57). -/
def Initialize (e : Env) (w : World) : Response × World :=
  match e.args.lookup (txt "creator") with
  | none => (Response.Errors (txt "missing creator argument during initialization"), w)
  | some creator =>
    if creator = txt "" then
      (Response.Errors (txt "creator address cannot be empty"), w)
    else
      match PutObject e w (txt "contract_creator") creator with
      | (some err, w1) => (Response.Error (txt "failed to save creator: " ++ err), w1)
      | (none, w1) => (Response.OK (txt "Initialized successfully by " ++ creator), w1)

/-- The method `RegisterCopyright` of `main.go` (lines 61-142). -/
def RegisterCopyright (J : Json) (e : Env) (w : World) : Response × World :=
  match e.args.lookup (txt "copyright_id") with
  | none => (Response.Errors (txt "missing copyright_id"), w)
  | some cid =>
  match e.args.lookup (txt "work_name") with
  | none => (Response.Errors (txt "missing work_name"), w)
  | some wn =>
  match e.args.lookup (txt "author") with
  | none => (Response.Errors (txt "missing author"), w)
  | some author =>
  match e.args.lookup (txt "owner_address") with
  | none => (Response.Errors (txt "missing owner_address"), w)
  | some owner =>
  match e.args.lookup (txt "work_type") with
  | none => (Response.Errors (txt "missing work_type"), w)
  | some wt =>
  match e.args.lookup (txt "description") with
  | none => (Response.Errors (txt "missing description"), w)
  | some desc =>
    if cid = txt "" ∨ wn = txt "" ∨ author = txt "" ∨ owner = txt "" ∨ wt = txt "" then
      (Response.Errors (txt "missing required fields for copyright registration"), w)
    else
      let key := cid
      let (existing, w1) := GetObject e w key
      if existing.err = none ∧ existing.data ≠ none then
        (Response.Errors (txt "copyright ID " ++ cid ++ txt " already exists"), w1)
      else
        let registrationDate := e.now
        let newCopyright : DigitalCopyright :=
          { CopyrightID := cid, WorkName := wn, Author := author, OwnerAddress := owner,
            RegistrationDate := registrationDate, WorkType := wt, Description := desc,
            TransactionHistory := [txt "Registered on " ++ registrationDate ++ txt " by " ++ owner],
            IsDeleted := false }
        match J.Marshal newCopyright with
        | Except.error err => (Response.Error (txt "failed to marshal copyright data: " ++ err), w1)
        | Except.ok copyrightJSON =>
          match PutObject e w1 key copyrightJSON with
          | (some err, w2) => (Response.Error (txt "failed to save copyright data: " ++ err), w2)
          | (none, w2) =>
            let w3 := EmitJSONEvent w2 (txt "CopyrightRegistered")
              [(txt "copyrightId", cid), (txt "workName", wn), (txt "owner", owner)]
            (Response.OK (txt "Copyright " ++ cid ++ txt " registered successfully"), w3)

/-- The method `QueryCopyright` of `main.go` (lines 146-175). -/
def QueryCopyright (J : Json) (e : Env) (w : World) : Response × World :=
  match e.args.lookup (txt "copyright_id") with
  | none => (Response.Errors (txt "missing copyright_id argument"), w)
  | some copyrightID =>
    if copyrightID = txt "" then
      (Response.Errors (txt "copyright_id cannot be empty"), w)
    else
      let key := copyrightID
      let (got, w1) := GetObject e w key
      match got.err with
      | some err =>
        (Response.Error (txt "failed to get copyright " ++ copyrightID ++ txt ": " ++ err
          ++ txt " (it may not exist)"), w1)
      | none =>
        match got.data with
        | none => (Response.Errors (txt "copyright " ++ copyrightID ++ txt " not found"), w1)
        | some copyrightJSON =>
          match J.Unmarshal copyrightJSON with
          | Except.error err =>
            (Response.Error (txt "failed to unmarshal copyright data for check: " ++ err), w1)
          | Except.ok copyrightData =>
            if copyrightData.IsDeleted then
              (Response.Error (txt "copyright " ++ copyrightID ++ txt " has been deleted"), w1)
            else
              (Response.OK copyrightJSON, w1)

/-- The method `TransferCopyright` of `main.go` (lines 179-241). -/
def TransferCopyright (J : Json) (e : Env) (w : World) : Response × World :=
  match e.args.lookup (txt "copyright_id"), e.args.lookup (txt "new_owner_address") with
  | none, _ => (Response.Errors (txt "missing copyright_id or new_owner_address"), w)
  | some _, none => (Response.Errors (txt "missing copyright_id or new_owner_address"), w)
  | some copyrightID, some newOwnerAddress =>
    if copyrightID = txt "" ∨ newOwnerAddress = txt "" then
      (Response.Errors (txt "copyright_id or new_owner_address cannot be empty"), w)
    else
      let key := copyrightID
      let (got, w1) := GetObject e w key
      match got.err with
      | some err => (Response.Error (txt "failed to get copyright " ++ copyrightID ++ txt ": " ++ err), w1)
      | none =>
        match got.data with
        | none => (Response.Errors (txt "copyright " ++ copyrightID ++ txt " not found"), w1)
        | some copyrightJSON =>
          match J.Unmarshal copyrightJSON with
          | Except.error err => (Response.Error (txt "failed to unmarshal copyright data: " ++ err), w1)
          | Except.ok copyrightData =>
            if copyrightData.IsDeleted then
              (Response.Error (txt "cannot transfer a deleted copyright: " ++ copyrightID), w1)
            else
              let oldOwner := copyrightData.OwnerAddress
              let transferRecord :=
                txt "Transferred from " ++ oldOwner ++ txt " to " ++ newOwnerAddress ++ txt " on " ++ e.now
              let updated : DigitalCopyright :=
                { copyrightData with
                    OwnerAddress := newOwnerAddress
                    TransactionHistory := copyrightData.TransactionHistory ++ [transferRecord] }
              match J.Marshal updated with
              | Except.error err =>
                (Response.Error (txt "failed to marshal updated copyright data: " ++ err), w1)
              | Except.ok updatedCopyrightJSON =>
                match PutObject e w1 key updatedCopyrightJSON with
                | (some err, w2) =>
                  (Response.Error (txt "failed to save updated copyright data: " ++ err), w2)
                | (none, w2) =>
                  let w3 := EmitJSONEvent w2 (txt "CopyrightTransferred")
                    [(txt "copyrightId", copyrightID), (txt "oldOwner", oldOwner),
                     (txt "newOwner", newOwnerAddress)]
                  (Response.OK (txt "Copyright " ++ copyrightID ++ txt " transferred to "
                    ++ newOwnerAddress), w3)

/-- The method `UpdateCopyrightDescription` of `main.go` (lines 245-304). -/
def UpdateCopyrightDescription (J : Json) (e : Env) (w : World) : Response × World :=
  match e.args.lookup (txt "copyright_id") with
  | none => (Response.Errors (txt "missing copyright_id"), w)
  | some copyrightID =>
    let newDescription :=
      match e.args.lookup (txt "new_description") with
      | some d => d
      | none => txt ""
    if copyrightID = txt "" then
      (Response.Errors (txt "copyright_id cannot be empty"), w)
    else
      let key := copyrightID
      let (got, w1) := GetObject e w key
      match got.err with
      | some err => (Response.Error (txt "failed to get copyright " ++ copyrightID ++ txt ": " ++ err), w1)
      | none =>
        match got.data with
        | none => (Response.Errors (txt "copyright " ++ copyrightID ++ txt " not found"), w1)
        | some copyrightJSON =>
          match J.Unmarshal copyrightJSON with
          | Except.error err => (Response.Error (txt "failed to unmarshal copyright data: " ++ err), w1)
          | Except.ok copyrightData =>
            if copyrightData.IsDeleted then
              (Response.Error (txt "cannot update description of a deleted copyright: "
                ++ copyrightID), w1)
            else
              let oldDescription := copyrightData.Description
              let updateRecord :=
                txt "Description updated on " ++ e.now ++ txt ". Old: \x27" ++ oldDescription
                  ++ txt "\x27, New: \x27" ++ newDescription ++ txt "\x27"
              let updated : DigitalCopyright :=
                { copyrightData with
                    Description := newDescription
                    TransactionHistory := copyrightData.TransactionHistory ++ [updateRecord] }
              match J.Marshal updated with
              | Except.error err =>
                (Response.Error (txt "failed to marshal updated copyright data: " ++ err), w1)
              | Except.ok updatedCopyrightJSON =>
                match PutObject e w1 key updatedCopyrightJSON with
                | (some err, w2) =>
                  (Response.Error (txt "failed to save updated copyright data: " ++ err), w2)
                | (none, w2) =>
                  let w3 := EmitJSONEvent w2 (txt "CopyrightDescriptionUpdated")
                    [(txt "copyrightId", copyrightID), (txt "newDescription", newDescription)]
                  (Response.OK (txt "Description for copyright " ++ copyrightID ++ txt " updated"), w3)

/-- The method `DeleteCopyright` of `main.go` (lines 308-365). -/
def DeleteCopyright (J : Json) (e : Env) (w : World) : Response × World :=
  match e.args.lookup (txt "copyright_id") with
  | none => (Response.Errors (txt "missing copyright_id argument"), w)
  | some copyrightID =>
    if copyrightID = txt "" then
      (Response.Errors (txt "copyright_id cannot be empty"), w)
    else
      let key := copyrightID
      let (got, w1) := GetObject e w key
      match got.err with
      | some err => (Response.Error (txt "failed to get copyright " ++ copyrightID ++ txt ": " ++ err), w1)
      | none =>
        match got.data with
        | none => (Response.Errors (txt "copyright " ++ copyrightID ++ txt " not found"), w1)
        | some copyrightJSON =>
          match J.Unmarshal copyrightJSON with
          | Except.error err => (Response.Error (txt "failed to unmarshal copyright data: " ++ err), w1)
          | Except.ok copyrightData =>
            if copyrightData.IsDeleted then
              (Response.Errors (txt "copyright " ++ copyrightID ++ txt " is already deleted"), w1)
            else
              let deleteRecord :=
                txt "Copyright marked as deleted on " ++ e.now ++ txt " by caller " ++ e.initiator
              let updated : DigitalCopyright :=
                { copyrightData with
                    IsDeleted := true
                    TransactionHistory := copyrightData.TransactionHistory ++ [deleteRecord] }
              match J.Marshal updated with
              | Except.error err =>
                (Response.Error (txt "failed to marshal updated copyright data for deletion: "
                  ++ err), w1)
              | Except.ok updatedCopyrightJSON =>
                match PutObject e w1 key updatedCopyrightJSON with
                | (some err, w2) =>
                  (Response.Error (txt "failed to save updated copyright data for deletion: "
                    ++ err), w2)
                | (none, w2) =>
                  let w3 := EmitJSONEvent w2 (txt "CopyrightDeleted")
                    [(txt "copyrightId", copyrightID), (txt "deletedBy", e.initiator)]
                  (Response.OK (txt "Copyright " ++ copyrightID ++ txt " marked as deleted"), w3)

/-! ## A reference codec

`refJson` lays a record out as `json.Marshal` does for `DigitalCopyright`: one
object, the keys in declaration order, strings between double quotes with the
double quote and the backslash escaped, the history as an array of strings
(`null` when empty) and the flag as `true` or `false`. A string is coerced to
valid UTF-8 when it is written and when it is read, as `encoding/json` does
(which writes the replacement character as a six-character escape; here it is
written as its three bytes, which decode to the same string). It reads back
exactly this layout. Its only use is to show that `Json.Faithful` can be met and
to run the contract methods on concrete inputs. -/

namespace RefJson

/-- Escape the double quote (`0x22`) and the backslash (`0x5C`). -/
def escape : List UInt8 → List UInt8
  | [] => []
  | c :: cs => if c = 0x22 ∨ c = 0x5C then 0x5C :: c :: escape cs else c :: escape cs

/-- A string, coerced to valid UTF-8, between double quotes. -/
def quote (s : Bytes) : List UInt8 := 0x22 :: (escape (UTF8.coerce 0 s.data) ++ [0x22])

/-- Put a byte in front of the text read so far. -/
def consRead (c : UInt8) : Option (List UInt8 × List UInt8) → Option (List UInt8 × List UInt8)
  | some p => some (c :: p.1, p.2)
  | none => none

/-- Read the body of a quoted string up to the closing quote; the flag says
that the previous byte was an unescaped backslash. -/
def readBody : Bool → List UInt8 → Option (List UInt8 × List UInt8)
  | _, [] => none
  | true, c :: rest => consRead c (readBody false rest)
  | false, c :: rest =>
    if c = 0x22 then some ([], rest)
    else if c = 0x5C then readBody true rest
    else consRead c (readBody false rest)

/-- Read a quoted string and coerce it to valid UTF-8. -/
def readString : List UInt8 → Option (Bytes × List UInt8)
  | [] => none
  | c :: rest =>
    if c = 0x22 then
      match readBody false rest with
      | some p => some (Bytes.mk (UTF8.coerce 0 p.1), p.2)
      | none => none
    else none

/-- Consume a literal. -/
def expect : List UInt8 → List UInt8 → Option (List UInt8)
  | [], inp => some inp
  | _ :: _, [] => none
  | c :: cs, d :: ds => if c = d then expect cs ds else none

/-- The literal `null`. -/
def litNull : List UInt8 := (txt "null").data

/-- The literal `true`. -/
def litTrue : List UInt8 := (txt "true").data

/-- The literal `false`. -/
def litFalse : List UInt8 := (txt "false").data

/-- The opening of the object and its first key. -/
def keyCopyrightID : List UInt8 := (txt "\x7b\"copyright_id\":").data

/-- The key `work_name`. -/
def keyWorkName : List UInt8 := (txt ",\"work_name\":").data

/-- The key `author`. -/
def keyAuthor : List UInt8 := (txt ",\"author\":").data

/-- The key `owner_address`. -/
def keyOwnerAddress : List UInt8 := (txt ",\"owner_address\":").data

/-- The key `registration_date`. -/
def keyRegistrationDate : List UInt8 := (txt ",\"registration_date\":").data

/-- The key `work_type`. -/
def keyWorkType : List UInt8 := (txt ",\"work_type\":").data

/-- The key `description`. -/
def keyDescription : List UInt8 := (txt ",\"description\":").data

/-- The key `transaction_history`. -/
def keyTransactionHistory : List UInt8 := (txt ",\"transaction_history\":").data

/-- The key `is_deleted`. -/
def keyIsDeleted : List UInt8 := (txt ",\"is_deleted\":").data

/-- The closing of the object. -/
def litClose : List UInt8 := (txt "\x7d").data

/-- The elements of a non-empty array after the opening bracket (`0x2C` is the
comma, `0x5D` the closing bracket). -/
def encElems : Bytes → List Bytes → List UInt8
  | s, [] => quote s ++ [0x5D]
  | s, t :: ts => quote s ++ 0x2C :: encElems t ts

/-- An array of strings; the empty history is `null` (`0x5B` is the opening
bracket). -/
def encArray : List Bytes → List UInt8
  | [] => litNull
  | s :: ts => 0x5B :: encElems s ts

/-- Read the elements of a non-empty array; the fuel bounds their number. -/
def readElems : Nat → List UInt8 → Option (List Bytes × List UInt8)
  | 0, _ => none
  | n + 1, inp =>
    match readString inp with
    | none => none
    | some (s, r) =>
      match r with
      | [] => none
      | c :: r2 =>
        if c = 0x2C then
          match readElems n r2 with
          | some p => some (s :: p.1, p.2)
          | none => none
        else if c = 0x5D then some ([s], r2)
        else none

/-- Read an array of strings or `null`. -/
def readArray (inp : List UInt8) : Option (List Bytes × List UInt8) :=
  match expect litNull inp with
  | some r => some ([], r)
  | none =>
    match inp with
    | [] => none
    | c :: r => if c = 0x5B then readElems r.length r else none

/-- A boolean. -/
def encBool (b : Bool) : List UInt8 := if b then litTrue else litFalse

/-- Read a boolean. -/
def readBool (inp : List UInt8) : Option (Bool × List UInt8) :=
  match expect litTrue inp with
  | some r => some (true, r)
  | none =>
    match expect litFalse inp with
    | some r => some (false, r)
    | none => none

/-- The encoding of a record. -/
def encRecord (r : DigitalCopyright) : List UInt8 :=
  keyCopyrightID ++ (quote r.CopyrightID ++
  (keyWorkName ++ (quote r.WorkName ++
  (keyAuthor ++ (quote r.Author ++
  (keyOwnerAddress ++ (quote r.OwnerAddress ++
  (keyRegistrationDate ++ (quote r.RegistrationDate ++
  (keyWorkType ++ (quote r.WorkType ++
  (keyDescription ++ (quote r.Description ++
  (keyTransactionHistory ++ (encArray r.TransactionHistory ++
  (keyIsDeleted ++ (encBool r.IsDeleted ++ litClose)))))))))))))))))

/-- Read a record laid out as `encRecord` lays it out. -/
def decRecord (inp : List UInt8) : Option DigitalCopyright :=
  match expect keyCopyrightID inp with
  | none => none
  | some r0 =>
  match readString r0 with
  | none => none
  | some (cid, r1) =>
  match expect keyWorkName r1 with
  | none => none
  | some r2 =>
  match readString r2 with
  | none => none
  | some (wn, r3) =>
  match expect keyAuthor r3 with
  | none => none
  | some r4 =>
  match readString r4 with
  | none => none
  | some (author, r5) =>
  match expect keyOwnerAddress r5 with
  | none => none
  | some r6 =>
  match readString r6 with
  | none => none
  | some (owner, r7) =>
  match expect keyRegistrationDate r7 with
  | none => none
  | some r8 =>
  match readString r8 with
  | none => none
  | some (date, r9) =>
  match expect keyWorkType r9 with
  | none => none
  | some r10 =>
  match readString r10 with
  | none => none
  | some (wt, r11) =>
  match expect keyDescription r11 with
  | none => none
  | some r12 =>
  match readString r12 with
  | none => none
  | some (desc, r13) =>
  match expect keyTransactionHistory r13 with
  | none => none
  | some r14 =>
  match readArray r14 with
  | none => none
  | some (hist, r15) =>
  match expect keyIsDeleted r15 with
  | none => none
  | some r16 =>
  match readBool r16 with
  | none => none
  | some (del, r17) =>
  match expect litClose r17 with
  | none => none
  | some r18 =>
    if r18 = [] then
      some { CopyrightID := cid, WorkName := wn, Author := author, OwnerAddress := owner,
             RegistrationDate := date, WorkType := wt, Description := desc,
             TransactionHistory := hist, IsDeleted := del }
    else none

end RefJson

/-- The reference codec. -/
def refJson : Json where
  Marshal := fun r => Except.ok (Bytes.mk (RefJson.encRecord r))
  Unmarshal := fun b =>
    match RefJson.decRecord b.data with
    | some r => Except.ok r
    | none => Except.error (txt "invalid character")

/-! ## Vocabulary of the properties -/

/-- The record at a key: the value stored there, decoded. -/
def recordAt (J : Json) (s : Store) (key : Bytes) : Option DigitalCopyright :=
  match s key with
  | none => none
  | some b =>
    match J.Unmarshal b with
    | Except.ok r => some r
    | Except.error _ => none

/-- The record carried by a response: the payload of a success, decoded. -/
def payloadRecord (J : Json) : Response → Option DigitalCopyright
  | Response.Errors _ => none
  | Response.OK body =>
    match J.Unmarshal body with
    | Except.ok r => some r
    | Except.error _ => none

/-- A call failed without effect: the response is a failure, the store is as
before, and the host calls it made are at most one read and one refused write,
and no event. -/
def FailsCleanly (w : World) (res : Response × World) : Prop :=
  res.1.isFailure = true ∧ res.2.store = w.store ∧
    ∃ l, res.2.log = w.log ++ l ∧ eventsOf l = [] ∧ (readsOf l).length ≤ 1 ∧
      (writesOf l).length ≤ 1

/-- The required fields of a record are filled in: id, title, creator name,
holder address and category are non-empty and the history has an entry. -/
def RequiredFieldsNonEmpty (r : DigitalCopyright) : Prop :=
  r.CopyrightID ≠ txt "" ∧ r.WorkName ≠ txt "" ∧ r.Author ≠ txt "" ∧ r.OwnerAddress ≠ txt "" ∧
    r.WorkType ≠ txt "" ∧ 0 < r.TransactionHistory.length

/-- The host calls in `l` read and write only the key named by the
`copyright_id` argument. -/
def CallsOnlyTarget (e : Env) (l : List HostCall) : Prop :=
  (∀ k ∈ readsOf l, e.args.lookup (txt "copyright_id") = some k) ∧
    (∀ p ∈ writesOf l, e.args.lookup (txt "copyright_id") = some p.1)

/-- The six contract methods. -/
inductive Op where
  | init
  | register
  | query
  | transfer
  | update
  | delete
deriving DecidableEq, Repr

/-- Run one contract method. -/
def runOp (J : Json) : Op → Env → World → Response × World
  | Op.init, e, w => Initialize e w
  | Op.register, e, w => RegisterCopyright J e w
  | Op.query, e, w => QueryCopyright J e w
  | Op.transfer, e, w => TransferCopyright J e w
  | Op.update, e, w => UpdateCopyrightDescription J e w
  | Op.delete, e, w => DeleteCopyright J e w

/-- Run a sequence of invocations, each on the host state the previous one
left; the responses are returned in order. -/
def runAll (J : Json) : List (Op × Env) → World → List Response × World
  | [], w => ([], w)
  | (op, e) :: rest, w =>
    let res := runOp J op e w
    let tail := runAll J rest res.2
    (res.1 :: tail.1, tail.2)

/-! ## Concrete inputs -/

/-- A host that accepts every write, with a fixed caller and clock. -/
def demoEnv (args : List (Bytes × Bytes)) : Env :=
  { args := args, initiator := txt "caller1", now := txt "2024-01-02 03:04:05",
    now_valid := by decide,
    putErr := fun _ _ => none, getErr := fun _ => txt "key not found" }

/-- The same host, called by `caller2`. -/
def otherCallerEnv (args : List (Bytes × Bytes)) : Env :=
  { demoEnv args with initiator := txt "caller2" }

/-- The same host at a later time. -/
def laterEnv (args : List (Bytes × Bytes)) : Env :=
  { args := args, initiator := txt "caller1", now := txt "2025-06-07 08:09:10",
    now_valid := by decide,
    putErr := fun _ _ => none, getErr := fun _ => txt "key not found" }

/-- The host state with the empty store and no call made. -/
def emptyWorld : World := { store := Store.empty, log := [] }

/-- The registration of the end-to-end scenario. -/
def demoRegisterArgs : List (Bytes × Bytes) :=
  [(txt "copyright_id", txt "C1"), (txt "work_name", txt "Sunrise"), (txt "author", txt "Alice"),
   (txt "owner_address", txt "addrA"), (txt "work_type", txt "image"), (txt "description", txt "a painting")]

/-- The record the scenario registers. -/
def demoRecord : DigitalCopyright :=
  { CopyrightID := txt "C1", WorkName := txt "Sunrise", Author := txt "Alice", OwnerAddress := txt "addrA",
    RegistrationDate := txt "2024-01-02 03:04:05", WorkType := txt "image", Description := txt "a painting",
    TransactionHistory := [txt "Registered on 2024-01-02 03:04:05 by addrA"], IsDeleted := false }

/-- The host state in which the key `C1` holds the encoded `demoRecord`. -/
def demoWorld : World :=
  { store := Store.empty.put (txt "C1") (Bytes.mk (RefJson.encRecord demoRecord)), log := [] }

/-- A registration with description `A`. -/
def demoRegisterArgsA : List (Bytes × Bytes) :=
  [(txt "copyright_id", txt "C1"), (txt "work_name", txt "Sunrise"), (txt "author", txt "Alice"),
   (txt "owner_address", txt "addrA"), (txt "work_type", txt "image"), (txt "description", txt "A")]

/-- The record that `demoRegisterArgsA` registers. -/
def demoRecordA : DigitalCopyright :=
  { CopyrightID := txt "C1", WorkName := txt "Sunrise", Author := txt "Alice", OwnerAddress := txt "addrA",
    RegistrationDate := txt "2024-01-02 03:04:05", WorkType := txt "image", Description := txt "A",
    TransactionHistory := [txt "Registered on 2024-01-02 03:04:05 by addrA"], IsDeleted := false }

/-- A registration of another id with an empty description. -/
def demoRegisterArgsEmptyDesc : List (Bytes × Bytes) :=
  [(txt "copyright_id", txt "C2"), (txt "work_name", txt "Dusk"), (txt "author", txt "Bob"),
   (txt "owner_address", txt "addrC"), (txt "work_type", txt "image"), (txt "description", txt "")]

/-- A registration without the `description` key. -/
def missingDescriptionArgs : List (Bytes × Bytes) :=
  [(txt "copyright_id", txt "C2"), (txt "work_name", txt "Dusk"), (txt "author", txt "Bob"),
   (txt "owner_address", txt "addrC"), (txt "work_type", txt "image")]

/-- A host that refuses every write. -/
def refusingEnv (args : List (Bytes × Bytes)) : Env :=
  { args := args, initiator := txt "caller1", now := txt "2024-01-02 03:04:05",
    now_valid := by decide,
    putErr := fun _ _ => some (txt "storage failure"),
    getErr := fun _ => txt "key not found" }

/-- A registration under the id `contract_creator`. -/
def creatorKeyRegisterArgs : List (Bytes × Bytes) :=
  [(txt "copyright_id", txt "contract_creator"), (txt "work_name", txt "Sunrise"), (txt "author", txt "Alice"),
   (txt "owner_address", txt "addrA"), (txt "work_type", txt "image"), (txt "description", txt "a painting")]

/-- The record that `creatorKeyRegisterArgs` registers. -/
def creatorKeyRecord : DigitalCopyright :=
  { CopyrightID := txt "contract_creator", WorkName := txt "Sunrise", Author := txt "Alice",
    OwnerAddress := txt "addrA", RegistrationDate := txt "2024-01-02 03:04:05", WorkType := txt "image",
    Description := txt "a painting",
    TransactionHistory := [txt "Registered on 2024-01-02 03:04:05 by addrA"], IsDeleted := false }

/-- An initialization whose `creator` is the encoded `demoRecord`. -/
def recordAsCreatorArgs : List (Bytes × Bytes) :=
  [(txt "creator", Bytes.mk (RefJson.encRecord demoRecord))]

/-- The record `demoRecord` after its deletion. -/
def demoDeletedRecord : DigitalCopyright :=
  { CopyrightID := txt "C1", WorkName := txt "Sunrise", Author := txt "Alice", OwnerAddress := txt "addrA",
    RegistrationDate := txt "2024-01-02 03:04:05", WorkType := txt "image", Description := txt "a painting",
    TransactionHistory := [txt "Registered on 2024-01-02 03:04:05 by addrA",
      txt "Copyright marked as deleted on 2024-01-02 03:04:05 by caller caller1"],
    IsDeleted := true }

/-- The host state in which the key `C1` holds the encoded `demoDeletedRecord`. -/
def deletedWorld : World :=
  { store := Store.empty.put (txt "C1") (Bytes.mk (RefJson.encRecord demoDeletedRecord)), log := [] }

/-- The byte `0xFF`, which occurs in no valid UTF-8 text. -/
def invalidByte : Bytes := ⟨[0xFF]⟩

/-- The replacement character U+FFFD, as its UTF-8 bytes. -/
def replacementChar : Bytes := ⟨[0xEF, 0xBF, 0xBD]⟩

/-- A registration whose title (`work_name`) is the byte `0xFF`. -/
def invalidTitleRegisterArgs : List (Bytes × Bytes) :=
  [(txt "copyright_id", txt "C1"), (txt "work_name", invalidByte), (txt "author", txt "Alice"),
   (txt "owner_address", txt "addrA"), (txt "work_type", txt "image"),
   (txt "description", txt "a painting")]

/-- A registration whose holder (`owner_address`) is the byte `0xFF`. -/
def invalidHolderRegisterArgs : List (Bytes × Bytes) :=
  [(txt "copyright_id", txt "C1"), (txt "work_name", txt "Sunrise"), (txt "author", txt "Alice"),
   (txt "owner_address", invalidByte), (txt "work_type", txt "image"),
   (txt "description", txt "a painting")]

/-- A registration whose id (`copyright_id`) is the byte `0xFF`. -/
def invalidIdRegisterArgs : List (Bytes × Bytes) :=
  [(txt "copyright_id", invalidByte), (txt "work_name", txt "Sunrise"),
   (txt "author", txt "Alice"), (txt "owner_address", txt "addrA"),
   (txt "work_type", txt "image"), (txt "description", txt "a painting")]

/-! ## Properties of the UTF-8 coercion -/

namespace UTF8

theorem runeLen_le (l : List UInt8) : runeLen l ≤ 4 := by
  unfold runeLen
  repeat' split
  all_goals omega

theorem runeLen_replacement (x : List UInt8) : runeLen (0xEF :: 0xBF :: 0xBD :: x) = 3 := by
  simp [runeLen, isAscii, isTwo, isThree, isCont]

theorem runeLen_ascii (b : UInt8) (x : List UInt8) (h : isAscii b = true) :
    runeLen (b :: x) = 1 := by
  simp [runeLen, h]

theorem runeLen_two (b0 b1 : UInt8) (x : List UInt8) (h0 : isAscii b0 = false)
    (h : isTwo b0 b1 = true) : runeLen (b0 :: b1 :: x) = 2 := by
  simp [runeLen, h0, h]

theorem runeLen_three (b0 b1 b2 : UInt8) (x : List UInt8) (h0 : isAscii b0 = false)
    (h1 : isTwo b0 b1 = false) (h : isThree b0 b1 b2 = true) :
    runeLen (b0 :: b1 :: b2 :: x) = 3 := by
  simp [runeLen, h0, h1, h]

theorem runeLen_four (b0 b1 b2 b3 : UInt8) (x : List UInt8) (h0 : isAscii b0 = false)
    (h1 : isTwo b0 b1 = false) (h2 : isThree b0 b1 b2 = false)
    (h : isFour b0 b1 b2 b3 = true) : runeLen (b0 :: b1 :: b2 :: b3 :: x) = 4 := by
  simp [runeLen, h0, h1, h2, h]

/-- What a positive `runeLen` says about the head of the input. -/
theorem runeLen_pos (b : UInt8) (rest : List UInt8) (n : Nat)
    (h : runeLen (b :: rest) = n + 1) :
    (n = 0 ∧ isAscii b = true) ∨
    (n = 1 ∧ isAscii b = false ∧ ∃ b1 x, rest = b1 :: x ∧ isTwo b b1 = true) ∨
    (n = 2 ∧ isAscii b = false ∧ ∃ b1 b2 x, rest = b1 :: b2 :: x ∧ isTwo b b1 = false ∧
      isThree b b1 b2 = true) ∨
    (n = 3 ∧ isAscii b = false ∧ ∃ b1 b2 b3 x, rest = b1 :: b2 :: b3 :: x ∧
      isTwo b b1 = false ∧ isThree b b1 b2 = false ∧ isFour b b1 b2 b3 = true) := by
  cases h0 : isAscii b
  swap
  · simp [runeLen, h0] at h
    left
    exact ⟨by omega, rfl⟩
  rcases rest with _ | ⟨b1, t1⟩
  · simp [runeLen, h0] at h
  cases h1 : isTwo b b1
  swap
  · simp [runeLen, h0, h1] at h
    right; left
    exact ⟨by omega, rfl, b1, t1, rfl, h1⟩
  rcases t1 with _ | ⟨b2, t2⟩
  · simp [runeLen, h0, h1] at h
  cases h2 : isThree b b1 b2
  swap
  · simp [runeLen, h0, h1, h2] at h
    right; right; left
    exact ⟨by omega, rfl, b1, b2, t2, rfl, h1, h2⟩
  rcases t2 with _ | ⟨b3, t3⟩
  · simp [runeLen, h0, h1, h2] at h
  cases h3 : isFour b b1 b2 b3
  · simp [runeLen, h0, h1, h2, h3] at h
  · simp [runeLen, h0, h1, h2, h3] at h
    right; right; right
    exact ⟨by omega, rfl, b1, b2, b3, t3, rfl, h1, h2, h3⟩

/-- The head rune is determined by its own bytes: coercing what follows it does
not change it. -/
theorem runeLen_coerce (b : UInt8) (rest : List UInt8) (n : Nat)
    (h : runeLen (b :: rest) = n + 1) : runeLen (b :: coerce n rest) = n + 1 := by
  rcases runeLen_pos b rest n h with ⟨rfl, h0⟩ | ⟨rfl, h0, b1, x, rfl, h1⟩ |
    ⟨rfl, h0, b1, b2, x, rfl, h1, h2⟩ | ⟨rfl, h0, b1, b2, b3, x, rfl, h1, h2, h3⟩
  · exact runeLen_ascii b _ h0
  · simp only [coerce]
    exact runeLen_two b b1 _ h0 h1
  · simp only [coerce]
    exact runeLen_three b b1 b2 _ h0 h1 h2
  · simp only [coerce]
    exact runeLen_four b b1 b2 b3 _ h0 h1 h2 h3

theorem coerce_idem (l : List UInt8) : ∀ k, coerce k (coerce k l) = coerce k l := by
  induction l with
  | nil => intro k; cases k <;> rfl
  | cons b rest ih =>
    intro k
    cases k with
    | succ k => simp only [coerce, ih k]
    | zero =>
      rcases hn : runeLen (b :: rest) with _ | n
      · have h1 : coerce 0 (b :: rest) = 0xEF :: 0xBF :: 0xBD :: coerce 0 rest := by
          simp only [coerce, hn]
        rw [h1]
        have h2 : coerce 0 (0xEF :: 0xBF :: 0xBD :: coerce 0 rest)
            = 0xEF :: 0xBF :: 0xBD :: coerce 0 (coerce 0 rest) := by
          simp only [coerce, runeLen_replacement]
        rw [h2, ih 0]
      · have h1 : coerce 0 (b :: rest) = b :: coerce n rest := by
          simp only [coerce, hn]
        rw [h1]
        have h2 : coerce 0 (b :: coerce n rest) = b :: coerce n (coerce n rest) := by
          simp only [coerce, runeLen_coerce b rest n hn]
        rw [h2, ih n]

theorem coerce_eq_nil (l : List UInt8) (k : Nat) : coerce k l = [] ↔ l = [] := by
  cases l with
  | nil => cases k <;> simp [coerce]
  | cons b rest =>
    cases k with
    | succ k => simp [coerce]
    | zero =>
      rcases hn : runeLen (b :: rest) with _ | n <;> simp [coerce, hn]

theorem length_le_coerce (l : List UInt8) : ∀ k, l.length ≤ (coerce k l).length := by
  induction l with
  | nil => intro k; cases k <;> simp [coerce]
  | cons b rest ih =>
    intro k
    cases k with
    | succ k => simp only [coerce, List.length_cons]; have := ih k; omega
    | zero =>
      rcases hn : runeLen (b :: rest) with _ | n
      · simp only [coerce, hn, List.length_cons]; have := ih 0; omega
      · simp only [coerce, hn, List.length_cons]; have := ih n; omega

/-- A rune at the head of a list is still there when something is appended,
and the list holds all of its bytes. -/
theorem runeLen_append (b : UInt8) (rest x : List UInt8) (n : Nat)
    (h : runeLen (b :: rest) = n + 1) :
    runeLen (b :: (rest ++ x)) = n + 1 ∧ n ≤ rest.length := by
  rcases runeLen_pos b rest n h with ⟨rfl, h0⟩ | ⟨rfl, h0, b1, y, rfl, h1⟩ |
    ⟨rfl, h0, b1, b2, y, rfl, h1, h2⟩ | ⟨rfl, h0, b1, b2, b3, y, rfl, h1, h2, h3⟩
  · exact ⟨runeLen_ascii b _ h0, Nat.zero_le _⟩
  · exact ⟨runeLen_two b b1 _ h0 h1, by simp⟩
  · exact ⟨runeLen_three b b1 b2 _ h0 h1 h2, by simp⟩
  · exact ⟨runeLen_four b b1 b2 b3 _ h0 h1 h2 h3, by simp⟩

/-- Valid UTF-8 followed by anything: the valid part is copied and the rest is
coerced on its own. -/
theorem coerce_append (a x : List UInt8) :
    ∀ k, k ≤ a.length → coerce k a = a → coerce k (a ++ x) = a ++ coerce 0 x := by
  induction a with
  | nil =>
    intro k hk _
    have : k = 0 := by simpa using hk
    subst this
    rfl
  | cons c a ih =>
    intro k hk hv
    cases k with
    | succ k =>
      have hk' : k ≤ a.length := by simpa using hk
      have hv' : coerce k a = a := by
        simp only [coerce] at hv
        exact List.tail_eq_of_cons_eq hv
      have hstep : coerce (k + 1) (c :: (a ++ x)) = c :: coerce k (a ++ x) := by
        simp only [coerce]
      rw [List.cons_append, hstep, ih k hk' hv']
      rfl
    | zero =>
      rcases hn : runeLen (c :: a) with _ | n
      · exfalso
        have h1 : coerce 0 (c :: a) = 0xEF :: 0xBF :: 0xBD :: coerce 0 a := by
          simp only [coerce, hn]
        rw [h1] at hv
        have hlen := congrArg List.length hv
        have := length_le_coerce a 0
        simp only [List.length_cons] at hlen
        omega
      · have h1 : coerce 0 (c :: a) = c :: coerce n a := by
          simp only [coerce, hn]
        rw [h1] at hv
        have hv' : coerce n a = a := List.tail_eq_of_cons_eq hv
        obtain ⟨hlen, hle⟩ := runeLen_append c a x n hn
        have h2 : coerce 0 (c :: (a ++ x)) = c :: coerce n (a ++ x) := by
          simp only [coerce, hlen]
        rw [List.cons_append, h2, ih n hle hv']
        rfl

end UTF8

theorem txt_empty : txt "" = Bytes.mk [] := by decide

theorem Bytes.append_data (a b : Bytes) : (a ++ b).data = a.data ++ b.data := rfl

theorem Bytes.toValidUTF8_idem (s : Bytes) : s.toValidUTF8.toValidUTF8 = s.toValidUTF8 := by
  simp [Bytes.toValidUTF8, UTF8.coerce_idem]

theorem Bytes.isValidUTF8_toValidUTF8 (s : Bytes) : s.toValidUTF8.IsValidUTF8 :=
  Bytes.toValidUTF8_idem s

theorem Bytes.toValidUTF8_eq_empty (s : Bytes) : s.toValidUTF8 = txt "" ↔ s = txt "" := by
  rcases s with ⟨l⟩
  simp [Bytes.toValidUTF8, txt_empty, UTF8.coerce_eq_nil]

theorem Bytes.toValidUTF8_ne_empty (s : Bytes) (h : s ≠ txt "") : s.toValidUTF8 ≠ txt "" :=
  fun h' => h ((Bytes.toValidUTF8_eq_empty s).1 h')

theorem Bytes.toValidUTF8_empty : (txt "").toValidUTF8 = txt "" :=
  (Bytes.toValidUTF8_eq_empty _).2 rfl

/-- Valid UTF-8 strings concatenate to a valid UTF-8 string. -/
theorem Bytes.IsValidUTF8.append {a b : Bytes} (ha : a.IsValidUTF8) (hb : b.IsValidUTF8) :
    (a ++ b).IsValidUTF8 := by
  rcases a with ⟨la⟩
  rcases b with ⟨lb⟩
  have ha' : UTF8.coerce 0 la = la := by
    have := congrArg Bytes.data ha
    simpa [Bytes.toValidUTF8] using this
  have hb' : UTF8.coerce 0 lb = lb := by
    have := congrArg Bytes.data hb
    simpa [Bytes.toValidUTF8] using this
  show Bytes.toValidUTF8 (Bytes.mk la ++ Bytes.mk lb) = Bytes.mk la ++ Bytes.mk lb
  have h := UTF8.coerce_append la lb 0 (Nat.zero_le _) ha'
  rw [hb'] at h
  show Bytes.mk (UTF8.coerce 0 (la ++ lb)) = Bytes.mk (la ++ lb)
  rw [h]

theorem DigitalCopyright.toValidUTF8_twice (r : DigitalCopyright) :
    r.toValidUTF8.toValidUTF8 = r.toValidUTF8 := by
  simp [DigitalCopyright.toValidUTF8, Bytes.toValidUTF8_idem]

/-! ## Properties of the reference codec -/

namespace RefJson

theorem readBody_escape (s rest : List UInt8) :
    readBody false (escape s ++ 0x22 :: rest) = some (s, rest) := by
  induction s with
  | nil => simp [escape, readBody]
  | cons c cs ih =>
    by_cases h1 : c = 0x22
    · subst h1
      simp [escape, readBody, ih, consRead]
    · by_cases h2 : c = 0x5C
      · subst h2
        simp [escape, readBody, ih, consRead]
      · simp [escape, readBody, ih, h1, h2, consRead]

theorem readString_quote (s : Bytes) (rest : List UInt8) :
    readString (quote s ++ rest) = some (s.toValidUTF8, rest) := by
  simp [quote, readString, readBody_escape, Bytes.toValidUTF8, UTF8.coerce_idem]

theorem readString_valid (inp rest : List UInt8) (s : Bytes)
    (h : readString inp = some (s, rest)) : s.toValidUTF8 = s := by
  cases inp with
  | nil => simp [readString] at h
  | cons c t =>
    by_cases hc : c = 0x22
    · rcases hb : readBody false t with _ | p
      · simp [readString, hc, hb] at h
      · simp [readString, hc, hb] at h
        rw [← h.1]
        exact Bytes.toValidUTF8_idem (Bytes.mk p.1)
    · simp [readString, hc] at h

theorem expect_append (l rest : List UInt8) : expect l (l ++ rest) = some rest := by
  induction l with
  | nil => simp [expect]
  | cons c cs ih => simp [expect, ih]

theorem readElems_encElems (ts : List Bytes) :
    ∀ (s : Bytes) (n : Nat) (rest : List UInt8), ts.length < n →
      readElems n (encElems s ts ++ rest)
        = some (s.toValidUTF8 :: ts.map Bytes.toValidUTF8, rest) := by
  induction ts with
  | nil =>
    intro s n rest hn
    cases n with
    | zero => omega
    | succ n => simp [readElems, encElems, readString_quote]
  | cons t ts ih =>
    intro s n rest hn
    cases n with
    | zero => omega
    | succ n =>
      have hlt : ts.length < n := by simpa using hn
      simp [readElems, encElems, readString_quote, ih t n rest hlt]

theorem readElems_valid : ∀ (n : Nat) (inp rest : List UInt8) (l : List Bytes),
    readElems n inp = some (l, rest) → l.map Bytes.toValidUTF8 = l := by
  intro n
  induction n with
  | zero => intro inp rest l h; simp [readElems] at h
  | succ n ih =>
    intro inp rest l h
    rcases hs : readString inp with _ | ⟨s, r⟩
    · simp [readElems, hs] at h
    · have hsv := readString_valid inp r s hs
      rcases r with _ | ⟨c, r2⟩
      · simp [readElems, hs] at h
      · by_cases hc : c = 0x2C
        · rcases he : readElems n r2 with _ | p
          · simp [readElems, hs, hc, he] at h
          · simp [readElems, hs, hc, he] at h
            have hp := ih r2 p.2 p.1 (by rw [he])
            rw [← h.1]
            simp [hsv, hp]
        · by_cases hd : c = 0x5D
          · simp [readElems, hs, hc, hd] at h
            rw [← h.1]
            simp [hsv]
          · simp [readElems, hs, hc, hd] at h

theorem length_encElems (ts : List Bytes) :
    ∀ s : Bytes, ts.length < (encElems s ts).length := by
  induction ts with
  | nil => intro s; simp [encElems, quote]
  | cons t ts ih =>
    intro s
    have := ih t
    simp [encElems, quote]
    omega

theorem readArray_encArray (l : List Bytes) (rest : List UInt8) :
    readArray (encArray l ++ rest) = some (l.map Bytes.toValidUTF8, rest) := by
  cases l with
  | nil => simp only [readArray, encArray, expect_append, List.map_nil]
  | cons s ts =>
    have hlen : ts.length < (encElems s ts ++ rest).length := by
      have := length_encElems ts s
      simp
      omega
    have hnull : expect litNull (0x5B :: (encElems s ts ++ rest)) = none := by
      have : litNull = [0x6E, 0x75, 0x6C, 0x6C] := by decide
      rw [this]
      simp [expect]
    simp only [readArray, encArray, List.cons_append, hnull, if_true, List.map_cons,
      readElems_encElems ts s _ rest hlen]

theorem readArray_valid (inp rest : List UInt8) (l : List Bytes)
    (h : readArray inp = some (l, rest)) : l.map Bytes.toValidUTF8 = l := by
  unfold readArray at h
  rcases hn : expect litNull inp with _ | r
  · rw [hn] at h
    cases inp with
    | nil => simp at h
    | cons c r =>
      by_cases hc : c = 0x5B
      · simp only [hc, if_true] at h
        exact readElems_valid _ _ _ _ h
      · simp [hc] at h
  · rw [hn] at h
    simp at h
    rw [h.1]
    rfl

theorem readBool_encBool (b : Bool) (rest : List UInt8) :
    readBool (encBool b ++ rest) = some (b, rest) := by
  cases b with
  | true => simp only [readBool, encBool, if_true, expect_append]
  | false =>
    have h : expect litTrue (litFalse ++ rest) = none := by
      have h1 : litTrue = [0x74, 0x72, 0x75, 0x65] := by decide
      have h2 : litFalse = [0x66, 0x61, 0x6C, 0x73, 0x65] := by decide
      rw [h1, h2]
      simp [expect]
    simp only [readBool, encBool, h, expect_append, Bool.false_eq_true, if_false]

theorem decRecord_encRecord (r : DigitalCopyright) :
    decRecord (encRecord r) = some r.toValidUTF8 := by
  simp only [decRecord, encRecord, expect_append, readString_quote, readBool_encBool,
    readArray_encArray, List.append_assoc]
  have h : expect litClose litClose = some [] := by
    have := expect_append litClose []
    simpa using this
  simp [h, DigitalCopyright.toValidUTF8]

theorem decRecord_valid (inp : List UInt8) (r : DigitalCopyright)
    (h : decRecord inp = some r) : r.toValidUTF8 = r := by
  unfold decRecord at h
  repeat' split at h
  all_goals first
    | (cases h; done)
    | (cases h
       simp only [DigitalCopyright.toValidUTF8]
       congr 1 <;> first
         | exact readString_valid _ _ _ (by assumption)
         | exact readArray_valid _ _ _ (by assumption))

end RefJson

theorem refJson_unmarshal_encRecord (r : DigitalCopyright) :
    refJson.Unmarshal (Bytes.mk (RefJson.encRecord r)) = Except.ok r.toValidUTF8 := by
  simp [refJson, RefJson.decRecord_encRecord]

/-- The reference codec behaves as `encoding/json` does. -/
theorem refJson_faithful : refJson.Faithful := by
  constructor
  · intro r
    exact ⟨Bytes.mk (RefJson.encRecord r), rfl, refJson_unmarshal_encRecord r⟩
  · intro b r h
    simp only [refJson] at h
    rcases hd : RefJson.decRecord b.data with _ | r0
    · rw [hd] at h
      cases h
    · rw [hd] at h
      cases h
      exact RefJson.decRecord_valid _ _ hd

theorem refJson_unmarshal_of_valid (r : DigitalCopyright) (hv : r.toValidUTF8 = r) :
    refJson.Unmarshal (Bytes.mk (RefJson.encRecord r)) = Except.ok r := by
  rw [refJson_unmarshal_encRecord, hv]

theorem demoRecord_valid : demoRecord.toValidUTF8 = demoRecord := by decide

theorem refJson_unmarshal_demoRecord :
    refJson.Unmarshal (Bytes.mk (RefJson.encRecord demoRecord)) = Except.ok demoRecord := by
  rw [refJson_unmarshal_encRecord, demoRecord_valid]

set_option maxRecDepth 8192 in
theorem demoDeletedRecord_valid : demoDeletedRecord.toValidUTF8 = demoDeletedRecord := by
  decide

theorem refJson_unmarshal_demoDeletedRecord :
    refJson.Unmarshal (Bytes.mk (RefJson.encRecord demoDeletedRecord))
      = Except.ok demoDeletedRecord := by
  rw [refJson_unmarshal_encRecord, demoDeletedRecord_valid]

/-! ## The host calls -/

@[simp] theorem eventsOf_append (l₁ l₂ : List HostCall) :
    eventsOf (l₁ ++ l₂) = eventsOf l₁ ++ eventsOf l₂ := by
  induction l₁ with
  | nil => rfl
  | cons c t ih => cases c <;> simp [eventsOf, ih]

@[simp] theorem readsOf_append (l₁ l₂ : List HostCall) :
    readsOf (l₁ ++ l₂) = readsOf l₁ ++ readsOf l₂ := by
  induction l₁ with
  | nil => rfl
  | cons c t ih => cases c <;> simp [readsOf, ih]

@[simp] theorem writesOf_append (l₁ l₂ : List HostCall) :
    writesOf (l₁ ++ l₂) = writesOf l₁ ++ writesOf l₂ := by
  induction l₁ with
  | nil => rfl
  | cons c t ih => cases c <;> simp [writesOf, ih]

theorem Store.put_same (s : Store) (k v : Bytes) : s.put k v k = some v := by
  simp [Store.put]

theorem Store.put_other (s : Store) (k v k' : Bytes) (h : k' ≠ k) : s.put k v k' = s k' := by
  simp [Store.put, h]

theorem recordAt_of_store (J : Json) (s : Store) (k b : Bytes) (r : DigitalCopyright)
    (hs : s k = some b) (hu : J.Unmarshal b = Except.ok r) : recordAt J s k = some r := by
  simp [recordAt, hs, hu]

theorem recordAt_put_same (J : Json) (s : Store) (k b : Bytes) (r : DigitalCopyright)
    (hu : J.Unmarshal b = Except.ok r) : recordAt J (s.put k b) k = some r :=
  recordAt_of_store J _ k b r (Store.put_same s k b) hu

theorem FailsCleanly.store_eq {w : World} {res : Response × World} (h : FailsCleanly w res) :
    res.2.store = w.store := h.2.1

theorem FailsCleanly.events_eq {w : World} {res : Response × World} (h : FailsCleanly w res) :
    res.2.events = w.events := by
  obtain ⟨_, _, l, hl, he, _, _⟩ := h
  simp [World.events, hl, he]

theorem FailsCleanly.not_isOK {w : World} {res : Response × World} (h : FailsCleanly w res) :
    res.1.isOK = false := by
  obtain ⟨hf, _⟩ := h
  cases hres : res.1 <;> simp_all [Response.isFailure, Response.isOK]

/-! ## Case analysis of the contract methods

Each method either fails without effect or takes its one successful path, whose
conditions and result are spelled out. -/

theorem Initialize_cases (e : Env) (w : World) :
    FailsCleanly w (Initialize e w) ∨
    ∃ creator,
      e.args.lookup (txt "creator") = some creator ∧ creator ≠ txt "" ∧
      e.putErr (txt "contract_creator") creator = none ∧
      Initialize e w =
        (Response.OK (txt "Initialized successfully by " ++ creator),
         { store := w.store.put (txt "contract_creator") creator,
           log := w.log ++ [HostCall.putObject (txt "contract_creator") creator true] }) := by
  rcases h1 : e.args.lookup (txt "creator") with _ | creator
  · left
    simp [FailsCleanly, Initialize, h1, Response.isFailure, eventsOf, readsOf, writesOf]
  by_cases n1 : creator = txt ""
  · left
    simp [FailsCleanly, Initialize, h1, n1, Response.isFailure, eventsOf, readsOf, writesOf]
  rcases hp : e.putErr (txt "contract_creator") creator with _ | err
  · right
    exact ⟨creator, rfl, n1, hp, by simp [Initialize, h1, n1, PutObject, hp]⟩
  · left
    simp [FailsCleanly, Initialize, h1, n1, PutObject, hp, Response.isFailure, Response.Error,
      eventsOf, readsOf, writesOf]

theorem RegisterCopyright_cases (J : Json) (e : Env) (w : World) :
    FailsCleanly w (RegisterCopyright J e w) ∨
    ∃ cid wn author owner wt desc b,
      e.args.lookup (txt "copyright_id") = some cid ∧ e.args.lookup (txt "work_name") = some wn ∧
      e.args.lookup (txt "author") = some author ∧ e.args.lookup (txt "owner_address") = some owner ∧
      e.args.lookup (txt "work_type") = some wt ∧ e.args.lookup (txt "description") = some desc ∧
      cid ≠ txt "" ∧ wn ≠ txt "" ∧ author ≠ txt "" ∧ owner ≠ txt "" ∧ wt ≠ txt "" ∧
      w.store cid = none ∧
      J.Marshal
        { CopyrightID := cid, WorkName := wn, Author := author, OwnerAddress := owner,
          RegistrationDate := e.now, WorkType := wt, Description := desc,
          TransactionHistory := [txt "Registered on " ++ e.now ++ txt " by " ++ owner],
          IsDeleted := false } = Except.ok b ∧
      e.putErr cid b = none ∧
      RegisterCopyright J e w =
        (Response.OK (txt "Copyright " ++ cid ++ txt " registered successfully"),
         { store := w.store.put cid b,
           log := w.log ++ [HostCall.getObject cid, HostCall.putObject cid b true,
             HostCall.emitJSONEvent (txt "CopyrightRegistered")
               [(txt "copyrightId", cid), (txt "workName", wn), (txt "owner", owner)]] }) := by
  rcases h1 : e.args.lookup (txt "copyright_id") with _ | cid
  · left
    simp [FailsCleanly, RegisterCopyright, h1, Response.isFailure, eventsOf, readsOf, writesOf]
  rcases h2 : e.args.lookup (txt "work_name") with _ | wn
  · left
    simp [FailsCleanly, RegisterCopyright, h1, h2, Response.isFailure, eventsOf, readsOf,
      writesOf]
  rcases h3 : e.args.lookup (txt "author") with _ | author
  · left
    simp [FailsCleanly, RegisterCopyright, h1, h2, h3, Response.isFailure, eventsOf, readsOf,
      writesOf]
  rcases h4 : e.args.lookup (txt "owner_address") with _ | owner
  · left
    simp [FailsCleanly, RegisterCopyright, h1, h2, h3, h4, Response.isFailure, eventsOf, readsOf,
      writesOf]
  rcases h5 : e.args.lookup (txt "work_type") with _ | wt
  · left
    simp [FailsCleanly, RegisterCopyright, h1, h2, h3, h4, h5, Response.isFailure, eventsOf,
      readsOf, writesOf]
  rcases h6 : e.args.lookup (txt "description") with _ | desc
  · left
    simp [FailsCleanly, RegisterCopyright, h1, h2, h3, h4, h5, h6, Response.isFailure, eventsOf,
      readsOf, writesOf]
  by_cases hv : cid = txt "" ∨ wn = txt "" ∨ author = txt "" ∨ owner = txt "" ∨ wt = txt ""
  · left
    simp [FailsCleanly, RegisterCopyright, h1, h2, h3, h4, h5, h6, hv, Response.isFailure,
      eventsOf, readsOf, writesOf]
  have hv' := hv
  simp only [not_or] at hv'
  obtain ⟨n1, n2, n3, n4, n5⟩ := hv'
  rcases hs : w.store cid with _ | b0
  swap
  · left
    simp [FailsCleanly, RegisterCopyright, h1, h2, h3, h4, h5, h6, hv, GetObject, hs,
      Response.isFailure, eventsOf, readsOf, writesOf]
  obtain ⟨mres, hm⟩ : ∃ x, J.Marshal
      { CopyrightID := cid, WorkName := wn, Author := author, OwnerAddress := owner,
        RegistrationDate := e.now, WorkType := wt, Description := desc,
        TransactionHistory := [txt "Registered on " ++ e.now ++ txt " by " ++ owner],
        IsDeleted := false } = x := ⟨_, rfl⟩
  rcases mres with err | b
  · left
    simp [FailsCleanly, RegisterCopyright, h1, h2, h3, h4, h5, h6, hv, GetObject, hs, hm,
      Response.isFailure, Response.Error, eventsOf, readsOf, writesOf]
  rcases hp : e.putErr cid b with _ | err
  swap
  · left
    simp [FailsCleanly, RegisterCopyright, h1, h2, h3, h4, h5, h6, hv, GetObject, hs, hm,
      PutObject, hp, Response.isFailure, Response.Error, eventsOf, readsOf, writesOf]
  right
  refine ⟨cid, wn, author, owner, wt, desc, b, rfl, rfl, rfl, rfl, rfl, rfl, n1, n2, n3, n4, n5,
    hs, hm, hp, ?_⟩
  simp [RegisterCopyright, h1, h2, h3, h4, h5, h6, hv, GetObject, hs, hm, PutObject, hp,
    EmitJSONEvent]

theorem QueryCopyright_cases (J : Json) (e : Env) (w : World) :
    FailsCleanly w (QueryCopyright J e w) ∨
    ∃ cid b r,
      e.args.lookup (txt "copyright_id") = some cid ∧ cid ≠ txt "" ∧ w.store cid = some b ∧
      J.Unmarshal b = Except.ok r ∧ r.IsDeleted = false ∧
      QueryCopyright J e w =
        (Response.OK b, { store := w.store, log := w.log ++ [HostCall.getObject cid] }) := by
  rcases h1 : e.args.lookup (txt "copyright_id") with _ | cid
  · left
    simp [FailsCleanly, QueryCopyright, h1, Response.isFailure, eventsOf, readsOf, writesOf]
  by_cases n1 : cid = txt ""
  · left
    simp [FailsCleanly, QueryCopyright, h1, n1, Response.isFailure, eventsOf, readsOf, writesOf]
  rcases hs : w.store cid with _ | b
  · left
    simp [FailsCleanly, QueryCopyright, h1, n1, GetObject, hs, Response.isFailure,
      Response.Error, eventsOf, readsOf, writesOf]
  rcases hu : J.Unmarshal b with err | r
  · left
    simp [FailsCleanly, QueryCopyright, h1, n1, GetObject, hs, hu, Response.isFailure,
      Response.Error, eventsOf, readsOf, writesOf]
  rcases hl : r.IsDeleted with _ | _
  · right
    exact ⟨cid, b, r, rfl, n1, hs, hu, hl, by simp [QueryCopyright, h1, n1, GetObject, hs, hu, hl]⟩
  · left
    simp [FailsCleanly, QueryCopyright, h1, n1, GetObject, hs, hu, hl, Response.isFailure,
      Response.Error, eventsOf, readsOf, writesOf]

theorem TransferCopyright_cases (J : Json) (e : Env) (w : World) :
    FailsCleanly w (TransferCopyright J e w) ∨
    ∃ cid n b r b',
      e.args.lookup (txt "copyright_id") = some cid ∧ e.args.lookup (txt "new_owner_address") = some n ∧
      cid ≠ txt "" ∧ n ≠ txt "" ∧ w.store cid = some b ∧ J.Unmarshal b = Except.ok r ∧
      r.IsDeleted = false ∧
      J.Marshal
        { r with
          OwnerAddress := n
          TransactionHistory := r.TransactionHistory ++
            [txt "Transferred from " ++ r.OwnerAddress ++ txt " to " ++ n ++ txt " on " ++ e.now] }
        = Except.ok b' ∧
      e.putErr cid b' = none ∧
      TransferCopyright J e w =
        (Response.OK (txt "Copyright " ++ cid ++ txt " transferred to " ++ n),
         { store := w.store.put cid b',
           log := w.log ++ [HostCall.getObject cid, HostCall.putObject cid b' true,
             HostCall.emitJSONEvent (txt "CopyrightTransferred")
               [(txt "copyrightId", cid), (txt "oldOwner", r.OwnerAddress), (txt "newOwner", n)]] }) := by
  rcases h1 : e.args.lookup (txt "copyright_id") with _ | cid
  · left
    simp [FailsCleanly, TransferCopyright, h1, Response.isFailure, eventsOf, readsOf, writesOf]
  rcases h2 : e.args.lookup (txt "new_owner_address") with _ | n
  · left
    simp [FailsCleanly, TransferCopyright, h1, h2, Response.isFailure, eventsOf, readsOf,
      writesOf]
  by_cases n1 : cid = txt ""
  · left
    simp [FailsCleanly, TransferCopyright, h1, h2, n1, Response.isFailure, eventsOf, readsOf,
      writesOf]
  by_cases n2 : n = txt ""
  · left
    simp [FailsCleanly, TransferCopyright, h1, h2, n2, Response.isFailure, eventsOf, readsOf,
      writesOf]
  rcases hs : w.store cid with _ | b
  · left
    simp [FailsCleanly, TransferCopyright, h1, h2, n1, n2, GetObject, hs, Response.isFailure,
      Response.Error, eventsOf, readsOf, writesOf]
  rcases hu : J.Unmarshal b with err | r
  · left
    simp [FailsCleanly, TransferCopyright, h1, h2, n1, n2, GetObject, hs, hu,
      Response.isFailure, Response.Error, eventsOf, readsOf, writesOf]
  rcases r with ⟨rid, rwn, rau, rown, rdate, rwt, rdesc, rhist, rdel⟩
  cases rdel
  swap
  · left
    simp [FailsCleanly, TransferCopyright, h1, h2, n1, n2, GetObject, hs, hu,
      Response.isFailure, Response.Error, eventsOf, readsOf, writesOf]
  obtain ⟨mres, hm⟩ : ∃ x, J.Marshal
      { CopyrightID := rid, WorkName := rwn, Author := rau, OwnerAddress := n,
        RegistrationDate := rdate, WorkType := rwt, Description := rdesc,
        TransactionHistory := rhist ++
          [txt "Transferred from " ++ rown ++ txt " to " ++ n ++ txt " on " ++ e.now],
        IsDeleted := false } = x := ⟨_, rfl⟩
  rcases mres with err | b'
  · left
    simp [FailsCleanly, TransferCopyright, h1, h2, n1, n2, GetObject, hs, hu, hm,
      Response.isFailure, Response.Error, eventsOf, readsOf, writesOf]
  rcases hp : e.putErr cid b' with _ | err
  swap
  · left
    simp [FailsCleanly, TransferCopyright, h1, h2, n1, n2, GetObject, hs, hu, hm, PutObject, hp,
      Response.isFailure, Response.Error, eventsOf, readsOf, writesOf]
  right
  refine ⟨cid, n, b, _, b', rfl, rfl, n1, n2, hs, hu, rfl, hm, hp, ?_⟩
  simp [TransferCopyright, h1, h2, n1, n2, GetObject, hs, hu, hm, PutObject, hp, EmitJSONEvent]

theorem UpdateCopyrightDescription_cases (J : Json) (e : Env) (w : World) :
    FailsCleanly w (UpdateCopyrightDescription J e w) ∨
    ∃ cid b r b',
      e.args.lookup (txt "copyright_id") = some cid ∧ cid ≠ txt "" ∧ w.store cid = some b ∧
      J.Unmarshal b = Except.ok r ∧ r.IsDeleted = false ∧
      J.Marshal
        { r with
          Description := (e.args.lookup (txt "new_description")).getD (txt "")
          TransactionHistory := r.TransactionHistory ++
            [txt "Description updated on " ++ e.now ++ txt ". Old: \x27" ++ r.Description
              ++ txt "\x27, New: \x27" ++ (e.args.lookup (txt "new_description")).getD (txt "") ++ txt "\x27"] }
        = Except.ok b' ∧
      e.putErr cid b' = none ∧
      UpdateCopyrightDescription J e w =
        (Response.OK (txt "Description for copyright " ++ cid ++ txt " updated"),
         { store := w.store.put cid b',
           log := w.log ++ [HostCall.getObject cid, HostCall.putObject cid b' true,
             HostCall.emitJSONEvent (txt "CopyrightDescriptionUpdated")
               [(txt "copyrightId", cid),
                (txt "newDescription", (e.args.lookup (txt "new_description")).getD (txt ""))]] }) := by
  have hnd : (match e.args.lookup (txt "new_description") with
      | some d => d
      | none => txt "") = (e.args.lookup (txt "new_description")).getD (txt "") := by
    cases e.args.lookup (txt "new_description") <;> rfl
  rcases h1 : e.args.lookup (txt "copyright_id") with _ | cid
  · left
    simp [FailsCleanly, UpdateCopyrightDescription, h1, Response.isFailure, eventsOf, readsOf,
      writesOf]
  by_cases n1 : cid = txt ""
  · left
    simp [FailsCleanly, UpdateCopyrightDescription, h1, n1, Response.isFailure, eventsOf,
      readsOf, writesOf]
  rcases hs : w.store cid with _ | b
  · left
    simp [FailsCleanly, UpdateCopyrightDescription, h1, n1, GetObject, hs, Response.isFailure,
      Response.Error, eventsOf, readsOf, writesOf]
  rcases hu : J.Unmarshal b with err | r
  · left
    simp [FailsCleanly, UpdateCopyrightDescription, h1, n1, GetObject, hs, hu,
      Response.isFailure, Response.Error, eventsOf, readsOf, writesOf]
  rcases r with ⟨rid, rwn, rau, rown, rdate, rwt, rdesc, rhist, rdel⟩
  cases rdel
  swap
  · left
    simp [FailsCleanly, UpdateCopyrightDescription, h1, n1, GetObject, hs, hu,
      Response.isFailure, Response.Error, eventsOf, readsOf, writesOf]
  obtain ⟨mres, hm⟩ : ∃ x, J.Marshal
      { CopyrightID := rid, WorkName := rwn, Author := rau, OwnerAddress := rown,
        RegistrationDate := rdate, WorkType := rwt,
        Description := (e.args.lookup (txt "new_description")).getD (txt ""),
        TransactionHistory := rhist ++
          [txt "Description updated on " ++ e.now ++ txt ". Old: \x27" ++ rdesc
            ++ txt "\x27, New: \x27" ++ (e.args.lookup (txt "new_description")).getD (txt "") ++ txt "\x27"],
        IsDeleted := false } = x := ⟨_, rfl⟩
  rcases mres with err | b'
  · left
    simp [FailsCleanly, UpdateCopyrightDescription, h1, n1, GetObject, hs, hu, hnd, hm,
      Response.isFailure, Response.Error, eventsOf, readsOf, writesOf]
  rcases hp : e.putErr cid b' with _ | err
  swap
  · left
    simp [FailsCleanly, UpdateCopyrightDescription, h1, n1, GetObject, hs, hu, hnd, hm,
      PutObject, hp, Response.isFailure, Response.Error, eventsOf, readsOf, writesOf]
  right
  refine ⟨cid, b, _, b', rfl, n1, hs, hu, rfl, hm, hp, ?_⟩
  simp [UpdateCopyrightDescription, h1, n1, GetObject, hs, hu, hnd, hm, PutObject, hp,
    EmitJSONEvent]

theorem DeleteCopyright_cases (J : Json) (e : Env) (w : World) :
    FailsCleanly w (DeleteCopyright J e w) ∨
    ∃ cid b r b',
      e.args.lookup (txt "copyright_id") = some cid ∧ cid ≠ txt "" ∧ w.store cid = some b ∧
      J.Unmarshal b = Except.ok r ∧ r.IsDeleted = false ∧
      J.Marshal
        { r with
          IsDeleted := true
          TransactionHistory := r.TransactionHistory ++
            [txt "Copyright marked as deleted on " ++ e.now ++ txt " by caller " ++ e.initiator] }
        = Except.ok b' ∧
      e.putErr cid b' = none ∧
      DeleteCopyright J e w =
        (Response.OK (txt "Copyright " ++ cid ++ txt " marked as deleted"),
         { store := w.store.put cid b',
           log := w.log ++ [HostCall.getObject cid, HostCall.putObject cid b' true,
             HostCall.emitJSONEvent (txt "CopyrightDeleted")
               [(txt "copyrightId", cid), (txt "deletedBy", e.initiator)]] }) := by
  rcases h1 : e.args.lookup (txt "copyright_id") with _ | cid
  · left
    simp [FailsCleanly, DeleteCopyright, h1, Response.isFailure, eventsOf, readsOf, writesOf]
  by_cases n1 : cid = txt ""
  · left
    simp [FailsCleanly, DeleteCopyright, h1, n1, Response.isFailure, eventsOf, readsOf, writesOf]
  rcases hs : w.store cid with _ | b
  · left
    simp [FailsCleanly, DeleteCopyright, h1, n1, GetObject, hs, Response.isFailure,
      Response.Error, eventsOf, readsOf, writesOf]
  rcases hu : J.Unmarshal b with err | r
  · left
    simp [FailsCleanly, DeleteCopyright, h1, n1, GetObject, hs, hu, Response.isFailure,
      Response.Error, eventsOf, readsOf, writesOf]
  rcases r with ⟨rid, rwn, rau, rown, rdate, rwt, rdesc, rhist, rdel⟩
  cases rdel
  swap
  · left
    simp [FailsCleanly, DeleteCopyright, h1, n1, GetObject, hs, hu, Response.isFailure,
      Response.Error, eventsOf, readsOf, writesOf]
  obtain ⟨mres, hm⟩ : ∃ x, J.Marshal
      { CopyrightID := rid, WorkName := rwn, Author := rau, OwnerAddress := rown,
        RegistrationDate := rdate, WorkType := rwt, Description := rdesc,
        TransactionHistory := rhist ++
          [txt "Copyright marked as deleted on " ++ e.now ++ txt " by caller " ++ e.initiator],
        IsDeleted := true } = x := ⟨_, rfl⟩
  rcases mres with err | b'
  · left
    simp [FailsCleanly, DeleteCopyright, h1, n1, GetObject, hs, hu, hm, Response.isFailure,
      Response.Error, eventsOf, readsOf, writesOf]
  rcases hp : e.putErr cid b' with _ | err
  swap
  · left
    simp [FailsCleanly, DeleteCopyright, h1, n1, GetObject, hs, hu, hm, PutObject, hp,
      Response.isFailure, Response.Error, eventsOf, readsOf, writesOf]
  right
  refine ⟨cid, b, _, b', rfl, n1, hs, hu, rfl, hm, hp, ?_⟩
  simp [DeleteCopyright, h1, n1, GetObject, hs, hu, hm, PutObject, hp, EmitJSONEvent]

/-! ## The successful and the refused paths, one by one -/

theorem RegisterCopyright_fresh (J : Json) (e : Env) (w : World)
    (cid wn author owner wt desc b : Bytes)
    (h1 : e.args.lookup (txt "copyright_id") = some cid)
    (h2 : e.args.lookup (txt "work_name") = some wn)
    (h3 : e.args.lookup (txt "author") = some author)
    (h4 : e.args.lookup (txt "owner_address") = some owner)
    (h5 : e.args.lookup (txt "work_type") = some wt)
    (h6 : e.args.lookup (txt "description") = some desc)
    (n1 : cid ≠ txt "") (n2 : wn ≠ txt "") (n3 : author ≠ txt "") (n4 : owner ≠ txt "") (n5 : wt ≠ txt "")
    (hfresh : w.store cid = none)
    (hm : J.Marshal
      { CopyrightID := cid, WorkName := wn, Author := author, OwnerAddress := owner,
        RegistrationDate := e.now, WorkType := wt, Description := desc,
        TransactionHistory := [txt "Registered on " ++ e.now ++ txt " by " ++ owner],
        IsDeleted := false } = Except.ok b)
    (hput : e.putErr cid b = none) :
    RegisterCopyright J e w =
      (Response.OK (txt "Copyright " ++ cid ++ txt " registered successfully"),
       { store := w.store.put cid b,
         log := w.log ++ [HostCall.getObject cid, HostCall.putObject cid b true,
           HostCall.emitJSONEvent (txt "CopyrightRegistered")
             [(txt "copyrightId", cid), (txt "workName", wn), (txt "owner", owner)]] }) := by
  simp [RegisterCopyright, h1, h2, h3, h4, h5, h6, n1, n2, n3, n4, n5, GetObject, hfresh, hm,
    PutObject, hput, EmitJSONEvent]

theorem RegisterCopyright_exists (J : Json) (e : Env) (w : World)
    (cid wn author owner wt desc b : Bytes)
    (h1 : e.args.lookup (txt "copyright_id") = some cid)
    (h2 : e.args.lookup (txt "work_name") = some wn)
    (h3 : e.args.lookup (txt "author") = some author)
    (h4 : e.args.lookup (txt "owner_address") = some owner)
    (h5 : e.args.lookup (txt "work_type") = some wt)
    (h6 : e.args.lookup (txt "description") = some desc)
    (n1 : cid ≠ txt "") (n2 : wn ≠ txt "") (n3 : author ≠ txt "") (n4 : owner ≠ txt "") (n5 : wt ≠ txt "")
    (hs : w.store cid = some b) :
    RegisterCopyright J e w =
      (Response.Errors (txt "copyright ID " ++ cid ++ txt " already exists"),
       { store := w.store, log := w.log ++ [HostCall.getObject cid] }) := by
  simp [RegisterCopyright, h1, h2, h3, h4, h5, h6, n1, n2, n3, n4, n5, GetObject, hs]

theorem QueryCopyright_live (J : Json) (e : Env) (w : World) (cid b : Bytes)
    (r : DigitalCopyright)
    (h1 : e.args.lookup (txt "copyright_id") = some cid) (n1 : cid ≠ txt "")
    (hs : w.store cid = some b) (hu : J.Unmarshal b = Except.ok r) (hl : r.IsDeleted = false) :
    QueryCopyright J e w =
      (Response.OK b, { store := w.store, log := w.log ++ [HostCall.getObject cid] }) := by
  simp [QueryCopyright, h1, n1, GetObject, hs, hu, hl]

theorem QueryCopyright_deleted (J : Json) (e : Env) (w : World) (cid b : Bytes)
    (r : DigitalCopyright)
    (h1 : e.args.lookup (txt "copyright_id") = some cid) (n1 : cid ≠ txt "")
    (hs : w.store cid = some b) (hu : J.Unmarshal b = Except.ok r) (hl : r.IsDeleted = true) :
    QueryCopyright J e w =
      (Response.Errors (txt "copyright " ++ cid ++ txt " has been deleted"),
       { store := w.store, log := w.log ++ [HostCall.getObject cid] }) := by
  simp [QueryCopyright, h1, n1, GetObject, hs, hu, hl, Response.Error]

theorem TransferCopyright_live (J : Json) (e : Env) (w : World) (cid n b b' : Bytes)
    (r : DigitalCopyright)
    (h1 : e.args.lookup (txt "copyright_id") = some cid)
    (h2 : e.args.lookup (txt "new_owner_address") = some n)
    (n1 : cid ≠ txt "") (n2 : n ≠ txt "")
    (hs : w.store cid = some b) (hu : J.Unmarshal b = Except.ok r) (hl : r.IsDeleted = false)
    (hm : J.Marshal
      { r with
        OwnerAddress := n
        TransactionHistory := r.TransactionHistory ++
          [txt "Transferred from " ++ r.OwnerAddress ++ txt " to " ++ n ++ txt " on " ++ e.now] }
      = Except.ok b')
    (hput : e.putErr cid b' = none) :
    TransferCopyright J e w =
      (Response.OK (txt "Copyright " ++ cid ++ txt " transferred to " ++ n),
       { store := w.store.put cid b',
         log := w.log ++ [HostCall.getObject cid, HostCall.putObject cid b' true,
           HostCall.emitJSONEvent (txt "CopyrightTransferred")
             [(txt "copyrightId", cid), (txt "oldOwner", r.OwnerAddress), (txt "newOwner", n)]] }) := by
  rcases r with ⟨rid, rwn, rau, rown, rdate, rwt, rdesc, rhist, rdel⟩
  simp only at hl
  subst hl
  simp only at hm
  simp [TransferCopyright, h1, h2, n1, n2, GetObject, hs, hu, hm, PutObject, hput, EmitJSONEvent]

theorem TransferCopyright_deleted (J : Json) (e : Env) (w : World) (cid n b : Bytes)
    (r : DigitalCopyright)
    (h1 : e.args.lookup (txt "copyright_id") = some cid)
    (h2 : e.args.lookup (txt "new_owner_address") = some n)
    (n1 : cid ≠ txt "") (n2 : n ≠ txt "")
    (hs : w.store cid = some b) (hu : J.Unmarshal b = Except.ok r) (hl : r.IsDeleted = true) :
    TransferCopyright J e w =
      (Response.Errors (txt "cannot transfer a deleted copyright: " ++ cid),
       { store := w.store, log := w.log ++ [HostCall.getObject cid] }) := by
  simp [TransferCopyright, h1, h2, n1, n2, GetObject, hs, hu, hl, Response.Error]

theorem UpdateCopyrightDescription_live (J : Json) (e : Env) (w : World) (cid b b' : Bytes)
    (r : DigitalCopyright)
    (h1 : e.args.lookup (txt "copyright_id") = some cid) (n1 : cid ≠ txt "")
    (hs : w.store cid = some b) (hu : J.Unmarshal b = Except.ok r) (hl : r.IsDeleted = false)
    (hm : J.Marshal
      { r with
        Description := (e.args.lookup (txt "new_description")).getD (txt "")
        TransactionHistory := r.TransactionHistory ++
          [txt "Description updated on " ++ e.now ++ txt ". Old: \x27" ++ r.Description
            ++ txt "\x27, New: \x27" ++ (e.args.lookup (txt "new_description")).getD (txt "") ++ txt "\x27"] }
      = Except.ok b')
    (hput : e.putErr cid b' = none) :
    UpdateCopyrightDescription J e w =
      (Response.OK (txt "Description for copyright " ++ cid ++ txt " updated"),
       { store := w.store.put cid b',
         log := w.log ++ [HostCall.getObject cid, HostCall.putObject cid b' true,
           HostCall.emitJSONEvent (txt "CopyrightDescriptionUpdated")
             [(txt "copyrightId", cid),
              (txt "newDescription", (e.args.lookup (txt "new_description")).getD (txt ""))]] }) := by
  have hnd : (match e.args.lookup (txt "new_description") with
      | some d => d
      | none => txt "") = (e.args.lookup (txt "new_description")).getD (txt "") := by
    cases e.args.lookup (txt "new_description") <;> rfl
  rcases r with ⟨rid, rwn, rau, rown, rdate, rwt, rdesc, rhist, rdel⟩
  simp only at hl
  subst hl
  simp only at hm
  simp [UpdateCopyrightDescription, h1, n1, GetObject, hs, hu, hnd, hm, PutObject, hput,
    EmitJSONEvent]

theorem DeleteCopyright_live (J : Json) (e : Env) (w : World) (cid b b' : Bytes)
    (r : DigitalCopyright)
    (h1 : e.args.lookup (txt "copyright_id") = some cid) (n1 : cid ≠ txt "")
    (hs : w.store cid = some b) (hu : J.Unmarshal b = Except.ok r) (hl : r.IsDeleted = false)
    (hm : J.Marshal
      { r with
        IsDeleted := true
        TransactionHistory := r.TransactionHistory ++
          [txt "Copyright marked as deleted on " ++ e.now ++ txt " by caller " ++ e.initiator] }
      = Except.ok b')
    (hput : e.putErr cid b' = none) :
    DeleteCopyright J e w =
      (Response.OK (txt "Copyright " ++ cid ++ txt " marked as deleted"),
       { store := w.store.put cid b',
         log := w.log ++ [HostCall.getObject cid, HostCall.putObject cid b' true,
           HostCall.emitJSONEvent (txt "CopyrightDeleted")
             [(txt "copyrightId", cid), (txt "deletedBy", e.initiator)]] }) := by
  rcases r with ⟨rid, rwn, rau, rown, rdate, rwt, rdesc, rhist, rdel⟩
  simp only at hl
  subst hl
  simp only at hm
  simp [DeleteCopyright, h1, n1, GetObject, hs, hu, hm, PutObject, hput, EmitJSONEvent]

theorem DeleteCopyright_deleted (J : Json) (e : Env) (w : World) (cid b : Bytes)
    (r : DigitalCopyright)
    (h1 : e.args.lookup (txt "copyright_id") = some cid) (n1 : cid ≠ txt "")
    (hs : w.store cid = some b) (hu : J.Unmarshal b = Except.ok r) (hl : r.IsDeleted = true) :
    DeleteCopyright J e w =
      (Response.Errors (txt "copyright " ++ cid ++ txt " is already deleted"),
       { store := w.store, log := w.log ++ [HostCall.getObject cid] }) := by
  simp [DeleteCopyright, h1, n1, GetObject, hs, hu, hl]

/-! ## Consequences of a faithful codec -/

theorem unmarshal_of_marshal (J : Json) (hJ : J.Faithful) (r : DigitalCopyright) (b : Bytes)
    (hm : J.Marshal r = Except.ok b) : J.Unmarshal b = Except.ok r.toValidUTF8 := by
  obtain ⟨b0, hm0, hu0⟩ := hJ.1 r
  rw [hm] at hm0
  cases hm0
  exact hu0

theorem valid_of_unmarshal (J : Json) (hJ : J.Faithful) (b : Bytes) (r : DigitalCopyright)
    (hu : J.Unmarshal b = Except.ok r) : r.toValidUTF8 = r :=
  hJ.2 b r hu

/-- The fields of a record whose strings are valid UTF-8. -/
theorem valid_fields (r : DigitalCopyright) (hv : r.toValidUTF8 = r) :
    r.CopyrightID.toValidUTF8 = r.CopyrightID ∧ r.WorkName.toValidUTF8 = r.WorkName ∧
    r.Author.toValidUTF8 = r.Author ∧ r.OwnerAddress.toValidUTF8 = r.OwnerAddress ∧
    r.RegistrationDate.toValidUTF8 = r.RegistrationDate ∧
    r.WorkType.toValidUTF8 = r.WorkType ∧ r.Description.toValidUTF8 = r.Description ∧
    r.TransactionHistory.map Bytes.toValidUTF8 = r.TransactionHistory :=
  ⟨congrArg DigitalCopyright.CopyrightID hv, congrArg DigitalCopyright.WorkName hv,
    congrArg DigitalCopyright.Author hv, congrArg DigitalCopyright.OwnerAddress hv,
    congrArg DigitalCopyright.RegistrationDate hv, congrArg DigitalCopyright.WorkType hv,
    congrArg DigitalCopyright.Description hv, congrArg DigitalCopyright.TransactionHistory hv⟩

theorem recordAt_put_marshal (J : Json) (hJ : J.Faithful) (s : Store) (k b : Bytes)
    (r : DigitalCopyright) (hm : J.Marshal r = Except.ok b) :
    recordAt J (s.put k b) k = some r.toValidUTF8 :=
  recordAt_put_same J s k b r.toValidUTF8 (unmarshal_of_marshal J hJ r b hm)

theorem map_toValidUTF8_snoc (l : List Bytes) (x : Bytes)
    (hv : l.map Bytes.toValidUTF8 = l) :
    (l ++ [x]).map Bytes.toValidUTF8 = l ++ [x.toValidUTF8] := by
  rw [List.map_append, hv]
  rfl

/-! ## The claims -/

/-- C1, refuted as stated. A registration whose title (`work_name`) is the byte
`0xFF`, with the other five arguments plain text, succeeds on the empty store;
the following query succeeds, and its payload decodes to a record whose title is
the replacement character U+FFFD, not the registered `0xFF`. -/
theorem register_then_query_counterexample :
    (demoEnv invalidTitleRegisterArgs).args.lookup (txt "work_name") = some invalidByte ∧
    (RegisterCopyright refJson (demoEnv invalidTitleRegisterArgs) emptyWorld).1
      = Response.OK (txt "Copyright C1 registered successfully") ∧
    (payloadRecord refJson
      (QueryCopyright refJson (demoEnv [(txt "copyright_id", txt "C1")])
        (RegisterCopyright refJson (demoEnv invalidTitleRegisterArgs) emptyWorld).2).1).map
        DigitalCopyright.WorkName = some replacementChar ∧
    replacementChar ≠ invalidByte := by
  decide

/-- C1, amended. From a store with no value at `cid`, with all six keys present
and the first five non-empty, and the write accepted, `RegisterCopyright`
succeeds, and a following `QueryCopyright` on `cid` succeeds with a payload that
decodes to a record whose id, title, creator name, holder address, category and
description are the registered arguments coerced to valid UTF-8 (each invalid
byte replaced by U+FFFD), hence the arguments themselves where these are valid
UTF-8; its deleted flag is false and its history has exactly one entry. -/
theorem register_then_query_roundtrip (J : Json) (hJ : J.Faithful) (e q : Env) (w : World)
    (cid wn author owner wt desc : Bytes)
    (h1 : e.args.lookup (txt "copyright_id") = some cid)
    (h2 : e.args.lookup (txt "work_name") = some wn)
    (h3 : e.args.lookup (txt "author") = some author)
    (h4 : e.args.lookup (txt "owner_address") = some owner)
    (h5 : e.args.lookup (txt "work_type") = some wt)
    (h6 : e.args.lookup (txt "description") = some desc)
    (n1 : cid ≠ txt "") (n2 : wn ≠ txt "") (n3 : author ≠ txt "") (n4 : owner ≠ txt "")
    (n5 : wt ≠ txt "")
    (hfresh : w.store cid = none)
    (hput : ∀ v, e.putErr cid v = none)
    (hq : q.args.lookup (txt "copyright_id") = some cid) :
    (RegisterCopyright J e w).1
        = Response.OK (txt "Copyright " ++ cid ++ txt " registered successfully") ∧
    ∃ body r,
      (QueryCopyright J q (RegisterCopyright J e w).2).1 = Response.OK body ∧
      J.Unmarshal body = Except.ok r ∧
      r.CopyrightID = cid.toValidUTF8 ∧ r.WorkName = wn.toValidUTF8 ∧
      r.Author = author.toValidUTF8 ∧ r.OwnerAddress = owner.toValidUTF8 ∧
      r.WorkType = wt.toValidUTF8 ∧ r.Description = desc.toValidUTF8 ∧
      (cid.IsValidUTF8 → r.CopyrightID = cid) ∧ (wn.IsValidUTF8 → r.WorkName = wn) ∧
      (author.IsValidUTF8 → r.Author = author) ∧
      (owner.IsValidUTF8 → r.OwnerAddress = owner) ∧
      (wt.IsValidUTF8 → r.WorkType = wt) ∧ (desc.IsValidUTF8 → r.Description = desc) ∧
      r.IsDeleted = false ∧
      r.TransactionHistory.length = 1 ∧
      r.RegistrationDate = e.now ∧
      r.TransactionHistory
        = [(txt "Registered on " ++ e.now ++ txt " by " ++ owner).toValidUTF8] ∧
      (owner.IsValidUTF8 →
        r.TransactionHistory = [txt "Registered on " ++ e.now ++ txt " by " ++ owner]) := by
  obtain ⟨b, hm, hu⟩ := hJ.1
    { CopyrightID := cid, WorkName := wn, Author := author, OwnerAddress := owner,
      RegistrationDate := e.now, WorkType := wt, Description := desc,
      TransactionHistory := [txt "Registered on " ++ e.now ++ txt " by " ++ owner],
      IsDeleted := false }
  have hreg := RegisterCopyright_fresh J e w cid wn author owner wt desc b h1 h2 h3 h4 h5 h6
    n1 n2 n3 n4 n5 hfresh hm (hput b)
  rw [hreg]
  refine ⟨rfl, b, _, ?_, hu, rfl, rfl, rfl, rfl, rfl, rfl, fun h => h, fun h => h, fun h => h,
    fun h => h, fun h => h, fun h => h, rfl, rfl, e.now_valid, rfl, ?_⟩
  · rw [QueryCopyright_live J q _ cid b _ hq n1 (Store.put_same _ _ _) hu rfl]
  · intro ho
    have hentry : (txt "Registered on " ++ e.now ++ txt " by " ++ owner).IsValidUTF8 :=
      (((show (txt "Registered on ").IsValidUTF8 by decide).append e.now_valid).append
        (show (txt " by ").IsValidUTF8 by decide)).append ho
    show [Bytes.toValidUTF8 (txt "Registered on " ++ e.now ++ txt " by " ++ owner)] = _
    rw [hentry]

/-- C1 amended, at the registration of the end-to-end scenario on the empty
store. -/
theorem register_then_query_roundtrip_witness :
    refJson.Faithful ∧ emptyWorld.store (txt "C1") = none ∧
    (RegisterCopyright refJson (demoEnv demoRegisterArgs) emptyWorld).1
        = Response.OK (txt "Copyright " ++ txt "C1" ++ txt " registered successfully") ∧
    ∃ body r,
      (QueryCopyright refJson (demoEnv [(txt "copyright_id", txt "C1")])
        (RegisterCopyright refJson (demoEnv demoRegisterArgs) emptyWorld).2).1
          = Response.OK body ∧
      refJson.Unmarshal body = Except.ok r ∧
      r.CopyrightID = (txt "C1").toValidUTF8 ∧ r.WorkName = (txt "Sunrise").toValidUTF8 ∧
      r.Author = (txt "Alice").toValidUTF8 ∧ r.OwnerAddress = (txt "addrA").toValidUTF8 ∧
      r.WorkType = (txt "image").toValidUTF8 ∧
      r.Description = (txt "a painting").toValidUTF8 ∧
      ((txt "C1").IsValidUTF8 → r.CopyrightID = txt "C1") ∧
      ((txt "Sunrise").IsValidUTF8 → r.WorkName = txt "Sunrise") ∧
      ((txt "Alice").IsValidUTF8 → r.Author = txt "Alice") ∧
      ((txt "addrA").IsValidUTF8 → r.OwnerAddress = txt "addrA") ∧
      ((txt "image").IsValidUTF8 → r.WorkType = txt "image") ∧
      ((txt "a painting").IsValidUTF8 → r.Description = txt "a painting") ∧
      r.IsDeleted = false ∧ r.TransactionHistory.length = 1 ∧
      r.RegistrationDate = (demoEnv demoRegisterArgs).now ∧
      r.TransactionHistory
        = [(txt "Registered on " ++ (demoEnv demoRegisterArgs).now ++ txt " by "
            ++ txt "addrA").toValidUTF8] ∧
      ((txt "addrA").IsValidUTF8 →
        r.TransactionHistory
          = [txt "Registered on " ++ (demoEnv demoRegisterArgs).now ++ txt " by "
              ++ txt "addrA"]) :=
  ⟨refJson_faithful, rfl,
    register_then_query_roundtrip refJson refJson_faithful (demoEnv demoRegisterArgs)
      (demoEnv [(txt "copyright_id", txt "C1")]) emptyWorld (txt "C1") (txt "Sunrise")
      (txt "Alice") (txt "addrA") (txt "image") (txt "a painting")
      (by decide) (by decide) (by decide) (by decide) (by decide) (by decide)
      (by decide) (by decide) (by decide) (by decide) (by decide) rfl (fun _ => rfl)
      (by decide)⟩

/-- C2, refuted as stated. In the lifecycle started by a registration whose
holder (`owner_address`) is the byte `0xFF`, the registration succeeds and the
first query succeeds, but the record it returns is held by the replacement
character U+FFFD, not by the registered holder. -/
theorem lifecycle_counterexample :
    (demoEnv invalidHolderRegisterArgs).args.lookup (txt "owner_address")
      = some invalidByte ∧
    ((runAll refJson
        [(Op.register, demoEnv invalidHolderRegisterArgs),
         (Op.query, demoEnv [(txt "copyright_id", txt "C1")])] emptyWorld).1.map
      Response.isOK) = [true, true] ∧
    (payloadRecord refJson
      (QueryCopyright refJson (demoEnv [(txt "copyright_id", txt "C1")])
        (RegisterCopyright refJson (demoEnv invalidHolderRegisterArgs) emptyWorld).2).1).map
        DigitalCopyright.OwnerAddress = some replacementChar ∧
    replacementChar ≠ invalidByte := by
  decide

/-- C2, amended. From a store with no value at `cid`, a valid registration with
holder `A`, a non-empty new holder `B` and every write accepted, the sequence
Register, Query, Transfer, Query, Delete, Query answers: success; success with a
record that is not deleted, has a history of length 1 and is held by `A` coerced
to valid UTF-8 (by `A` itself when `A` is valid UTF-8); success; success with a
record that has a history of length 2 and is held by `B` coerced to valid UTF-8
(by `B` itself when `B` is valid UTF-8); success; and the failure saying that
the record has been deleted. -/
theorem lifecycle_end_to_end (J : Json) (hJ : J.Faithful)
    (eReg q1 eTr q2 eDel q3 : Env) (w : World)
    (cid wn author A wt desc B : Bytes)
    (h1 : eReg.args.lookup (txt "copyright_id") = some cid)
    (h2 : eReg.args.lookup (txt "work_name") = some wn)
    (h3 : eReg.args.lookup (txt "author") = some author)
    (h4 : eReg.args.lookup (txt "owner_address") = some A)
    (h5 : eReg.args.lookup (txt "work_type") = some wt)
    (h6 : eReg.args.lookup (txt "description") = some desc)
    (n1 : cid ≠ txt "") (n2 : wn ≠ txt "") (n3 : author ≠ txt "") (n4 : A ≠ txt "")
    (n5 : wt ≠ txt "")
    (nB : B ≠ txt "")
    (hfresh : w.store cid = none)
    (hq1 : q1.args.lookup (txt "copyright_id") = some cid)
    (ht1 : eTr.args.lookup (txt "copyright_id") = some cid)
    (ht2 : eTr.args.lookup (txt "new_owner_address") = some B)
    (hq2 : q2.args.lookup (txt "copyright_id") = some cid)
    (hd1 : eDel.args.lookup (txt "copyright_id") = some cid)
    (hq3 : q3.args.lookup (txt "copyright_id") = some cid)
    (hputReg : ∀ v, eReg.putErr cid v = none)
    (hputTr : ∀ v, eTr.putErr cid v = none)
    (hputDel : ∀ v, eDel.putErr cid v = none) :
    ∃ body1 body2 r1 r2,
      (runAll J [(Op.register, eReg), (Op.query, q1), (Op.transfer, eTr), (Op.query, q2),
          (Op.delete, eDel), (Op.query, q3)] w).1 =
        [Response.OK (txt "Copyright " ++ cid ++ txt " registered successfully"),
         Response.OK body1,
         Response.OK (txt "Copyright " ++ cid ++ txt " transferred to " ++ B),
         Response.OK body2,
         Response.OK (txt "Copyright " ++ cid ++ txt " marked as deleted"),
         Response.Errors (txt "copyright " ++ cid ++ txt " has been deleted")] ∧
      J.Unmarshal body1 = Except.ok r1 ∧ r1.IsDeleted = false ∧
      r1.OwnerAddress = A.toValidUTF8 ∧ (A.IsValidUTF8 → r1.OwnerAddress = A) ∧
      r1.TransactionHistory.length = 1 ∧
      J.Unmarshal body2 = Except.ok r2 ∧
      r2.OwnerAddress = B.toValidUTF8 ∧ (B.IsValidUTF8 → r2.OwnerAddress = B) ∧
      r2.TransactionHistory.length = 2 := by
  obtain ⟨b1, hm1, hu1⟩ := hJ.1
    { CopyrightID := cid, WorkName := wn, Author := author, OwnerAddress := A,
      RegistrationDate := eReg.now, WorkType := wt, Description := desc,
      TransactionHistory := [txt "Registered on " ++ eReg.now ++ txt " by " ++ A],
      IsDeleted := false }
  have hreg := RegisterCopyright_fresh J eReg w cid wn author A wt desc b1 h1 h2 h3 h4 h5 h6
    n1 n2 n3 n4 n5 hfresh hm1 (hputReg b1)
  obtain ⟨r1, hr1⟩ : ∃ r1, r1 = DigitalCopyright.toValidUTF8
      { CopyrightID := cid, WorkName := wn, Author := author, OwnerAddress := A,
        RegistrationDate := eReg.now, WorkType := wt, Description := desc,
        TransactionHistory := [txt "Registered on " ++ eReg.now ++ txt " by " ++ A],
        IsDeleted := false } := ⟨_, rfl⟩
  rw [← hr1] at hu1
  have l1 : r1.IsDeleted = false := by rw [hr1]; rfl
  have o1 : r1.OwnerAddress = A.toValidUTF8 := by rw [hr1]; rfl
  have t1 : r1.TransactionHistory.length = 1 := by rw [hr1]; rfl
  obtain ⟨b2, hm2, hu2⟩ := hJ.1
    { r1 with
      OwnerAddress := B
      TransactionHistory := r1.TransactionHistory ++
        [txt "Transferred from " ++ r1.OwnerAddress ++ txt " to " ++ B ++ txt " on "
          ++ eTr.now] }
  obtain ⟨r2, hr2⟩ : ∃ r2, r2 = DigitalCopyright.toValidUTF8
      { r1 with
        OwnerAddress := B
        TransactionHistory := r1.TransactionHistory ++
          [txt "Transferred from " ++ r1.OwnerAddress ++ txt " to " ++ B ++ txt " on "
            ++ eTr.now] } := ⟨_, rfl⟩
  rw [← hr2] at hu2
  have l2 : r2.IsDeleted = false := by rw [hr2]; exact l1
  have o2 : r2.OwnerAddress = B.toValidUTF8 := by rw [hr2]; rfl
  have t2 : r2.TransactionHistory.length = 2 := by
    rw [hr2]
    simp [DigitalCopyright.toValidUTF8, t1]
  obtain ⟨b3, hm3, hu3⟩ := hJ.1
    { r2 with
      IsDeleted := true
      TransactionHistory := r2.TransactionHistory ++
        [txt "Copyright marked as deleted on " ++ eDel.now ++ txt " by caller "
          ++ eDel.initiator] }
  refine ⟨b1, b2, r1, r2, ?_, hu1, l1, o1, fun h => o1.trans h, t1, hu2, o2,
    fun h => o2.trans h, t2⟩
  simp only [runAll, runOp, hreg]
  rw [QueryCopyright_live J q1 _ cid b1 r1 hq1 n1 (Store.put_same _ _ _) hu1 l1]
  rw [TransferCopyright_live J eTr _ cid B b1 b2 r1 ht1 ht2 n1 nB (Store.put_same _ _ _) hu1 l1
    hm2 (hputTr b2)]
  rw [QueryCopyright_live J q2 _ cid b2 r2 hq2 n1 (Store.put_same _ _ _) hu2 l2]
  rw [DeleteCopyright_live J eDel _ cid b2 b3 r2 hd1 n1 (Store.put_same _ _ _) hu2 l2
    hm3 (hputDel b3)]
  rw [QueryCopyright_deleted J q3 _ cid b3 _ hq3 n1 (Store.put_same _ _ _) hu3 rfl]

/-- C2 amended, at the scenario of the specification: id `C1`, holder `addrA`,
new holder `addrB`, on the empty store. -/
theorem lifecycle_end_to_end_witness :
    refJson.Faithful ∧ emptyWorld.store (txt "C1") = none ∧
    ∃ body1 body2 r1 r2,
      (runAll refJson
        [(Op.register, demoEnv demoRegisterArgs),
         (Op.query, demoEnv [(txt "copyright_id", txt "C1")]),
         (Op.transfer,
          demoEnv [(txt "copyright_id", txt "C1"), (txt "new_owner_address", txt "addrB")]),
         (Op.query, demoEnv [(txt "copyright_id", txt "C1")]),
         (Op.delete, demoEnv [(txt "copyright_id", txt "C1")]),
         (Op.query, demoEnv [(txt "copyright_id", txt "C1")])] emptyWorld).1 =
        [Response.OK (txt "Copyright " ++ txt "C1" ++ txt " registered successfully"),
         Response.OK body1,
         Response.OK (txt "Copyright " ++ txt "C1" ++ txt " transferred to " ++ txt "addrB"),
         Response.OK body2,
         Response.OK (txt "Copyright " ++ txt "C1" ++ txt " marked as deleted"),
         Response.Errors (txt "copyright " ++ txt "C1" ++ txt " has been deleted")] ∧
      refJson.Unmarshal body1 = Except.ok r1 ∧ r1.IsDeleted = false ∧
      r1.OwnerAddress = (txt "addrA").toValidUTF8 ∧
      ((txt "addrA").IsValidUTF8 → r1.OwnerAddress = txt "addrA") ∧
      r1.TransactionHistory.length = 1 ∧
      refJson.Unmarshal body2 = Except.ok r2 ∧
      r2.OwnerAddress = (txt "addrB").toValidUTF8 ∧
      ((txt "addrB").IsValidUTF8 → r2.OwnerAddress = txt "addrB") ∧
      r2.TransactionHistory.length = 2 :=
  ⟨refJson_faithful, rfl,
    lifecycle_end_to_end refJson refJson_faithful
      (demoEnv demoRegisterArgs) (demoEnv [(txt "copyright_id", txt "C1")])
      (demoEnv [(txt "copyright_id", txt "C1"), (txt "new_owner_address", txt "addrB")])
      (demoEnv [(txt "copyright_id", txt "C1")]) (demoEnv [(txt "copyright_id", txt "C1")])
      (demoEnv [(txt "copyright_id", txt "C1")]) emptyWorld
      (txt "C1") (txt "Sunrise") (txt "Alice") (txt "addrA") (txt "image") (txt "a painting")
      (txt "addrB")
      (by decide) (by decide) (by decide) (by decide) (by decide) (by decide)
      (by decide) (by decide) (by decide) (by decide) (by decide) (by decide)
      rfl (by decide) (by decide) (by decide) (by decide) (by decide) (by decide)
      (fun _ => rfl) (fun _ => rfl) (fun _ => rfl)⟩

/-- C3. Duplicate registration is rejected: when the key `cid` already holds a
record (deleted or not), an otherwise valid `RegisterCopyright` with that id
fails with the "already exists" error, the store is exactly as before (so the
record at `cid`, history included, is the same), no write is attempted and no
event is emitted. -/
theorem register_duplicate_rejected (J : Json) (e : Env) (w : World)
    (cid wn author owner wt desc b : Bytes) (r : DigitalCopyright)
    (h1 : e.args.lookup (txt "copyright_id") = some cid)
    (h2 : e.args.lookup (txt "work_name") = some wn)
    (h3 : e.args.lookup (txt "author") = some author)
    (h4 : e.args.lookup (txt "owner_address") = some owner)
    (h5 : e.args.lookup (txt "work_type") = some wt)
    (h6 : e.args.lookup (txt "description") = some desc)
    (n1 : cid ≠ txt "") (n2 : wn ≠ txt "") (n3 : author ≠ txt "") (n4 : owner ≠ txt "") (n5 : wt ≠ txt "")
    (hs : w.store cid = some b) (hu : J.Unmarshal b = Except.ok r) :
    (RegisterCopyright J e w).1
        = Response.Errors (txt "copyright ID " ++ cid ++ txt " already exists") ∧
    (RegisterCopyright J e w).2.store = w.store ∧
    recordAt J (RegisterCopyright J e w).2.store cid = some r ∧
    writesOf (RegisterCopyright J e w).2.log = writesOf w.log ∧
    (RegisterCopyright J e w).2.events = w.events := by
  rw [RegisterCopyright_exists J e w cid wn author owner wt desc b h1 h2 h3 h4 h5 h6
    n1 n2 n3 n4 n5 hs]
  refine ⟨rfl, rfl, recordAt_of_store J _ cid b r hs hu, ?_, ?_⟩
  · simp [writesOf]
  · simp [World.events, eventsOf]

/-- C3, at a second registration of `C1` on the store that holds `demoRecord`. -/
theorem register_duplicate_rejected_witness :
    demoWorld.store (txt "C1") = some (Bytes.mk (RefJson.encRecord demoRecord)) ∧
    (RegisterCopyright refJson (demoEnv demoRegisterArgs) demoWorld).1
        = Response.Errors (txt "copyright ID " ++ txt "C1" ++ txt " already exists") ∧
    (RegisterCopyright refJson (demoEnv demoRegisterArgs) demoWorld).2.store
        = demoWorld.store ∧
    recordAt refJson (RegisterCopyright refJson (demoEnv demoRegisterArgs) demoWorld).2.store
        (txt "C1") = some demoRecord ∧
    writesOf (RegisterCopyright refJson (demoEnv demoRegisterArgs) demoWorld).2.log
        = writesOf demoWorld.log ∧
    (RegisterCopyright refJson (demoEnv demoRegisterArgs) demoWorld).2.events
        = demoWorld.events :=
  ⟨rfl,
    register_duplicate_rejected refJson (demoEnv demoRegisterArgs) demoWorld
      (txt "C1") (txt "Sunrise") (txt "Alice") (txt "addrA") (txt "image") (txt "a painting")
      (Bytes.mk (RefJson.encRecord demoRecord)) demoRecord
      (by decide) (by decide) (by decide) (by decide) (by decide) (by decide)
      (by decide) (by decide) (by decide) (by decide) (by decide) rfl
      (refJson_unmarshal_of_valid _ (by decide))⟩

/-- C4, refuted as stated. On the store that holds `demoRecord` under `C1`, a
transfer whose new holder (`new_owner_address`) is the byte `0xFF` succeeds, and
the record then stored is held by the replacement character U+FFFD, not by the
requested holder. -/
theorem transfer_success_counterexample :
    (demoEnv [(txt "copyright_id", txt "C1"), (txt "new_owner_address", invalidByte)]).args.lookup
      (txt "new_owner_address") = some invalidByte ∧
    (TransferCopyright refJson
      (demoEnv [(txt "copyright_id", txt "C1"), (txt "new_owner_address", invalidByte)])
      demoWorld).1.isOK = true ∧
    (recordAt refJson
      (TransferCopyright refJson
        (demoEnv [(txt "copyright_id", txt "C1"), (txt "new_owner_address", invalidByte)])
        demoWorld).2.store (txt "C1")).map DigitalCopyright.OwnerAddress
      = some replacementChar ∧
    replacementChar ≠ invalidByte := by
  decide

/-- C4, amended. When `cid` holds a record `r` that is not deleted, the new
holder `n` is non-empty and the write is accepted, `TransferCopyright` succeeds
and the record then stored at `cid` has as holder `n` coerced to valid UTF-8
(each invalid byte replaced by U+FFFD; `n` itself when `n` is valid UTF-8), as
history the history of `r` followed by the one entry
`"Transferred from {r.holder} to {n} on {timestamp}"` coerced likewise (the
entry itself when `n` is valid UTF-8), and every other field
as in `r`. -/
theorem transfer_success_postcondition (J : Json) (hJ : J.Faithful) (e : Env) (w : World)
    (cid n b : Bytes) (r : DigitalCopyright)
    (h1 : e.args.lookup (txt "copyright_id") = some cid)
    (h2 : e.args.lookup (txt "new_owner_address") = some n)
    (n1 : cid ≠ txt "") (n2 : n ≠ txt "")
    (hs : w.store cid = some b) (hu : J.Unmarshal b = Except.ok r) (hl : r.IsDeleted = false)
    (hput : ∀ v, e.putErr cid v = none) :
    (TransferCopyright J e w).1
        = Response.OK (txt "Copyright " ++ cid ++ txt " transferred to " ++ n) ∧
    ∃ r', recordAt J (TransferCopyright J e w).2.store cid = some r' ∧
      r'.OwnerAddress = n.toValidUTF8 ∧
      (n.IsValidUTF8 → r'.OwnerAddress = n) ∧
      r'.TransactionHistory = r.TransactionHistory ++
        [(txt "Transferred from " ++ r.OwnerAddress ++ txt " to " ++ n ++ txt " on "
          ++ e.now).toValidUTF8] ∧
      (n.IsValidUTF8 →
        r'.TransactionHistory = r.TransactionHistory ++
          [txt "Transferred from " ++ r.OwnerAddress ++ txt " to " ++ n ++ txt " on "
            ++ e.now]) ∧
      r'.CopyrightID = r.CopyrightID ∧ r'.WorkName = r.WorkName ∧ r'.Author = r.Author ∧
      r'.RegistrationDate = r.RegistrationDate ∧ r'.WorkType = r.WorkType ∧
      r'.Description = r.Description ∧ r'.IsDeleted = r.IsDeleted := by
  obtain ⟨b', hm, hu'⟩ := hJ.1
    { r with
      OwnerAddress := n
      TransactionHistory := r.TransactionHistory ++
        [txt "Transferred from " ++ r.OwnerAddress ++ txt " to " ++ n ++ txt " on " ++ e.now] }
  obtain ⟨v1, v2, v3, v4, v5, v6, v7, v8⟩ := valid_fields r (valid_of_unmarshal J hJ b r hu)
  rw [TransferCopyright_live J e w cid n b b' r h1 h2 n1 n2 hs hu hl hm (hput b')]
  have hhist : List.map Bytes.toValidUTF8 (r.TransactionHistory ++
      [txt "Transferred from " ++ r.OwnerAddress ++ txt " to " ++ n ++ txt " on " ++ e.now])
      = r.TransactionHistory ++
        [(txt "Transferred from " ++ r.OwnerAddress ++ txt " to " ++ n ++ txt " on "
          ++ e.now).toValidUTF8] := by
    rw [List.map_append, v8]
    rfl
  refine ⟨rfl, _, recordAt_put_same J _ cid b' _ hu', rfl, fun h => h, hhist, ?_, v1, v2, v3,
    v5, v6, v7, rfl⟩
  intro hn
  have hentry : (txt "Transferred from " ++ r.OwnerAddress ++ txt " to " ++ n ++ txt " on "
      ++ e.now).IsValidUTF8 :=
    ((((show (txt "Transferred from ").IsValidUTF8 by decide).append v4).append
      (show (txt " to ").IsValidUTF8 by decide)).append hn).append
      ((show (txt " on ").IsValidUTF8 by decide)) |>.append e.now_valid
  exact hhist.trans (by rw [hentry])

/-- C4 amended, at the transfer of `C1` to `addrB` on the store that holds
`demoRecord`. -/
theorem transfer_success_postcondition_witness :
    refJson.Faithful ∧
    demoWorld.store (txt "C1") = some (Bytes.mk (RefJson.encRecord demoRecord)) ∧
    (TransferCopyright refJson
        (demoEnv [(txt "copyright_id", txt "C1"), (txt "new_owner_address", txt "addrB")])
        demoWorld).1
        = Response.OK (txt "Copyright " ++ txt "C1" ++ txt " transferred to " ++ txt "addrB") ∧
    ∃ r', recordAt refJson (TransferCopyright refJson
        (demoEnv [(txt "copyright_id", txt "C1"), (txt "new_owner_address", txt "addrB")])
        demoWorld).2.store (txt "C1") = some r' ∧
      r'.OwnerAddress = (txt "addrB").toValidUTF8 ∧
      ((txt "addrB").IsValidUTF8 → r'.OwnerAddress = txt "addrB") ∧
      r'.TransactionHistory = demoRecord.TransactionHistory ++
        [(txt "Transferred from " ++ demoRecord.OwnerAddress ++ txt " to " ++ txt "addrB"
          ++ txt " on " ++ (demoEnv [(txt "copyright_id", txt "C1"),
            (txt "new_owner_address", txt "addrB")]).now).toValidUTF8] ∧
      ((txt "addrB").IsValidUTF8 →
        r'.TransactionHistory = demoRecord.TransactionHistory ++
          [txt "Transferred from " ++ demoRecord.OwnerAddress ++ txt " to " ++ txt "addrB"
            ++ txt " on " ++ (demoEnv [(txt "copyright_id", txt "C1"),
              (txt "new_owner_address", txt "addrB")]).now]) ∧
      r'.CopyrightID = demoRecord.CopyrightID ∧ r'.WorkName = demoRecord.WorkName ∧
      r'.Author = demoRecord.Author ∧ r'.RegistrationDate = demoRecord.RegistrationDate ∧
      r'.WorkType = demoRecord.WorkType ∧ r'.Description = demoRecord.Description ∧
      r'.IsDeleted = demoRecord.IsDeleted :=
  ⟨refJson_faithful, rfl,
    transfer_success_postcondition refJson refJson_faithful
      (demoEnv [(txt "copyright_id", txt "C1"), (txt "new_owner_address", txt "addrB")])
      demoWorld (txt "C1") (txt "addrB") (Bytes.mk (RefJson.encRecord demoRecord)) demoRecord
      (by decide) (by decide) (by decide) (by decide) rfl
      refJson_unmarshal_demoRecord rfl (fun _ => rfl)⟩

/-- C5. Transfer on a missing or deleted record: when the key named by the
`copyright_id` argument (if the argument is there at all) holds no value, or
holds a record whose deleted flag is set, `TransferCopyright` fails, whatever
the other arguments are; the store is as before, no write is attempted and no
event is emitted. -/
theorem transfer_missing_or_deleted_fails (J : Json) (e : Env) (w : World)
    (htarget : ∀ cid, e.args.lookup (txt "copyright_id") = some cid →
      w.store cid = none ∨
      ∃ b r, w.store cid = some b ∧ J.Unmarshal b = Except.ok r ∧ r.IsDeleted = true) :
    (TransferCopyright J e w).1.isFailure = true ∧
    (TransferCopyright J e w).2.store = w.store ∧
    writesOf (TransferCopyright J e w).2.log = writesOf w.log ∧
    (TransferCopyright J e w).2.events = w.events := by
  rcases h1 : e.args.lookup (txt "copyright_id") with _ | cid
  · simp [TransferCopyright, h1, Response.isFailure]
  rcases h2 : e.args.lookup (txt "new_owner_address") with _ | n
  · simp [TransferCopyright, h1, h2, Response.isFailure]
  by_cases n1 : cid = txt ""
  · simp [TransferCopyright, h1, h2, n1, Response.isFailure]
  by_cases n2 : n = txt ""
  · simp [TransferCopyright, h1, h2, n2, Response.isFailure]
  rcases htarget cid h1 with hs | ⟨b, r, hs, hu, hl⟩
  · simp [TransferCopyright, h1, h2, n1, n2, GetObject, hs, Response.isFailure, Response.Error,
      World.events, writesOf, eventsOf]
  · rw [TransferCopyright_deleted J e w cid n b r h1 h2 n1 n2 hs hu hl]
    simp [Response.isFailure, World.events, writesOf, eventsOf]

/-- C5, at a transfer of `C1` on the empty store. -/
theorem transfer_missing_or_deleted_fails_witness :
    emptyWorld.store (txt "C1") = none ∧
    (TransferCopyright refJson
        (demoEnv [(txt "copyright_id", txt "C1"), (txt "new_owner_address", txt "addrB")])
        emptyWorld).1.isFailure = true ∧
    (TransferCopyright refJson
        (demoEnv [(txt "copyright_id", txt "C1"), (txt "new_owner_address", txt "addrB")])
        emptyWorld).2.store = emptyWorld.store ∧
    writesOf (TransferCopyright refJson
        (demoEnv [(txt "copyright_id", txt "C1"), (txt "new_owner_address", txt "addrB")])
        emptyWorld).2.log = writesOf emptyWorld.log ∧
    (TransferCopyright refJson
        (demoEnv [(txt "copyright_id", txt "C1"), (txt "new_owner_address", txt "addrB")])
        emptyWorld).2.events = emptyWorld.events :=
  ⟨rfl,
    transfer_missing_or_deleted_fails refJson
      (demoEnv [(txt "copyright_id", txt "C1"), (txt "new_owner_address", txt "addrB")]) emptyWorld
      (fun _ _ => Or.inl rfl)⟩

theorem runAll_delete_on_deleted (J : Json) (cid : Bytes) (n1 : cid ≠ txt "") (es : List Env)
    (hes : ∀ e ∈ es, e.args.lookup (txt "copyright_id") = some cid) :
    ∀ (w : World) (b : Bytes) (r : DigitalCopyright),
      w.store cid = some b → J.Unmarshal b = Except.ok r → r.IsDeleted = true →
      (runAll J (es.map (fun e => (Op.delete, e))) w).1
          = es.map (fun _ => Response.Errors (txt "copyright " ++ cid ++ txt " is already deleted")) ∧
      (runAll J (es.map (fun e => (Op.delete, e))) w).2.store = w.store := by
  induction es with
  | nil => intro w b r _ _ _; exact ⟨rfl, rfl⟩
  | cons e es ih =>
    intro w b r hs hu hl
    have he := hes e (List.mem_cons_self e es)
    have hes' : ∀ e' ∈ es, e'.args.lookup (txt "copyright_id") = some cid :=
      fun e' h' => hes e' (List.mem_cons_of_mem e h')
    have hstep := DeleteCopyright_deleted J e w cid b r he n1 hs hu hl
    have hrest := ih hes' { store := w.store, log := w.log ++ [HostCall.getObject cid] } b r
      hs hu hl
    simp only [List.map_cons, runAll, runOp, hstep]
    exact ⟨by rw [hrest.1], hrest.2⟩

/-- C6. Delete succeeds once and then always fails: when `cid` holds a record
that is not deleted and the write is accepted, `DeleteCopyright` succeeds and
the record then stored at `cid` has the deleted flag set; every later
`DeleteCopyright` on `cid`, whatever its caller identity and timestamp, fails
with the "already deleted" error and leaves the store as the first one left
it. -/
theorem delete_succeeds_once_then_fails (J : Json) (hJ : J.Faithful) (e : Env) (w : World)
    (cid b : Bytes) (r : DigitalCopyright)
    (h1 : e.args.lookup (txt "copyright_id") = some cid) (n1 : cid ≠ txt "")
    (hs : w.store cid = some b) (hu : J.Unmarshal b = Except.ok r) (hl : r.IsDeleted = false)
    (hput : ∀ v, e.putErr cid v = none)
    (later : List Env) (hlater : ∀ e' ∈ later, e'.args.lookup (txt "copyright_id") = some cid) :
    (DeleteCopyright J e w).1 = Response.OK (txt "Copyright " ++ cid ++ txt " marked as deleted") ∧
    (∃ r', recordAt J (DeleteCopyright J e w).2.store cid = some r' ∧ r'.IsDeleted = true) ∧
    (runAll J (later.map (fun e' => (Op.delete, e'))) (DeleteCopyright J e w).2).1
        = later.map (fun _ => Response.Errors (txt "copyright " ++ cid ++ txt " is already deleted")) ∧
    (runAll J (later.map (fun e' => (Op.delete, e'))) (DeleteCopyright J e w).2).2.store
        = (DeleteCopyright J e w).2.store := by
  obtain ⟨b', hm, hu'⟩ := hJ.1
    { r with
      IsDeleted := true
      TransactionHistory := r.TransactionHistory ++
        [txt "Copyright marked as deleted on " ++ e.now ++ txt " by caller " ++ e.initiator] }
  rw [DeleteCopyright_live J e w cid b b' r h1 n1 hs hu hl hm (hput b')]
  have hrest := runAll_delete_on_deleted J cid n1 later hlater
    { store := w.store.put cid b',
      log := w.log ++ [HostCall.getObject cid, HostCall.putObject cid b' true,
        HostCall.emitJSONEvent (txt "CopyrightDeleted")
          [(txt "copyrightId", cid), (txt "deletedBy", e.initiator)]] }
    b' _ (Store.put_same _ _ _) hu' rfl
  exact ⟨rfl, ⟨_, recordAt_put_same J _ cid b' _ hu', rfl⟩, hrest.1, hrest.2⟩

/-- C6, at a deletion of `C1` on the store that holds `demoRecord`, followed by
two more deletions by other callers at other times. -/
theorem delete_succeeds_once_then_fails_witness :
    refJson.Faithful ∧
    demoWorld.store (txt "C1") = some (Bytes.mk (RefJson.encRecord demoRecord)) ∧
    (DeleteCopyright refJson (demoEnv [(txt "copyright_id", txt "C1")]) demoWorld).1
        = Response.OK (txt "Copyright " ++ txt "C1" ++ txt " marked as deleted") ∧
    (∃ r', recordAt refJson
        (DeleteCopyright refJson (demoEnv [(txt "copyright_id", txt "C1")]) demoWorld).2.store (txt "C1")
          = some r' ∧ r'.IsDeleted = true) ∧
    (runAll refJson
        ([otherCallerEnv [(txt "copyright_id", txt "C1")],
          laterEnv [(txt "copyright_id", txt "C1")]].map
            (fun e' => (Op.delete, e')))
        (DeleteCopyright refJson (demoEnv [(txt "copyright_id", txt "C1")]) demoWorld).2).1
        = [otherCallerEnv [(txt "copyright_id", txt "C1")],
           laterEnv [(txt "copyright_id", txt "C1")]].map
            (fun _ => Response.Errors (txt "copyright " ++ txt "C1" ++ txt " is already deleted")) ∧
    (runAll refJson
        ([otherCallerEnv [(txt "copyright_id", txt "C1")],
          laterEnv [(txt "copyright_id", txt "C1")]].map
            (fun e' => (Op.delete, e')))
        (DeleteCopyright refJson (demoEnv [(txt "copyright_id", txt "C1")]) demoWorld).2).2.store
        = (DeleteCopyright refJson (demoEnv [(txt "copyright_id", txt "C1")]) demoWorld).2.store :=
  ⟨refJson_faithful, rfl,
    delete_succeeds_once_then_fails refJson refJson_faithful
      (demoEnv [(txt "copyright_id", txt "C1")]) demoWorld (txt "C1")
      (Bytes.mk (RefJson.encRecord demoRecord)) demoRecord
      (by decide) (by decide) rfl (refJson_unmarshal_of_valid _ (by decide)) rfl
      (fun _ => rfl)
      [otherCallerEnv [(txt "copyright_id", txt "C1")],
       laterEnv [(txt "copyright_id", txt "C1")]]
      (by
        intro e' he'
        simp only [List.mem_cons, List.mem_singleton, List.not_mem_nil, or_false] at he'
        rcases he' with rfl | rfl <;> rfl)⟩

/-- C7. Soft delete hides but does not remove: when `cid` holds a record `r`
that is not deleted and the write is accepted, after `DeleteCopyright` the store
still returns bytes at `cid` that decode to the record, with the deleted flag
set and every other field outside the history as in `r` (the history gains the
deletion entry, coerced to valid UTF-8 as every stored string is), while
`QueryCopyright` on `cid` fails, saying that the record has been deleted. -/
theorem soft_delete_hides_but_keeps (J : Json) (hJ : J.Faithful) (e q : Env) (w : World)
    (cid b : Bytes) (r : DigitalCopyright)
    (h1 : e.args.lookup (txt "copyright_id") = some cid) (n1 : cid ≠ txt "")
    (hs : w.store cid = some b) (hu : J.Unmarshal b = Except.ok r) (hl : r.IsDeleted = false)
    (hput : ∀ v, e.putErr cid v = none)
    (hq : q.args.lookup (txt "copyright_id") = some cid) :
    (DeleteCopyright J e w).1
        = Response.OK (txt "Copyright " ++ cid ++ txt " marked as deleted") ∧
    (∃ b' r', (DeleteCopyright J e w).2.store cid = some b' ∧
      J.Unmarshal b' = Except.ok r' ∧ r'.IsDeleted = true ∧
      r'.CopyrightID = r.CopyrightID ∧ r'.WorkName = r.WorkName ∧ r'.Author = r.Author ∧
      r'.OwnerAddress = r.OwnerAddress ∧ r'.RegistrationDate = r.RegistrationDate ∧
      r'.WorkType = r.WorkType ∧ r'.Description = r.Description ∧
      r'.TransactionHistory = r.TransactionHistory ++
        [(txt "Copyright marked as deleted on " ++ e.now ++ txt " by caller "
          ++ e.initiator).toValidUTF8] ∧
      (e.initiator.IsValidUTF8 →
        r'.TransactionHistory = r.TransactionHistory ++
          [txt "Copyright marked as deleted on " ++ e.now ++ txt " by caller "
            ++ e.initiator])) ∧
    (QueryCopyright J q (DeleteCopyright J e w).2).1
        = Response.Errors (txt "copyright " ++ cid ++ txt " has been deleted") := by
  obtain ⟨b', hm, hu'⟩ := hJ.1
    { r with
      IsDeleted := true
      TransactionHistory := r.TransactionHistory ++
        [txt "Copyright marked as deleted on " ++ e.now ++ txt " by caller " ++ e.initiator] }
  obtain ⟨v1, v2, v3, v4, v5, v6, v7, v8⟩ := valid_fields r (valid_of_unmarshal J hJ b r hu)
  rw [DeleteCopyright_live J e w cid b b' r h1 n1 hs hu hl hm (hput b')]
  have hhist : List.map Bytes.toValidUTF8 (r.TransactionHistory ++
      [txt "Copyright marked as deleted on " ++ e.now ++ txt " by caller " ++ e.initiator])
      = r.TransactionHistory ++
        [(txt "Copyright marked as deleted on " ++ e.now ++ txt " by caller "
          ++ e.initiator).toValidUTF8] := by
    rw [List.map_append, v8]
    rfl
  refine ⟨rfl, ⟨b', _, Store.put_same _ _ _, hu', rfl, v1, v2, v3, v4, v5, v6, v7, hhist, ?_⟩,
    ?_⟩
  · intro hi
    have hentry : (txt "Copyright marked as deleted on " ++ e.now ++ txt " by caller "
        ++ e.initiator).IsValidUTF8 :=
      (((show (txt "Copyright marked as deleted on ").IsValidUTF8 by decide).append
        e.now_valid).append (show (txt " by caller ").IsValidUTF8 by decide)).append hi
    exact hhist.trans (by rw [hentry])
  · rw [QueryCopyright_deleted J q _ cid b' _ hq n1 (Store.put_same _ _ _) hu' rfl]

/-- C7, at a deletion of `C1` on the store that holds `demoRecord`. -/
theorem soft_delete_hides_but_keeps_witness :
    refJson.Faithful ∧
    demoWorld.store (txt "C1") = some (Bytes.mk (RefJson.encRecord demoRecord)) ∧
    (DeleteCopyright refJson (demoEnv [(txt "copyright_id", txt "C1")]) demoWorld).1
        = Response.OK (txt "Copyright " ++ txt "C1" ++ txt " marked as deleted") ∧
    (∃ b' r',
      (DeleteCopyright refJson (demoEnv [(txt "copyright_id", txt "C1")]) demoWorld).2.store
        (txt "C1") = some b' ∧
      refJson.Unmarshal b' = Except.ok r' ∧ r'.IsDeleted = true ∧
      r'.CopyrightID = demoRecord.CopyrightID ∧ r'.WorkName = demoRecord.WorkName ∧
      r'.Author = demoRecord.Author ∧ r'.OwnerAddress = demoRecord.OwnerAddress ∧
      r'.RegistrationDate = demoRecord.RegistrationDate ∧
      r'.WorkType = demoRecord.WorkType ∧ r'.Description = demoRecord.Description ∧
      r'.TransactionHistory = demoRecord.TransactionHistory ++
        [(txt "Copyright marked as deleted on "
          ++ (demoEnv [(txt "copyright_id", txt "C1")]).now ++ txt " by caller "
          ++ (demoEnv [(txt "copyright_id", txt "C1")]).initiator).toValidUTF8] ∧
      ((demoEnv [(txt "copyright_id", txt "C1")]).initiator.IsValidUTF8 →
        r'.TransactionHistory = demoRecord.TransactionHistory ++
          [txt "Copyright marked as deleted on "
            ++ (demoEnv [(txt "copyright_id", txt "C1")]).now ++ txt " by caller "
            ++ (demoEnv [(txt "copyright_id", txt "C1")]).initiator])) ∧
    (QueryCopyright refJson (demoEnv [(txt "copyright_id", txt "C1")])
        (DeleteCopyright refJson (demoEnv [(txt "copyright_id", txt "C1")]) demoWorld).2).1
        = Response.Errors (txt "copyright " ++ txt "C1" ++ txt " has been deleted") :=
  ⟨refJson_faithful, rfl,
    soft_delete_hides_but_keeps refJson refJson_faithful
      (demoEnv [(txt "copyright_id", txt "C1")]) (demoEnv [(txt "copyright_id", txt "C1")])
      demoWorld (txt "C1") (Bytes.mk (RefJson.encRecord demoRecord)) demoRecord
      (by decide) (by decide) rfl (refJson_unmarshal_of_valid _ (by decide)) rfl
      (fun _ => rfl) (by decide)⟩

/-- C8. UpdateDescription without the `new_description` key clears the
description: when `cid` holds a record `r` that is not deleted, the argument
mapping names `cid` and has no `new_description` key, and the write is
accepted, `UpdateCopyrightDescription` succeeds; the record then stored at `cid`
has the empty description and the history of `r` followed by the one entry that
records the old description and the new, empty one; and a following
`QueryCopyright` returns a record with the empty description. -/
theorem update_without_new_description_clears (J : Json) (hJ : J.Faithful) (e q : Env)
    (w : World) (cid b : Bytes) (r : DigitalCopyright)
    (h1 : e.args.lookup (txt "copyright_id") = some cid)
    (hnone : e.args.lookup (txt "new_description") = none)
    (n1 : cid ≠ txt "")
    (hs : w.store cid = some b) (hu : J.Unmarshal b = Except.ok r) (hl : r.IsDeleted = false)
    (hput : ∀ v, e.putErr cid v = none)
    (hq : q.args.lookup (txt "copyright_id") = some cid) :
    (UpdateCopyrightDescription J e w).1
        = Response.OK (txt "Description for copyright " ++ cid ++ txt " updated") ∧
    (∃ r', recordAt J (UpdateCopyrightDescription J e w).2.store cid = some r' ∧
      r'.Description = txt "" ∧
      r'.TransactionHistory = r.TransactionHistory ++
        [txt "Description updated on " ++ e.now ++ txt ". Old: \x27" ++ r.Description
          ++ txt "\x27, New: \x27" ++ txt "" ++ txt "\x27"]) ∧
    (∃ body r'', (QueryCopyright J q (UpdateCopyrightDescription J e w).2).1
        = Response.OK body ∧
      J.Unmarshal body = Except.ok r'' ∧ r''.Description = txt "") := by
  obtain ⟨b', hm, hu'⟩ := hJ.1
    { r with
      Description := (e.args.lookup (txt "new_description")).getD (txt "")
      TransactionHistory := r.TransactionHistory ++
        [txt "Description updated on " ++ e.now ++ txt ". Old: \x27" ++ r.Description
          ++ txt "\x27, New: \x27" ++ (e.args.lookup (txt "new_description")).getD (txt "")
          ++ txt "\x27"] }
  obtain ⟨_, _, _, _, _, _, v7, v8⟩ := valid_fields r (valid_of_unmarshal J hJ b r hu)
  rw [UpdateCopyrightDescription_live J e w cid b b' r h1 n1 hs hu hl hm (hput b')]
  have hd : (e.args.lookup (txt "new_description")).getD (txt "") = txt "" := by
    rw [hnone]
    rfl
  have hd' : ((e.args.lookup (txt "new_description")).getD (txt "")).toValidUTF8 = txt "" := by
    rw [hd]
    exact Bytes.toValidUTF8_empty
  have hentry : (txt "Description updated on " ++ e.now ++ txt ". Old: \x27" ++ r.Description
      ++ txt "\x27, New: \x27" ++ txt "" ++ txt "\x27").IsValidUTF8 :=
    ((((((show (txt "Description updated on ").IsValidUTF8 by decide).append
      e.now_valid).append (show (txt ". Old: \x27").IsValidUTF8 by decide)).append v7).append
      (show (txt "\x27, New: \x27").IsValidUTF8 by decide)).append
      (show (txt "").IsValidUTF8 by decide)).append (show (txt "\x27").IsValidUTF8 by decide)
  refine ⟨rfl, ⟨_, recordAt_put_same J _ cid b' _ hu', hd', ?_⟩, b', _, ?_, hu', hd'⟩
  · show List.map Bytes.toValidUTF8 (r.TransactionHistory ++ _) = _
    rw [List.map_append, v8, hd]
    show r.TransactionHistory ++ [Bytes.toValidUTF8 _] = _
    rw [hentry]
  · rw [QueryCopyright_live J q _ cid b' _ hq n1 (Store.put_same _ _ _) hu' hl]

/-- C8, at the round trip of the specification: Register with description
`A`, then UpdateDescription without `new_description`, then Query. -/
theorem update_without_new_description_clears_witness :
    refJson.Faithful ∧
    recordAt refJson
      (RegisterCopyright refJson (demoEnv demoRegisterArgsA) emptyWorld).2.store (txt "C1")
        = some demoRecordA ∧
    demoRecordA.Description = txt "A" ∧
    (UpdateCopyrightDescription refJson (demoEnv [(txt "copyright_id", txt "C1")])
        (RegisterCopyright refJson (demoEnv demoRegisterArgsA) emptyWorld).2).1
        = Response.OK (txt "Description for copyright " ++ txt "C1" ++ txt " updated") ∧
    (∃ body r'', (QueryCopyright refJson (demoEnv [(txt "copyright_id", txt "C1")])
        (UpdateCopyrightDescription refJson (demoEnv [(txt "copyright_id", txt "C1")])
          (RegisterCopyright refJson (demoEnv demoRegisterArgsA) emptyWorld).2).2).1
          = Response.OK body ∧
      refJson.Unmarshal body = Except.ok r'' ∧ r''.Description = txt "") :=
  have h := update_without_new_description_clears refJson refJson_faithful
    (demoEnv [(txt "copyright_id", txt "C1")]) (demoEnv [(txt "copyright_id", txt "C1")])
    (RegisterCopyright refJson (demoEnv demoRegisterArgsA) emptyWorld).2
    (txt "C1") (Bytes.mk (RefJson.encRecord demoRecordA)) demoRecordA
    (by decide) (by decide) (by decide) rfl
    (refJson_unmarshal_of_valid _ (by decide)) rfl (fun _ => rfl) (by decide)
  ⟨refJson_faithful, rfl, rfl, h.1, h.2.2⟩

/-- C9. Atomicity on failure: whichever of the six methods is called, on
whatever store, arguments, caller and time, if the response is a failure then
the store after the call is the store before it and no event has been
emitted. -/
theorem failure_is_atomic (J : Json) (op : Op) (e : Env) (w : World)
    (hfail : (runOp J op e w).1.isFailure = true) :
    (runOp J op e w).2.store = w.store ∧ (runOp J op e w).2.events = w.events := by
  have key : FailsCleanly w (runOp J op e w) := by
    cases op
    · rcases Initialize_cases e w with h | ⟨_, _, _, _, h⟩
      · exact h
      · simp [runOp, h, Response.isFailure] at hfail
    · rcases RegisterCopyright_cases J e w with
        h | ⟨_, _, _, _, _, _, _, _, _, _, _, _, _, _, _, _, _, _, _, _, h⟩
      · exact h
      · simp [runOp, h, Response.isFailure] at hfail
    · rcases QueryCopyright_cases J e w with h | ⟨_, _, _, _, _, _, _, _, h⟩
      · exact h
      · simp [runOp, h, Response.isFailure] at hfail
    · rcases TransferCopyright_cases J e w with h | ⟨_, _, _, _, _, _, _, _, _, _, _, _, _, _, h⟩
      · exact h
      · simp [runOp, h, Response.isFailure] at hfail
    · rcases UpdateCopyrightDescription_cases J e w with
        h | ⟨_, _, _, _, _, _, _, _, _, _, _, h⟩
      · exact h
      · simp [runOp, h, Response.isFailure] at hfail
    · rcases DeleteCopyright_cases J e w with h | ⟨_, _, _, _, _, _, _, _, _, _, _, h⟩
      · exact h
      · simp [runOp, h, Response.isFailure] at hfail
  exact ⟨key.store_eq, key.events_eq⟩

/-- C9, at a registration refused by the host at the write: the store that
holds `demoRecord` is left as it was. -/
theorem failure_is_atomic_witness :
    (runOp refJson Op.register (refusingEnv demoRegisterArgsEmptyDesc) demoWorld).1.isFailure
        = true ∧
    (runOp refJson Op.register (refusingEnv demoRegisterArgsEmptyDesc) demoWorld).2.store
        = demoWorld.store ∧
    (runOp refJson Op.register (refusingEnv demoRegisterArgsEmptyDesc) demoWorld).2.events
        = demoWorld.events :=
  ⟨rfl,
    failure_is_atomic refJson Op.register (refusingEnv demoRegisterArgsEmptyDesc) demoWorld
      rfl⟩

theorem RegisterCopyright_invalid (J : Json) (e : Env) (w : World)
    (hbad : ¬ ∃ cid wn author owner wt desc,
      e.args.lookup (txt "copyright_id") = some cid ∧ e.args.lookup (txt "work_name") = some wn ∧
      e.args.lookup (txt "author") = some author ∧ e.args.lookup (txt "owner_address") = some owner ∧
      e.args.lookup (txt "work_type") = some wt ∧ e.args.lookup (txt "description") = some desc ∧
      cid ≠ txt "" ∧ wn ≠ txt "" ∧ author ≠ txt "" ∧ owner ≠ txt "" ∧ wt ≠ txt "") :
    (RegisterCopyright J e w).1.isFailure = true ∧ (RegisterCopyright J e w).2 = w := by
  rcases h1 : e.args.lookup (txt "copyright_id") with _ | cid
  · simp [RegisterCopyright, h1, Response.isFailure]
  rcases h2 : e.args.lookup (txt "work_name") with _ | wn
  · simp [RegisterCopyright, h1, h2, Response.isFailure]
  rcases h3 : e.args.lookup (txt "author") with _ | author
  · simp [RegisterCopyright, h1, h2, h3, Response.isFailure]
  rcases h4 : e.args.lookup (txt "owner_address") with _ | owner
  · simp [RegisterCopyright, h1, h2, h3, h4, Response.isFailure]
  rcases h5 : e.args.lookup (txt "work_type") with _ | wt
  · simp [RegisterCopyright, h1, h2, h3, h4, h5, Response.isFailure]
  rcases h6 : e.args.lookup (txt "description") with _ | desc
  · simp [RegisterCopyright, h1, h2, h3, h4, h5, h6, Response.isFailure]
  by_cases hv : cid = txt "" ∨ wn = txt "" ∨ author = txt "" ∨ owner = txt "" ∨ wt = txt ""
  · simp [RegisterCopyright, h1, h2, h3, h4, h5, h6, hv, Response.isFailure]
  · exfalso
    simp only [not_or] at hv
    exact hbad ⟨cid, wn, author, owner, wt, desc, h1, h2, h3, h4, h5, h6, hv.1, hv.2.1,
      hv.2.2.1, hv.2.2.2.1, hv.2.2.2.2⟩

/-- C10. Register argument validation: `RegisterCopyright` fails without making
any host call (no read, no write, no event) whenever one of the six keys is
absent from the argument mapping or one of the first five is present but empty;
and a mapping whose `description` is present and empty, the other five being
non-empty, is accepted: on a store with no value at the id, the write being
accepted, it registers a record with the empty description. -/
theorem register_argument_validation (J : Json) (hJ : J.Faithful) (e : Env) (w : World) :
    ((e.args.lookup (txt "copyright_id") = none ∨ e.args.lookup (txt "work_name") = none ∨
      e.args.lookup (txt "author") = none ∨ e.args.lookup (txt "owner_address") = none ∨
      e.args.lookup (txt "work_type") = none ∨ e.args.lookup (txt "description") = none ∨
      e.args.lookup (txt "copyright_id") = some (txt "") ∨ e.args.lookup (txt "work_name") = some (txt "") ∨
      e.args.lookup (txt "author") = some (txt "") ∨ e.args.lookup (txt "owner_address") = some (txt "") ∨
      e.args.lookup (txt "work_type") = some (txt "")) →
        (RegisterCopyright J e w).1.isFailure = true ∧ (RegisterCopyright J e w).2 = w) ∧
    (∀ cid wn author owner wt : Bytes,
      e.args.lookup (txt "copyright_id") = some cid → e.args.lookup (txt "work_name") = some wn →
      e.args.lookup (txt "author") = some author → e.args.lookup (txt "owner_address") = some owner →
      e.args.lookup (txt "work_type") = some wt → e.args.lookup (txt "description") = some (txt "") →
      cid ≠ txt "" → wn ≠ txt "" → author ≠ txt "" → owner ≠ txt "" → wt ≠ txt "" →
      w.store cid = none → (∀ v, e.putErr cid v = none) →
        (RegisterCopyright J e w).1
            = Response.OK (txt "Copyright " ++ cid ++ txt " registered successfully") ∧
        ∃ r, recordAt J (RegisterCopyright J e w).2.store cid = some r ∧
          r.Description = txt "" ∧ r.CopyrightID = cid.toValidUTF8 ∧
          r.WorkName = wn.toValidUTF8 ∧ r.Author = author.toValidUTF8 ∧
          r.OwnerAddress = owner.toValidUTF8 ∧ r.WorkType = wt.toValidUTF8 ∧
          (cid.IsValidUTF8 → r.CopyrightID = cid) ∧ (wn.IsValidUTF8 → r.WorkName = wn) ∧
          (author.IsValidUTF8 → r.Author = author) ∧
          (owner.IsValidUTF8 → r.OwnerAddress = owner) ∧
          (wt.IsValidUTF8 → r.WorkType = wt) ∧ r.IsDeleted = false) := by
  constructor
  · intro hbad
    apply RegisterCopyright_invalid
    rintro ⟨cid, wn, author, owner, wt, desc, h1, h2, h3, h4, h5, h6, n1, n2, n3, n4, n5⟩
    rw [h1, h2, h3, h4, h5, h6] at hbad
    simp only [reduceCtorEq, Option.some.injEq, false_or] at hbad
    rcases hbad with h | h | h | h | h
    · exact n1 h
    · exact n2 h
    · exact n3 h
    · exact n4 h
    · exact n5 h
  · intro cid wn author owner wt h1 h2 h3 h4 h5 h6 n1 n2 n3 n4 n5 hfresh hput
    obtain ⟨b, hm, hu⟩ := hJ.1
      { CopyrightID := cid, WorkName := wn, Author := author, OwnerAddress := owner,
        RegistrationDate := e.now, WorkType := wt, Description := txt "",
        TransactionHistory := [txt "Registered on " ++ e.now ++ txt " by " ++ owner],
        IsDeleted := false }
    rw [RegisterCopyright_fresh J e w cid wn author owner wt (txt "") b h1 h2 h3 h4 h5 h6
      n1 n2 n3 n4 n5 hfresh hm (hput b)]
    exact ⟨rfl, _, recordAt_put_same J _ cid b _ hu, Bytes.toValidUTF8_empty, rfl, rfl, rfl, rfl,
      rfl, fun h => h, fun h => h, fun h => h, fun h => h, fun h => h, rfl⟩

/-- C10, at a mapping without `description` and at a mapping with an empty
`description`, both on the empty store. -/
theorem register_argument_validation_witness :
    refJson.Faithful ∧
    ((RegisterCopyright refJson (demoEnv missingDescriptionArgs) emptyWorld).1.isFailure
        = true ∧
      (RegisterCopyright refJson (demoEnv missingDescriptionArgs) emptyWorld).2
        = emptyWorld) ∧
    ((RegisterCopyright refJson (demoEnv demoRegisterArgsEmptyDesc) emptyWorld).1
        = Response.OK (txt "Copyright " ++ txt "C2" ++ txt " registered successfully") ∧
      ∃ r, recordAt refJson
          (RegisterCopyright refJson (demoEnv demoRegisterArgsEmptyDesc) emptyWorld).2.store
          (txt "C2") = some r ∧
        r.Description = txt "" ∧ r.CopyrightID = (txt "C2").toValidUTF8 ∧
        r.WorkName = (txt "Dusk").toValidUTF8 ∧ r.Author = (txt "Bob").toValidUTF8 ∧
        r.OwnerAddress = (txt "addrC").toValidUTF8 ∧ r.WorkType = (txt "image").toValidUTF8 ∧
        ((txt "C2").IsValidUTF8 → r.CopyrightID = txt "C2") ∧
        ((txt "Dusk").IsValidUTF8 → r.WorkName = txt "Dusk") ∧
        ((txt "Bob").IsValidUTF8 → r.Author = txt "Bob") ∧
        ((txt "addrC").IsValidUTF8 → r.OwnerAddress = txt "addrC") ∧
        ((txt "image").IsValidUTF8 → r.WorkType = txt "image") ∧ r.IsDeleted = false) :=
  ⟨refJson_faithful,
    (register_argument_validation refJson refJson_faithful
      (demoEnv missingDescriptionArgs) emptyWorld).1
      (Or.inr (Or.inr (Or.inr (Or.inr (Or.inr (Or.inl (by decide))))))),
    (register_argument_validation refJson refJson_faithful
      (demoEnv demoRegisterArgsEmptyDesc) emptyWorld).2
      (txt "C2") (txt "Dusk") (txt "Bob") (txt "addrC") (txt "image")
      (by decide) (by decide) (by decide) (by decide) (by decide) (by decide)
      (by decide) (by decide) (by decide) (by decide) (by decide) rfl (fun _ => rfl)⟩

/-! ## What a record method writes -/

theorem recordAt_eq_some (J : Json) (s : Store) (k : Bytes) (r : DigitalCopyright)
    (h : recordAt J s k = some r) : ∃ b, s k = some b ∧ J.Unmarshal b = Except.ok r := by
  unfold recordAt at h
  rcases hs : s k with _ | b
  · simp [hs] at h
  · rcases hu : J.Unmarshal b with err | r0
    · simp [hs, hu] at h
    · simp [hs, hu] at h
      exact ⟨b, rfl, by rw [hu, h]⟩

theorem recordAt_put_other (J : Json) (s : Store) (k b k' : Bytes) (h : k' ≠ k) :
    recordAt J (s.put k b) k' = recordAt J s k' := by
  simp [recordAt, Store.put_other s k b k' h]

theorem runOp_written (J : Json) (op : Op) (e : Env) (w : World) (hop : op ≠ Op.init) :
    (runOp J op e w).2.store = w.store ∨
    ∃ cid b' r',
      e.args.lookup (txt "copyright_id") = some cid ∧ cid ≠ txt "" ∧
      J.Marshal r' = Except.ok b' ∧
      (runOp J op e w).2.store = w.store.put cid b' ∧
      ((w.store cid = none ∧ r'.CopyrightID = cid ∧ RequiredFieldsNonEmpty r') ∨
       (∃ b r entry, w.store cid = some b ∧ J.Unmarshal b = Except.ok r ∧
          r'.CopyrightID = r.CopyrightID ∧ r'.WorkName = r.WorkName ∧ r'.Author = r.Author ∧
          r'.WorkType = r.WorkType ∧ r'.RegistrationDate = r.RegistrationDate ∧
          (r'.OwnerAddress = r.OwnerAddress ∨ r'.OwnerAddress ≠ txt "") ∧
          r'.TransactionHistory = r.TransactionHistory ++ [entry])) := by
  cases op
  · exact absurd rfl hop
  · rcases RegisterCopyright_cases J e w with
      h | ⟨cid, wn, author, owner, wt, desc, b, h1, _, _, _, _, _, n1, n2, n3, n4, n5, hs, hm,
        _, hres⟩
    · exact Or.inl h.store_eq
    · right
      refine ⟨cid, b, _, h1, n1, hm, by simp [runOp, hres], Or.inl ⟨hs, rfl, ?_⟩⟩
      exact ⟨n1, n2, n3, n4, n5, by simp⟩
  · rcases QueryCopyright_cases J e w with h | ⟨_, _, _, _, _, _, _, _, hres⟩
    · exact Or.inl h.store_eq
    · left
      simp [runOp, hres]
  · rcases TransferCopyright_cases J e w with
      h | ⟨cid, n, b, r, b', h1, _, n1, n2, hs, hu, _, hm, _, hres⟩
    · exact Or.inl h.store_eq
    · right
      exact ⟨cid, b', _, h1, n1, hm, by simp [runOp, hres],
        Or.inr ⟨b, r, _, hs, hu, rfl, rfl, rfl, rfl, rfl, Or.inr n2, rfl⟩⟩
  · rcases UpdateCopyrightDescription_cases J e w with
      h | ⟨cid, b, r, b', h1, n1, hs, hu, _, hm, _, hres⟩
    · exact Or.inl h.store_eq
    · right
      exact ⟨cid, b', _, h1, n1, hm, by simp [runOp, hres],
        Or.inr ⟨b, r, _, hs, hu, rfl, rfl, rfl, rfl, rfl, Or.inl rfl, rfl⟩⟩
  · rcases DeleteCopyright_cases J e w with
      h | ⟨cid, b, r, b', h1, n1, hs, hu, _, hm, _, hres⟩
    · exact Or.inl h.store_eq
    · right
      exact ⟨cid, b', _, h1, n1, hm, by simp [runOp, hres],
        Or.inr ⟨b, r, _, hs, hu, rfl, rfl, rfl, rfl, rfl, Or.inl rfl, rfl⟩⟩

theorem runOp_store_other (J : Json) (op : Op) (e : Env) (w : World) (hop : op ≠ Op.init)
    (k : Bytes) (hk : e.args.lookup (txt "copyright_id") ≠ some k) :
    (runOp J op e w).2.store k = w.store k := by
  rcases runOp_written J op e w hop with h | ⟨cid, b', _, h1, _, _, hst, _⟩
  · rw [h]
  · rw [hst]
    apply Store.put_other
    intro hkc
    exact hk (by rw [h1, hkc])

theorem Initialize_store_other (e : Env) (w : World) (k : Bytes)
    (hk : k ≠ txt "contract_creator") : (Initialize e w).2.store k = w.store k := by
  rcases Initialize_cases e w with h | ⟨creator, _, _, _, hres⟩
  · rw [h.store_eq]
  · rw [hres]
    exact Store.put_other _ _ _ _ hk

/-- C11. History is append-only: for each of the five record methods, on every
store and with all inputs, every key that holds a record before the call holds
a record after it whose history starts with the earlier history; and a
successful Transfer, UpdateDescription or Delete makes the history of the
record at its `copyright_id` exactly one entry longer. -/
theorem history_append_only (J : Json) (hJ : J.Faithful) (op : Op) (e : Env) (w : World)
    (hop : op ≠ Op.init) :
    (∀ k r, recordAt J w.store k = some r →
      ∃ r' t, recordAt J (runOp J op e w).2.store k = some r' ∧
        r'.TransactionHistory = r.TransactionHistory ++ t) ∧
    ((op = Op.transfer ∨ op = Op.update ∨ op = Op.delete) →
      (runOp J op e w).1.isOK = true →
      ∃ cid r r', e.args.lookup (txt "copyright_id") = some cid ∧
        recordAt J w.store cid = some r ∧
        recordAt J (runOp J op e w).2.store cid = some r' ∧
        (∃ entry, r'.TransactionHistory = r.TransactionHistory ++ [entry]) ∧
        r'.TransactionHistory.length = r.TransactionHistory.length + 1) := by
  constructor
  · intro k r hr
    obtain ⟨b, hs, hu⟩ := recordAt_eq_some J w.store k r hr
    rcases runOp_written J op e w hop with h | ⟨cid, b', r', _, _, hm, hst, hcase⟩
    · exact ⟨r, [], by rw [h]; exact hr, by simp⟩
    · by_cases hk : k = cid
      · subst hk
        rcases hcase with ⟨hnone, _, _⟩ | ⟨b0, r0, entry, hs0, hu0, _, _, _, _, _, _, hhist⟩
        · rw [hnone] at hs
          cases hs
        · rw [hs] at hs0
          cases hs0
          rw [hu] at hu0
          cases hu0
          obtain ⟨_, _, _, _, _, _, _, v8⟩ :=
            valid_fields r (valid_of_unmarshal J hJ b r hu)
          refine ⟨r'.toValidUTF8, [entry.toValidUTF8],
            by rw [hst]; exact recordAt_put_marshal J hJ _ _ _ _ hm, ?_⟩
          show List.map Bytes.toValidUTF8 r'.TransactionHistory = _
          rw [hhist, List.map_append, v8]
          rfl
      · exact ⟨r, [], by rw [hst, recordAt_put_other J _ _ _ _ hk]; exact hr, by simp⟩
  · intro hmut hok
    cases op
    · exact absurd rfl hop
    · simp at hmut
    · simp at hmut
    · rcases TransferCopyright_cases J e w with
        h | ⟨cid, n, b, r, b', h1, _, _, _, hs, hu, _, hm, _, hres⟩
      · have := h.not_isOK
        rw [runOp] at hok
        rw [hok] at this
        cases this
      · have hrec := recordAt_put_marshal J hJ w.store cid b' _ hm
        have hst : (runOp J Op.transfer e w).2.store = w.store.put cid b' := by
          simp [runOp, hres]
        rw [← hst] at hrec
        obtain ⟨_, _, _, _, _, _, _, v8⟩ := valid_fields r (valid_of_unmarshal J hJ b r hu)
        refine ⟨cid, r, _, h1, recordAt_of_store J _ cid b r hs hu, hrec,
          ⟨_, map_toValidUTF8_snoc _ _ v8⟩, ?_⟩
        show (List.map Bytes.toValidUTF8 (r.TransactionHistory ++ [_])).length = _
        simp
    · rcases UpdateCopyrightDescription_cases J e w with
        h | ⟨cid, b, r, b', h1, _, hs, hu, _, hm, _, hres⟩
      · have := h.not_isOK
        rw [runOp] at hok
        rw [hok] at this
        cases this
      · have hrec := recordAt_put_marshal J hJ w.store cid b' _ hm
        have hst : (runOp J Op.update e w).2.store = w.store.put cid b' := by
          simp [runOp, hres]
        rw [← hst] at hrec
        obtain ⟨_, _, _, _, _, _, _, v8⟩ := valid_fields r (valid_of_unmarshal J hJ b r hu)
        refine ⟨cid, r, _, h1, recordAt_of_store J _ cid b r hs hu, hrec,
          ⟨_, map_toValidUTF8_snoc _ _ v8⟩, ?_⟩
        show (List.map Bytes.toValidUTF8 (r.TransactionHistory ++ [_])).length = _
        simp
    · rcases DeleteCopyright_cases J e w with
        h | ⟨cid, b, r, b', h1, _, hs, hu, _, hm, _, hres⟩
      · have := h.not_isOK
        rw [runOp] at hok
        rw [hok] at this
        cases this
      · have hrec := recordAt_put_marshal J hJ w.store cid b' _ hm
        have hst : (runOp J Op.delete e w).2.store = w.store.put cid b' := by
          simp [runOp, hres]
        rw [← hst] at hrec
        obtain ⟨_, _, _, _, _, _, _, v8⟩ := valid_fields r (valid_of_unmarshal J hJ b r hu)
        refine ⟨cid, r, _, h1, recordAt_of_store J _ cid b r hs hu, hrec,
          ⟨_, map_toValidUTF8_snoc _ _ v8⟩, ?_⟩
        show (List.map Bytes.toValidUTF8 (r.TransactionHistory ++ [_])).length = _
        simp

/-- C11, at the transfer of `C1` to `addrB` on the store that holds
`demoRecord`. -/
theorem history_append_only_witness :
    refJson.Faithful ∧ Op.transfer ≠ Op.init ∧
    recordAt refJson demoWorld.store (txt "C1") = some demoRecord ∧
    (∃ r' t, recordAt refJson (runOp refJson Op.transfer
        (demoEnv [(txt "copyright_id", txt "C1"), (txt "new_owner_address", txt "addrB")])
        demoWorld).2.store (txt "C1") = some r' ∧
      r'.TransactionHistory = demoRecord.TransactionHistory ++ t) ∧
    ∃ cid r r',
      (demoEnv [(txt "copyright_id", txt "C1"), (txt "new_owner_address", txt "addrB")]).args.lookup
        (txt "copyright_id") = some cid ∧
      recordAt refJson demoWorld.store cid = some r ∧
      recordAt refJson (runOp refJson Op.transfer
        (demoEnv [(txt "copyright_id", txt "C1"), (txt "new_owner_address", txt "addrB")])
        demoWorld).2.store cid = some r' ∧
      (∃ entry, r'.TransactionHistory = r.TransactionHistory ++ [entry]) ∧
      r'.TransactionHistory.length = r.TransactionHistory.length + 1 :=
  have h := history_append_only refJson refJson_faithful Op.transfer
    (demoEnv [(txt "copyright_id", txt "C1"), (txt "new_owner_address", txt "addrB")]) demoWorld (by decide)
  ⟨refJson_faithful, by decide, rfl, h.1 (txt "C1") demoRecord rfl, h.2 (Or.inl rfl) rfl⟩

theorem runOp_on_deleted (J : Json) (op : Op) (e : Env) (w : World) (id b : Bytes)
    (r : DigitalCopyright) (hop : op ≠ Op.init)
    (h1 : e.args.lookup (txt "copyright_id") = some id)
    (hs : w.store id = some b) (hu : J.Unmarshal b = Except.ok r) (hl : r.IsDeleted = true) :
    FailsCleanly w (runOp J op e w) := by
  have live_absurd : ∀ cid b0 r0, e.args.lookup (txt "copyright_id") = some cid →
      w.store cid = some b0 → J.Unmarshal b0 = Except.ok r0 → r0.IsDeleted = false → False := by
    intro cid b0 r0 hc hs0 hu0 hl0
    rw [h1] at hc
    cases hc
    rw [hs] at hs0
    cases hs0
    rw [hu] at hu0
    cases hu0
    rw [hl] at hl0
    cases hl0
  cases op
  · exact absurd rfl hop
  · rcases RegisterCopyright_cases J e w with
      h | ⟨cid, _, _, _, _, _, _, hc, _, _, _, _, _, _, _, _, _, _, hnone, _, _, _⟩
    · exact h
    · rw [h1] at hc
      cases hc
      rw [hs] at hnone
      cases hnone
  · rcases QueryCopyright_cases J e w with h | ⟨cid, b0, r0, hc, _, hs0, hu0, hl0, _⟩
    · exact h
    · exact (live_absurd cid b0 r0 hc hs0 hu0 hl0).elim
  · rcases TransferCopyright_cases J e w with
      h | ⟨cid, _, b0, r0, _, hc, _, _, _, hs0, hu0, hl0, _, _, _⟩
    · exact h
    · exact (live_absurd cid b0 r0 hc hs0 hu0 hl0).elim
  · rcases UpdateCopyrightDescription_cases J e w with
      h | ⟨cid, b0, r0, _, hc, _, hs0, hu0, hl0, _, _, _⟩
    · exact h
    · exact (live_absurd cid b0 r0 hc hs0 hu0 hl0).elim
  · rcases DeleteCopyright_cases J e w with
      h | ⟨cid, b0, r0, _, hc, _, hs0, hu0, hl0, _, _, _⟩
    · exact h
    · exact (live_absurd cid b0 r0 hc hs0 hu0 hl0).elim

theorem runAll_keeps_deleted (J : Json) (id b : Bytes) (r : DigitalCopyright)
    (hu : J.Unmarshal b = Except.ok r) (hl : r.IsDeleted = true) (ops : List (Op × Env))
    (hops : ∀ p ∈ ops, p.1 ≠ Op.init) :
    ∀ w : World, w.store id = some b → (runAll J ops w).2.store id = some b := by
  induction ops with
  | nil => intro w hs; exact hs
  | cons p ops ih =>
    intro w hs
    obtain ⟨op, e⟩ := p
    have hop : op ≠ Op.init := hops (op, e) (List.mem_cons_self _ _)
    have hops' : ∀ p ∈ ops, p.1 ≠ Op.init := fun p hp => hops p (List.mem_cons_of_mem _ hp)
    have hstep : (runOp J op e w).2.store id = some b := by
      by_cases h1 : e.args.lookup (txt "copyright_id") = some id
      · rw [(runOp_on_deleted J op e w id b r hop h1 hs hu hl).store_eq]
        exact hs
      · rw [runOp_store_other J op e w hop id h1]
        exact hs
    simp only [runAll]
    exact ih hops' _ hstep

/-- C12. DELETED is a terminal state: when the key `id` holds a record whose
deleted flag is set, each of Register, Transfer, UpdateDescription, Delete and
Query called with that id, whatever its other arguments, returns a failure and
leaves the store as it was; and after every sequence of these five methods,
with arbitrary arguments, the key `id` still holds the same bytes, hence the
same deleted record. -/
theorem deleted_is_terminal (J : Json) (w : World) (id b : Bytes) (r : DigitalCopyright)
    (hs : w.store id = some b) (hu : J.Unmarshal b = Except.ok r) (hl : r.IsDeleted = true) :
    (∀ op e, op ≠ Op.init → e.args.lookup (txt "copyright_id") = some id →
      (runOp J op e w).1.isFailure = true ∧ (runOp J op e w).2.store = w.store) ∧
    (∀ ops : List (Op × Env), (∀ p ∈ ops, p.1 ≠ Op.init) →
      (runAll J ops w).2.store id = some b ∧
      recordAt J (runAll J ops w).2.store id = some r) := by
  constructor
  · intro op e hop h1
    have h := runOp_on_deleted J op e w id b r hop h1 hs hu hl
    exact ⟨h.1, h.store_eq⟩
  · intro ops hops
    have h := runAll_keeps_deleted J id b r hu hl ops hops w hs
    exact ⟨h, recordAt_of_store J _ id b r h hu⟩

/-- C12, at the store that holds the deleted `demoDeletedRecord` under `C1`:
a transfer of `C1` fails, and after a register, a transfer, an update, a delete
and a query of `C1` the key holds the same record. -/
theorem deleted_is_terminal_witness :
    deletedWorld.store (txt "C1") = some (Bytes.mk (RefJson.encRecord demoDeletedRecord)) ∧
    demoDeletedRecord.IsDeleted = true ∧
    ((runOp refJson Op.transfer
        (demoEnv [(txt "copyright_id", txt "C1"), (txt "new_owner_address", txt "addrB")])
        deletedWorld).1.isFailure = true ∧
      (runOp refJson Op.transfer
        (demoEnv [(txt "copyright_id", txt "C1"), (txt "new_owner_address", txt "addrB")])
        deletedWorld).2.store = deletedWorld.store) ∧
    ((runAll refJson
        [(Op.register, demoEnv demoRegisterArgs),
         (Op.transfer, demoEnv [(txt "copyright_id", txt "C1"), (txt "new_owner_address", txt "addrB")]),
         (Op.update, demoEnv [(txt "copyright_id", txt "C1"), (txt "new_description", txt "x")]),
         (Op.delete, demoEnv [(txt "copyright_id", txt "C1")]),
         (Op.query, demoEnv [(txt "copyright_id", txt "C1")])] deletedWorld).2.store (txt "C1")
        = some (Bytes.mk (RefJson.encRecord demoDeletedRecord)) ∧
      recordAt refJson (runAll refJson
        [(Op.register, demoEnv demoRegisterArgs),
         (Op.transfer, demoEnv [(txt "copyright_id", txt "C1"), (txt "new_owner_address", txt "addrB")]),
         (Op.update, demoEnv [(txt "copyright_id", txt "C1"), (txt "new_description", txt "x")]),
         (Op.delete, demoEnv [(txt "copyright_id", txt "C1")]),
         (Op.query, demoEnv [(txt "copyright_id", txt "C1")])] deletedWorld).2.store (txt "C1")
        = some demoDeletedRecord) :=
  have h := deleted_is_terminal refJson deletedWorld (txt "C1")
    (Bytes.mk (RefJson.encRecord demoDeletedRecord)) demoDeletedRecord rfl
    refJson_unmarshal_demoDeletedRecord rfl
  ⟨rfl, rfl,
    h.1 Op.transfer (demoEnv [(txt "copyright_id", txt "C1"), (txt "new_owner_address", txt "addrB")])
      (by decide) (by decide),
    h.2 _ (by
      intro p hp
      simp only [List.mem_cons, List.mem_singleton, List.not_mem_nil, or_false] at hp
      rcases hp with rfl | rfl | rfl | rfl | rfl <;> decide)⟩

/-- C13. Identity fields are immutable after creation: when the key `id` holds
a record `r`, after any successful record method called on `id` (Transfer,
UpdateDescription and Delete are the ones that write) the record stored at `id`
has the id, creator name, registration date, title and category of `r`; its
holder address is that of `r` unless the method is Transfer, its description
that of `r` unless it is UpdateDescription, its deleted flag that of `r` unless
it is Delete. -/
theorem identity_fields_immutable (J : Json) (hJ : J.Faithful) (op : Op) (e : Env) (w : World)
    (id b : Bytes) (r : DigitalCopyright) (hop : op ≠ Op.init)
    (h1 : e.args.lookup (txt "copyright_id") = some id)
    (hs : w.store id = some b) (hu : J.Unmarshal b = Except.ok r)
    (hok : (runOp J op e w).1.isOK = true) :
    ∃ r', recordAt J (runOp J op e w).2.store id = some r' ∧
      r'.CopyrightID = r.CopyrightID ∧ r'.Author = r.Author ∧
      r'.RegistrationDate = r.RegistrationDate ∧ r'.WorkName = r.WorkName ∧
      r'.WorkType = r.WorkType ∧
      (op ≠ Op.transfer → r'.OwnerAddress = r.OwnerAddress) ∧
      (op ≠ Op.update → r'.Description = r.Description) ∧
      (op ≠ Op.delete → r'.IsDeleted = r.IsDeleted) := by
  have same : ∀ cid b0 r0, e.args.lookup (txt "copyright_id") = some cid →
      w.store cid = some b0 → J.Unmarshal b0 = Except.ok r0 → cid = id ∧ r0 = r := by
    intro cid b0 r0 hc hs0 hu0
    rw [h1] at hc
    cases hc
    rw [hs] at hs0
    cases hs0
    rw [hu] at hu0
    cases hu0
    exact ⟨rfl, rfl⟩
  have failed : FailsCleanly w (runOp J op e w) → False := by
    intro h
    have := h.not_isOK
    rw [hok] at this
    cases this
  cases op
  · exact absurd rfl hop
  · rcases RegisterCopyright_cases J e w with
      h | ⟨cid, _, _, _, _, _, _, hc, _, _, _, _, _, _, _, _, _, _, hnone, _, _, _⟩
    · exact (failed h).elim
    · rw [h1] at hc
      cases hc
      rw [hs] at hnone
      cases hnone
  · rcases QueryCopyright_cases J e w with h | ⟨_, _, _, _, _, _, _, _, hres⟩
    · exact (failed h).elim
    · refine ⟨r, ?_, rfl, rfl, rfl, rfl, rfl, fun _ => rfl, fun _ => rfl, fun _ => rfl⟩
      simp only [runOp, hres]
      exact recordAt_of_store J _ id b r hs hu
  · rcases TransferCopyright_cases J e w with
      h | ⟨cid, n, b0, r0, b', hc, _, _, _, hs0, hu0, _, hm, _, hres⟩
    · exact (failed h).elim
    · obtain ⟨rfl, rfl⟩ := same cid b0 r0 hc hs0 hu0
      have hrec := recordAt_put_marshal J hJ w.store cid b' _ hm
      have hst : (runOp J Op.transfer e w).2.store = w.store.put cid b' := by
        simp [runOp, hres]
      rw [← hst] at hrec
      obtain ⟨v1, v2, v3, v4, v5, v6, v7, _⟩ := valid_fields r0 (valid_of_unmarshal J hJ b0 r0 hu0)
      exact ⟨_, hrec, v1, v3, v5, v2, v6, fun h => absurd rfl h, fun _ => v7,
        fun _ => rfl⟩
  · rcases UpdateCopyrightDescription_cases J e w with
      h | ⟨cid, b0, r0, b', hc, _, hs0, hu0, _, hm, _, hres⟩
    · exact (failed h).elim
    · obtain ⟨rfl, rfl⟩ := same cid b0 r0 hc hs0 hu0
      have hrec := recordAt_put_marshal J hJ w.store cid b' _ hm
      have hst : (runOp J Op.update e w).2.store = w.store.put cid b' := by
        simp [runOp, hres]
      rw [← hst] at hrec
      obtain ⟨v1, v2, v3, v4, v5, v6, v7, _⟩ := valid_fields r0 (valid_of_unmarshal J hJ b0 r0 hu0)
      exact ⟨_, hrec, v1, v3, v5, v2, v6, fun _ => v4, fun h => absurd rfl h,
        fun _ => rfl⟩
  · rcases DeleteCopyright_cases J e w with
      h | ⟨cid, b0, r0, b', hc, _, hs0, hu0, _, hm, _, hres⟩
    · exact (failed h).elim
    · obtain ⟨rfl, rfl⟩ := same cid b0 r0 hc hs0 hu0
      have hrec := recordAt_put_marshal J hJ w.store cid b' _ hm
      have hst : (runOp J Op.delete e w).2.store = w.store.put cid b' := by
        simp [runOp, hres]
      rw [← hst] at hrec
      obtain ⟨v1, v2, v3, v4, v5, v6, v7, _⟩ := valid_fields r0 (valid_of_unmarshal J hJ b0 r0 hu0)
      exact ⟨_, hrec, v1, v3, v5, v2, v6, fun _ => v4, fun _ => v7,
        fun h => absurd rfl h⟩

/-- C13, at an update of the description of `C1` on the store that holds
`demoRecord`. -/
theorem identity_fields_immutable_witness :
    refJson.Faithful ∧
    demoWorld.store (txt "C1") = some (Bytes.mk (RefJson.encRecord demoRecord)) ∧
    (runOp refJson Op.update (demoEnv [(txt "copyright_id", txt "C1"), (txt "new_description", txt "x")])
      demoWorld).1.isOK = true ∧
    ∃ r', recordAt refJson (runOp refJson Op.update
        (demoEnv [(txt "copyright_id", txt "C1"), (txt "new_description", txt "x")]) demoWorld).2.store (txt "C1")
        = some r' ∧
      r'.CopyrightID = demoRecord.CopyrightID ∧ r'.Author = demoRecord.Author ∧
      r'.RegistrationDate = demoRecord.RegistrationDate ∧
      r'.WorkName = demoRecord.WorkName ∧ r'.WorkType = demoRecord.WorkType ∧
      (Op.update ≠ Op.transfer → r'.OwnerAddress = demoRecord.OwnerAddress) ∧
      (Op.update ≠ Op.update → r'.Description = demoRecord.Description) ∧
      (Op.update ≠ Op.delete → r'.IsDeleted = demoRecord.IsDeleted) :=
  ⟨refJson_faithful, rfl, rfl,
    identity_fields_immutable refJson refJson_faithful Op.update
      (demoEnv [(txt "copyright_id", txt "C1"), (txt "new_description", txt "x")]) demoWorld (txt "C1")
      (Bytes.mk (RefJson.encRecord demoRecord)) demoRecord (by decide) (by decide) rfl
      refJson_unmarshal_demoRecord rfl⟩

/-! ## The host calls a record method makes -/

theorem RegisterCopyright_calls (J : Json) (e : Env) (w : World) :
    ∃ l, (RegisterCopyright J e w).2.log = w.log ++ l ∧ CallsOnlyTarget e l ∧
      (writesOf l).length ≤ 1 := by
  rcases h1 : e.args.lookup (txt "copyright_id") with _ | cid
  · simp [CallsOnlyTarget, RegisterCopyright, h1, readsOf, writesOf]
  rcases h2 : e.args.lookup (txt "work_name") with _ | wn
  · simp [CallsOnlyTarget, RegisterCopyright, h1, h2, readsOf, writesOf]
  rcases h3 : e.args.lookup (txt "author") with _ | author
  · simp [CallsOnlyTarget, RegisterCopyright, h1, h2, h3, readsOf, writesOf]
  rcases h4 : e.args.lookup (txt "owner_address") with _ | owner
  · simp [CallsOnlyTarget, RegisterCopyright, h1, h2, h3, h4, readsOf, writesOf]
  rcases h5 : e.args.lookup (txt "work_type") with _ | wt
  · simp [CallsOnlyTarget, RegisterCopyright, h1, h2, h3, h4, h5, readsOf, writesOf]
  rcases h6 : e.args.lookup (txt "description") with _ | desc
  · simp [CallsOnlyTarget, RegisterCopyright, h1, h2, h3, h4, h5, h6, readsOf, writesOf]
  by_cases hv : cid = txt "" ∨ wn = txt "" ∨ author = txt "" ∨ owner = txt "" ∨ wt = txt ""
  · simp [CallsOnlyTarget, RegisterCopyright, h1, h2, h3, h4, h5, h6, hv, readsOf, writesOf]
  rcases hs : w.store cid with _ | b0
  swap
  · simp [CallsOnlyTarget, RegisterCopyright, h1, h2, h3, h4, h5, h6, hv, GetObject, hs,
      readsOf, writesOf]
  obtain ⟨mres, hm⟩ : ∃ x, J.Marshal
      { CopyrightID := cid, WorkName := wn, Author := author, OwnerAddress := owner,
        RegistrationDate := e.now, WorkType := wt, Description := desc,
        TransactionHistory := [txt "Registered on " ++ e.now ++ txt " by " ++ owner],
        IsDeleted := false } = x := ⟨_, rfl⟩
  rcases mres with err | b
  · simp [CallsOnlyTarget, RegisterCopyright, h1, h2, h3, h4, h5, h6, hv, GetObject, hs, hm,
      Response.Error, readsOf, writesOf]
  rcases hp : e.putErr cid b with _ | err
  · simp [CallsOnlyTarget, RegisterCopyright, h1, h2, h3, h4, h5, h6, hv, GetObject, hs, hm,
      PutObject, hp, EmitJSONEvent, readsOf, writesOf]
  · simp [CallsOnlyTarget, RegisterCopyright, h1, h2, h3, h4, h5, h6, hv, GetObject, hs, hm,
      PutObject, hp, Response.Error, readsOf, writesOf]

theorem QueryCopyright_calls (J : Json) (e : Env) (w : World) :
    ∃ l, (QueryCopyright J e w).2.log = w.log ++ l ∧ CallsOnlyTarget e l ∧
      writesOf l = [] := by
  rcases h1 : e.args.lookup (txt "copyright_id") with _ | cid
  · simp [CallsOnlyTarget, QueryCopyright, h1, readsOf, writesOf]
  by_cases n1 : cid = txt ""
  · simp [CallsOnlyTarget, QueryCopyright, h1, n1, readsOf, writesOf]
  rcases hs : w.store cid with _ | b
  · simp [CallsOnlyTarget, QueryCopyright, h1, n1, GetObject, hs, Response.Error, readsOf,
      writesOf]
  rcases hu : J.Unmarshal b with err | r
  · simp [CallsOnlyTarget, QueryCopyright, h1, n1, GetObject, hs, hu, Response.Error, readsOf,
      writesOf]
  rcases hl : r.IsDeleted with _ | _
  · simp [CallsOnlyTarget, QueryCopyright, h1, n1, GetObject, hs, hu, hl, readsOf, writesOf]
  · simp [CallsOnlyTarget, QueryCopyright, h1, n1, GetObject, hs, hu, hl, Response.Error,
      readsOf, writesOf]

theorem TransferCopyright_calls (J : Json) (e : Env) (w : World) :
    ∃ l, (TransferCopyright J e w).2.log = w.log ++ l ∧ CallsOnlyTarget e l ∧
      (writesOf l).length ≤ 1 := by
  rcases h1 : e.args.lookup (txt "copyright_id") with _ | cid
  · simp [CallsOnlyTarget, TransferCopyright, h1, readsOf, writesOf]
  rcases h2 : e.args.lookup (txt "new_owner_address") with _ | n
  · simp [CallsOnlyTarget, TransferCopyright, h1, h2, readsOf, writesOf]
  by_cases n1 : cid = txt ""
  · simp [CallsOnlyTarget, TransferCopyright, h1, h2, n1, readsOf, writesOf]
  by_cases n2 : n = txt ""
  · simp [CallsOnlyTarget, TransferCopyright, h1, h2, n2, readsOf, writesOf]
  rcases hs : w.store cid with _ | b
  · simp [CallsOnlyTarget, TransferCopyright, h1, h2, n1, n2, GetObject, hs, Response.Error,
      readsOf, writesOf]
  rcases hu : J.Unmarshal b with err | r
  · simp [CallsOnlyTarget, TransferCopyright, h1, h2, n1, n2, GetObject, hs, hu,
      Response.Error, readsOf, writesOf]
  rcases r with ⟨rid, rwn, rau, rown, rdate, rwt, rdesc, rhist, rdel⟩
  cases rdel
  swap
  · simp [CallsOnlyTarget, TransferCopyright, h1, h2, n1, n2, GetObject, hs, hu,
      Response.Error, readsOf, writesOf]
  obtain ⟨mres, hm⟩ : ∃ x, J.Marshal
      { CopyrightID := rid, WorkName := rwn, Author := rau, OwnerAddress := n,
        RegistrationDate := rdate, WorkType := rwt, Description := rdesc,
        TransactionHistory := rhist ++
          [txt "Transferred from " ++ rown ++ txt " to " ++ n ++ txt " on " ++ e.now],
        IsDeleted := false } = x := ⟨_, rfl⟩
  rcases mres with err | b'
  · simp [CallsOnlyTarget, TransferCopyright, h1, h2, n1, n2, GetObject, hs, hu, hm,
      Response.Error, readsOf, writesOf]
  rcases hp : e.putErr cid b' with _ | err
  · simp [CallsOnlyTarget, TransferCopyright, h1, h2, n1, n2, GetObject, hs, hu, hm, PutObject,
      hp, EmitJSONEvent, readsOf, writesOf]
  · simp [CallsOnlyTarget, TransferCopyright, h1, h2, n1, n2, GetObject, hs, hu, hm, PutObject,
      hp, Response.Error, readsOf, writesOf]

theorem UpdateCopyrightDescription_calls (J : Json) (e : Env) (w : World) :
    ∃ l, (UpdateCopyrightDescription J e w).2.log = w.log ++ l ∧ CallsOnlyTarget e l ∧
      (writesOf l).length ≤ 1 := by
  have hnd : (match e.args.lookup (txt "new_description") with
      | some d => d
      | none => txt "") = (e.args.lookup (txt "new_description")).getD (txt "") := by
    cases e.args.lookup (txt "new_description") <;> rfl
  rcases h1 : e.args.lookup (txt "copyright_id") with _ | cid
  · simp [CallsOnlyTarget, UpdateCopyrightDescription, h1, readsOf, writesOf]
  by_cases n1 : cid = txt ""
  · simp [CallsOnlyTarget, UpdateCopyrightDescription, h1, n1, readsOf, writesOf]
  rcases hs : w.store cid with _ | b
  · simp [CallsOnlyTarget, UpdateCopyrightDescription, h1, n1, GetObject, hs, Response.Error,
      readsOf, writesOf]
  rcases hu : J.Unmarshal b with err | r
  · simp [CallsOnlyTarget, UpdateCopyrightDescription, h1, n1, GetObject, hs, hu,
      Response.Error, readsOf, writesOf]
  rcases r with ⟨rid, rwn, rau, rown, rdate, rwt, rdesc, rhist, rdel⟩
  cases rdel
  swap
  · simp [CallsOnlyTarget, UpdateCopyrightDescription, h1, n1, GetObject, hs, hu,
      Response.Error, readsOf, writesOf]
  obtain ⟨mres, hm⟩ : ∃ x, J.Marshal
      { CopyrightID := rid, WorkName := rwn, Author := rau, OwnerAddress := rown,
        RegistrationDate := rdate, WorkType := rwt,
        Description := (e.args.lookup (txt "new_description")).getD (txt ""),
        TransactionHistory := rhist ++
          [txt "Description updated on " ++ e.now ++ txt ". Old: \x27" ++ rdesc
            ++ txt "\x27, New: \x27" ++ (e.args.lookup (txt "new_description")).getD (txt "") ++ txt "\x27"],
        IsDeleted := false } = x := ⟨_, rfl⟩
  rcases mres with err | b'
  · simp [CallsOnlyTarget, UpdateCopyrightDescription, h1, n1, GetObject, hs, hu, hnd, hm,
      Response.Error, readsOf, writesOf]
  rcases hp : e.putErr cid b' with _ | err
  · simp [CallsOnlyTarget, UpdateCopyrightDescription, h1, n1, GetObject, hs, hu, hnd, hm,
      PutObject, hp, EmitJSONEvent, readsOf, writesOf]
  · simp [CallsOnlyTarget, UpdateCopyrightDescription, h1, n1, GetObject, hs, hu, hnd, hm,
      PutObject, hp, Response.Error, readsOf, writesOf]

theorem DeleteCopyright_calls (J : Json) (e : Env) (w : World) :
    ∃ l, (DeleteCopyright J e w).2.log = w.log ++ l ∧ CallsOnlyTarget e l ∧
      (writesOf l).length ≤ 1 := by
  rcases h1 : e.args.lookup (txt "copyright_id") with _ | cid
  · simp [CallsOnlyTarget, DeleteCopyright, h1, readsOf, writesOf]
  by_cases n1 : cid = txt ""
  · simp [CallsOnlyTarget, DeleteCopyright, h1, n1, readsOf, writesOf]
  rcases hs : w.store cid with _ | b
  · simp [CallsOnlyTarget, DeleteCopyright, h1, n1, GetObject, hs, Response.Error, readsOf,
      writesOf]
  rcases hu : J.Unmarshal b with err | r
  · simp [CallsOnlyTarget, DeleteCopyright, h1, n1, GetObject, hs, hu, Response.Error, readsOf,
      writesOf]
  rcases r with ⟨rid, rwn, rau, rown, rdate, rwt, rdesc, rhist, rdel⟩
  cases rdel
  swap
  · simp [CallsOnlyTarget, DeleteCopyright, h1, n1, GetObject, hs, hu, readsOf, writesOf]
  obtain ⟨mres, hm⟩ : ∃ x, J.Marshal
      { CopyrightID := rid, WorkName := rwn, Author := rau, OwnerAddress := rown,
        RegistrationDate := rdate, WorkType := rwt, Description := rdesc,
        TransactionHistory := rhist ++
          [txt "Copyright marked as deleted on " ++ e.now ++ txt " by caller " ++ e.initiator],
        IsDeleted := true } = x := ⟨_, rfl⟩
  rcases mres with err | b'
  · simp [CallsOnlyTarget, DeleteCopyright, h1, n1, GetObject, hs, hu, hm, Response.Error,
      readsOf, writesOf]
  rcases hp : e.putErr cid b' with _ | err
  · simp [CallsOnlyTarget, DeleteCopyright, h1, n1, GetObject, hs, hu, hm, PutObject, hp,
      EmitJSONEvent, readsOf, writesOf]
  · simp [CallsOnlyTarget, DeleteCopyright, h1, n1, GetObject, hs, hu, hm, PutObject, hp,
      Response.Error, readsOf, writesOf]

theorem runOp_calls (J : Json) (op : Op) (e : Env) (w : World) (hop : op ≠ Op.init) :
    ∃ l, (runOp J op e w).2.log = w.log ++ l ∧ CallsOnlyTarget e l ∧
      (writesOf l).length ≤ 1 ∧ (op = Op.query → writesOf l = []) := by
  cases op
  · exact absurd rfl hop
  · obtain ⟨l, h1, h2, h3⟩ := RegisterCopyright_calls J e w
    exact ⟨l, h1, h2, h3, fun h => by cases h⟩
  · obtain ⟨l, h1, h2, h3⟩ := QueryCopyright_calls J e w
    exact ⟨l, h1, h2, by simp [h3], fun _ => h3⟩
  · obtain ⟨l, h1, h2, h3⟩ := TransferCopyright_calls J e w
    exact ⟨l, h1, h2, h3, fun h => by cases h⟩
  · obtain ⟨l, h1, h2, h3⟩ := UpdateCopyrightDescription_calls J e w
    exact ⟨l, h1, h2, h3, fun h => by cases h⟩
  · obtain ⟨l, h1, h2, h3⟩ := DeleteCopyright_calls J e w
    exact ⟨l, h1, h2, h3, fun h => by cases h⟩

/-- C14, refuted as stated. A record registered under the id `contract_creator`
is stored at the key that `Initialize` writes, and `Initialize` replaces it; a
query of the id `contract_creator` reads the key, and returns the stored creator
value itself when that value decodes to a record; a transfer on that id then
overwrites it. -/
theorem creator_key_not_separate_counterexample :
    recordAt refJson
      (RegisterCopyright refJson (demoEnv creatorKeyRegisterArgs) emptyWorld).2.store
      (txt "contract_creator") = some creatorKeyRecord ∧
    recordAt refJson
      (Initialize (demoEnv [(txt "creator", txt "addrX")])
        (RegisterCopyright refJson (demoEnv creatorKeyRegisterArgs) emptyWorld).2).2.store
      (txt "contract_creator") = none ∧
    readsOf (QueryCopyright refJson (demoEnv [(txt "copyright_id", txt "contract_creator")])
      (Initialize (demoEnv [(txt "creator", txt "addrX")]) emptyWorld).2).2.log
      = [txt "contract_creator"] ∧
    (QueryCopyright refJson (demoEnv [(txt "copyright_id", txt "contract_creator")])
      (Initialize (demoEnv recordAsCreatorArgs) emptyWorld).2).1
      = Response.OK (Bytes.mk (RefJson.encRecord demoRecord)) ∧
    (TransferCopyright refJson
      (demoEnv [(txt "copyright_id", txt "contract_creator"), (txt "new_owner_address", txt "addrB")])
      (Initialize (demoEnv recordAsCreatorArgs) emptyWorld).2).2.store (txt "contract_creator")
      ≠ (Initialize (demoEnv recordAsCreatorArgs) emptyWorld).2.store (txt "contract_creator") := by
  refine ⟨rfl, rfl, rfl, rfl, ?_⟩
  decide

/-- C14, amended. `Initialize` leaves the value at every key other than
`contract_creator` as it was, so every record stored under another key is the
same after it; and a record method whose `copyright_id` argument is not
`contract_creator` leaves the value at `contract_creator` as it was, and neither
reads nor writes that key. -/
theorem creator_key_separation (J : Json) (op : Op) (e : Env) (w : World) :
    (∀ k, k ≠ txt "contract_creator" →
      (Initialize e w).2.store k = w.store k ∧
      recordAt J (Initialize e w).2.store k = recordAt J w.store k) ∧
    (op ≠ Op.init → e.args.lookup (txt "copyright_id") ≠ some (txt "contract_creator") →
      (runOp J op e w).2.store (txt "contract_creator") = w.store (txt "contract_creator") ∧
      ∃ l, (runOp J op e w).2.log = w.log ++ l ∧ txt "contract_creator" ∉ readsOf l ∧
        ∀ p ∈ writesOf l, p.1 ≠ txt "contract_creator") := by
  constructor
  · intro k hk
    have h := Initialize_store_other e w k hk
    exact ⟨h, by simp [recordAt, h]⟩
  · intro hop hcid
    refine ⟨runOp_store_other J op e w hop _ hcid, ?_⟩
    obtain ⟨l, hl, ⟨hreads, hwrites⟩, _, _⟩ := runOp_calls J op e w hop
    exact ⟨l, hl, fun hmem => hcid (hreads _ hmem),
      fun p hp hpk => hcid (by rw [← hpk]; exact hwrites p hp)⟩

/-- C14 amended, at an initialization on the store that holds `demoRecord`
under `C1`, and at a transfer of `C1` on the store that holds it together with
a creator value. -/
theorem creator_key_separation_witness :
    ((Initialize (demoEnv [(txt "creator", txt "addrX")]) demoWorld).2.store (txt "C1")
        = demoWorld.store (txt "C1") ∧
      recordAt refJson (Initialize (demoEnv [(txt "creator", txt "addrX")]) demoWorld).2.store (txt "C1")
        = recordAt refJson demoWorld.store (txt "C1")) ∧
    ((runOp refJson Op.transfer
        (demoEnv [(txt "copyright_id", txt "C1"), (txt "new_owner_address", txt "addrB")])
        (Initialize (demoEnv [(txt "creator", txt "addrX")]) demoWorld).2).2.store (txt "contract_creator")
        = (Initialize (demoEnv [(txt "creator", txt "addrX")]) demoWorld).2.store (txt "contract_creator") ∧
      ∃ l, (runOp refJson Op.transfer
          (demoEnv [(txt "copyright_id", txt "C1"), (txt "new_owner_address", txt "addrB")])
          (Initialize (demoEnv [(txt "creator", txt "addrX")]) demoWorld).2).2.log
          = (Initialize (demoEnv [(txt "creator", txt "addrX")]) demoWorld).2.log ++ l ∧
        txt "contract_creator" ∉ readsOf l ∧ ∀ p ∈ writesOf l, p.1 ≠ txt "contract_creator") :=
  ⟨(creator_key_separation refJson Op.init (demoEnv [(txt "creator", txt "addrX")]) demoWorld).1
      (txt "C1") (by decide),
    (creator_key_separation refJson Op.transfer
      (demoEnv [(txt "copyright_id", txt "C1"), (txt "new_owner_address", txt "addrB")])
      (Initialize (demoEnv [(txt "creator", txt "addrX")]) demoWorld).2).2 (by decide) (by decide)⟩

/-- C15. Each record method touches one key and writes at most once: for
Register, Transfer, UpdateDescription and Delete (and Query), on every store and
with all inputs, the value at every key other than the `copyright_id` argument
is the same after the call as before; the call makes at most one `PutObject`,
and only on that key; and Query makes none. -/
theorem record_ops_touch_one_key (J : Json) (op : Op) (e : Env) (w : World)
    (hop : op ≠ Op.init) :
    (∀ k, e.args.lookup (txt "copyright_id") ≠ some k → (runOp J op e w).2.store k = w.store k) ∧
    ∃ l, (runOp J op e w).2.log = w.log ++ l ∧ (writesOf l).length ≤ 1 ∧
      (∀ p ∈ writesOf l, e.args.lookup (txt "copyright_id") = some p.1) ∧
      (op = Op.query → writesOf l = []) := by
  refine ⟨fun k hk => runOp_store_other J op e w hop k hk, ?_⟩
  obtain ⟨l, hl, ⟨_, hwrites⟩, hlen, hq⟩ := runOp_calls J op e w hop
  exact ⟨l, hl, hlen, hwrites, hq⟩

/-- C15, at a deletion of `C1` on the store that holds `demoRecord`: the key
`C2` is untouched and the one write is on `C1`. -/
theorem record_ops_touch_one_key_witness :
    Op.delete ≠ Op.init ∧
    (runOp refJson Op.delete (demoEnv [(txt "copyright_id", txt "C1")]) demoWorld).2.store (txt "C2")
      = demoWorld.store (txt "C2") ∧
    ∃ l, (runOp refJson Op.delete (demoEnv [(txt "copyright_id", txt "C1")]) demoWorld).2.log
        = demoWorld.log ++ l ∧
      (writesOf l).length ≤ 1 ∧
      (∀ p ∈ writesOf l,
        (demoEnv [(txt "copyright_id", txt "C1")]).args.lookup (txt "copyright_id") = some p.1) ∧
      (Op.delete = Op.query → writesOf l = []) :=
  have h := record_ops_touch_one_key refJson Op.delete (demoEnv [(txt "copyright_id", txt "C1")])
    demoWorld (by decide)
  ⟨by decide, h.1 (txt "C2") (by decide), h.2⟩

theorem runAll_invariant (J : Json) (P : Store → Prop) (allowed : Op → Prop)
    (hstep : ∀ op e w, allowed op → P w.store → P (runOp J op e w).2.store)
    (ops : List (Op × Env)) (hops : ∀ p ∈ ops, allowed p.1) :
    ∀ w : World, P w.store → P (runAll J ops w).2.store := by
  induction ops with
  | nil => intro w hw; exact hw
  | cons p ops ih =>
    intro w hw
    obtain ⟨op, e⟩ := p
    have hop : allowed op := hops (op, e) (List.mem_cons_self _ _)
    have hops' : ∀ p ∈ ops, allowed p.1 := fun p hp => hops p (List.mem_cons_of_mem _ hp)
    simp only [runAll]
    exact ih hops' _ (hstep op e w hop hw)

/-- C16, refuted as stated, in two ways. From the empty store, one `Initialize`
whose `creator` argument is the encoding of `demoRecord` leaves the key
`contract_creator` holding a value that decodes to a record whose id is `C1`.
And one `RegisterCopyright` whose `copyright_id` is the byte `0xFF` leaves the
key `0xFF`, which is not `contract_creator`, holding a value that decodes to a
record whose id is the replacement character, not the key. -/
theorem key_equals_id_counterexample :
    (recordAt refJson
        (runAll refJson [(Op.init, demoEnv recordAsCreatorArgs)] emptyWorld).2.store
        (txt "contract_creator") = some demoRecord ∧
      demoRecord.CopyrightID ≠ txt "contract_creator") ∧
    (invalidByte ≠ txt "contract_creator" ∧
      (∃ r, recordAt refJson
          (runAll refJson [(Op.register, demoEnv invalidIdRegisterArgs)] emptyWorld).2.store
          invalidByte = some r ∧
        r.CopyrightID = replacementChar ∧ r.CopyrightID ≠ invalidByte)) := by
  refine ⟨⟨rfl, ?_⟩, ?_, ⟨_, rfl, rfl, ?_⟩⟩ <;> decide

theorem key_equals_id_step (J : Json) (hJ : J.Faithful) (op : Op) (e : Env) (w : World)
    (hw : ∀ k r, k ≠ txt "contract_creator" → recordAt J w.store k = some r →
      r.CopyrightID = k.toValidUTF8) :
    ∀ k r, k ≠ txt "contract_creator" → recordAt J (runOp J op e w).2.store k = some r →
      r.CopyrightID = k.toValidUTF8 := by
  intro k r hk hr
  by_cases hop : op = Op.init
  · subst hop
    have h := Initialize_store_other e w k hk
    apply hw k r hk
    simpa [recordAt, runOp, h] using hr
  · rcases runOp_written J op e w hop with h | ⟨cid, b', r', _, _, hm, hst, hcase⟩
    · rw [h] at hr
      exact hw k r hk hr
    · rw [hst] at hr
      by_cases hkc : k = cid
      · subst hkc
        rw [recordAt_put_marshal J hJ _ _ _ _ hm] at hr
        cases hr
        show r'.CopyrightID.toValidUTF8 = k.toValidUTF8
        rcases hcase with ⟨_, hid, _⟩ | ⟨b0, r0, _, hs0, hu0, hid, _⟩
        · rw [hid]
        · rw [hid, hw k r0 hk (recordAt_of_store J _ k b0 r0 hs0 hu0), Bytes.toValidUTF8_idem]
      · rw [recordAt_put_other J _ _ _ _ hkc] at hr
        exact hw k r hk hr

/-- C16, amended. In every state reached from the empty store by a finite
sequence of the six methods with arbitrary arguments, every key other than
`contract_creator` whose stored value decodes to a record holds a record whose
id is that key with each byte that is not part of valid UTF-8 replaced by the
replacement character; so the id is the key itself whenever the key is valid
UTF-8. -/
theorem key_equals_id_except_creator (J : Json) (hJ : J.Faithful) (ops : List (Op × Env))
    (k : Bytes) (r : DigitalCopyright) (hk : k ≠ txt "contract_creator")
    (hr : recordAt J (runAll J ops emptyWorld).2.store k = some r) :
    r.CopyrightID = k.toValidUTF8 ∧ (k.IsValidUTF8 → r.CopyrightID = k) := by
  have h := runAll_invariant J
    (fun s => ∀ k r, k ≠ txt "contract_creator" → recordAt J s k = some r →
      r.CopyrightID = k.toValidUTF8)
    (fun _ => True)
    (fun op e w _ hw => key_equals_id_step J hJ op e w hw)
    ops (fun _ _ => trivial) emptyWorld
    (by
      intro k r _ hr
      simp [recordAt, emptyWorld, Store.empty] at hr)
  have h1 := h k r hk hr
  exact ⟨h1, fun hv => h1.trans hv⟩

/-- C16 amended, at the state after an initialization and the registration of
the end-to-end scenario, for the key `C1`. -/
theorem key_equals_id_except_creator_witness :
    refJson.Faithful ∧ txt "C1" ≠ txt "contract_creator" ∧
    recordAt refJson
      (runAll refJson [(Op.init, demoEnv recordAsCreatorArgs),
        (Op.register, demoEnv demoRegisterArgs)] emptyWorld).2.store (txt "C1") = some demoRecord ∧
    demoRecord.CopyrightID = (txt "C1").toValidUTF8 ∧
    ((txt "C1").IsValidUTF8 → demoRecord.CopyrightID = txt "C1") :=
  ⟨refJson_faithful, by decide, rfl,
    key_equals_id_except_creator refJson refJson_faithful
      [(Op.init, demoEnv recordAsCreatorArgs), (Op.register, demoEnv demoRegisterArgs)]
      (txt "C1") demoRecord (by decide) rfl⟩

theorem RequiredFieldsNonEmpty.coerced {r : DigitalCopyright}
    (h : RequiredFieldsNonEmpty r) : RequiredFieldsNonEmpty r.toValidUTF8 := by
  obtain ⟨g1, g2, g3, g4, g5, g6⟩ := h
  refine ⟨Bytes.toValidUTF8_ne_empty _ g1, Bytes.toValidUTF8_ne_empty _ g2,
    Bytes.toValidUTF8_ne_empty _ g3, Bytes.toValidUTF8_ne_empty _ g4,
    Bytes.toValidUTF8_ne_empty _ g5, ?_⟩
  show 0 < (r.TransactionHistory.map Bytes.toValidUTF8).length
  rw [List.length_map]
  exact g6

theorem required_fields_step (J : Json) (hJ : J.Faithful) (op : Op) (e : Env) (w : World)
    (hop : op ≠ Op.init)
    (hw : ∀ k r, recordAt J w.store k = some r → RequiredFieldsNonEmpty r) :
    ∀ k r, recordAt J (runOp J op e w).2.store k = some r → RequiredFieldsNonEmpty r := by
  intro k r hr
  rcases runOp_written J op e w hop with h | ⟨cid, b', r', _, _, hm, hst, hcase⟩
  · rw [h] at hr
    exact hw k r hr
  · rw [hst] at hr
    by_cases hkc : k = cid
    · subst hkc
      rw [recordAt_put_marshal J hJ _ _ _ _ hm] at hr
      cases hr
      apply RequiredFieldsNonEmpty.coerced
      rcases hcase with ⟨_, _, hgood⟩ | ⟨b0, r0, entry, hs0, hu0, hid, hwn, hau, hwt, _, hown,
        hhist⟩
      · exact hgood
      · obtain ⟨g1, g2, g3, g4, g5, _⟩ := hw k r0 (recordAt_of_store J _ k b0 r0 hs0 hu0)
        refine ⟨by rw [hid]; exact g1, by rw [hwn]; exact g2, by rw [hau]; exact g3, ?_,
          by rw [hwt]; exact g5, by rw [hhist]; simp⟩
        rcases hown with h | h
        · rw [h]; exact g4
        · exact h
    · rw [recordAt_put_other J _ _ _ _ hkc] at hr
      exact hw k r hr

/-- C17. Required fields stay non-empty: in every state reached from the empty
store by a finite sequence of Register, Query, Transfer, UpdateDescription and
Delete calls with arbitrary arguments, every stored record has a non-empty id,
title, creator name, holder address and category, and a history with at least
one entry. -/
theorem required_fields_stay_nonempty (J : Json) (hJ : J.Faithful) (ops : List (Op × Env))
    (hops : ∀ p ∈ ops, p.1 ≠ Op.init) (k : Bytes) (r : DigitalCopyright)
    (hr : recordAt J (runAll J ops emptyWorld).2.store k = some r) :
    r.CopyrightID ≠ txt "" ∧ r.WorkName ≠ txt "" ∧ r.Author ≠ txt "" ∧ r.OwnerAddress ≠ txt "" ∧
      r.WorkType ≠ txt "" ∧ 0 < r.TransactionHistory.length := by
  have h := runAll_invariant J
    (fun s => ∀ k r, recordAt J s k = some r → RequiredFieldsNonEmpty r)
    (fun op => op ≠ Op.init)
    (fun op e w hop hw => required_fields_step J hJ op e w hop hw)
    ops hops emptyWorld
    (by
      intro k r hr
      simp [recordAt, emptyWorld, Store.empty] at hr)
  exact h k r hr

set_option maxRecDepth 8192 in
/-- C17, at the state after the registration of the end-to-end scenario and a
transfer to `addrB`. -/
theorem required_fields_stay_nonempty_witness :
    refJson.Faithful ∧
    (∃ r, recordAt refJson
        (runAll refJson
          [(Op.register, demoEnv demoRegisterArgs),
           (Op.transfer, demoEnv [(txt "copyright_id", txt "C1"), (txt "new_owner_address", txt "addrB")])]
          emptyWorld).2.store (txt "C1") = some r ∧
      r.CopyrightID ≠ txt "" ∧ r.WorkName ≠ txt "" ∧ r.Author ≠ txt "" ∧ r.OwnerAddress ≠ txt "" ∧
      r.WorkType ≠ txt "" ∧ 0 < r.TransactionHistory.length) :=
  ⟨refJson_faithful,
    ⟨{ CopyrightID := txt "C1", WorkName := txt "Sunrise", Author := txt "Alice", OwnerAddress := txt "addrB",
       RegistrationDate := txt "2024-01-02 03:04:05", WorkType := txt "image",
       Description := txt "a painting",
       TransactionHistory :=
        [txt "Registered on 2024-01-02 03:04:05 by addrA",
         txt "Transferred from addrA to addrB on 2024-01-02 03:04:05"],
       IsDeleted := false },
      rfl,
      required_fields_stay_nonempty refJson refJson_faithful
        [(Op.register, demoEnv demoRegisterArgs),
         (Op.transfer, demoEnv [(txt "copyright_id", txt "C1"), (txt "new_owner_address", txt "addrB")])]
        (by
          intro p hp
          simp only [List.mem_cons, List.mem_singleton, List.not_mem_nil, or_false] at hp
          rcases hp with rfl | rfl <;> decide)
        (txt "C1") _ rfl⟩⟩

theorem runOp_failure_clean (J : Json) (op : Op) (e : Env) (w : World)
    (hfail : (runOp J op e w).1.isFailure = true) : FailsCleanly w (runOp J op e w) := by
  cases op
  · rcases Initialize_cases e w with h | ⟨_, _, _, _, h⟩
    · exact h
    · simp [runOp, h, Response.isFailure] at hfail
  · rcases RegisterCopyright_cases J e w with
      h | ⟨_, _, _, _, _, _, _, _, _, _, _, _, _, _, _, _, _, _, _, _, h⟩
    · exact h
    · simp [runOp, h, Response.isFailure] at hfail
  · rcases QueryCopyright_cases J e w with h | ⟨_, _, _, _, _, _, _, _, h⟩
    · exact h
    · simp [runOp, h, Response.isFailure] at hfail
  · rcases TransferCopyright_cases J e w with h | ⟨_, _, _, _, _, _, _, _, _, _, _, _, _, _, h⟩
    · exact h
    · simp [runOp, h, Response.isFailure] at hfail
  · rcases UpdateCopyrightDescription_cases J e w with
      h | ⟨_, _, _, _, _, _, _, _, _, _, _, h⟩
    · exact h
    · simp [runOp, h, Response.isFailure] at hfail
  · rcases DeleteCopyright_cases J e w with h | ⟨_, _, _, _, _, _, _, _, _, _, _, h⟩
    · exact h
    · simp [runOp, h, Response.isFailure] at hfail

theorem not_ok_of_failsCleanly {w : World} {res : Response × World} (h : FailsCleanly w res)
    (hok : res.1.isOK = true) : False := by
  have := h.not_isOK
  rw [hok] at this
  cases this

/-- C18. Events are emitted exactly on successful mutations: a successful
`RegisterCopyright` emits exactly one event, `CopyrightRegistered`, carrying the
id, title and holder address of the record it stored; a successful
`TransferCopyright` exactly one, `CopyrightTransferred`, carrying the id, the
old holder and the new holder; a successful `UpdateCopyrightDescription`
exactly one, `CopyrightDescriptionUpdated`, carrying the id and the new
description; a successful `DeleteCopyright` exactly one, `CopyrightDeleted`,
carrying the id and the caller identity; `QueryCopyright` and `Initialize` never
emit an event; and no method emits an event when it fails. -/
theorem events_exactly_on_success (J : Json) (e : Env) (w : World) :
    ((RegisterCopyright J e w).1.isOK = true →
      ∃ cid b' r', e.args.lookup (txt "copyright_id") = some cid ∧
        (RegisterCopyright J e w).2.store cid = some b' ∧ J.Marshal r' = Except.ok b' ∧
        (RegisterCopyright J e w).2.events = w.events ++
          [(txt "CopyrightRegistered", [(txt "copyrightId", r'.CopyrightID),
            (txt "workName", r'.WorkName), (txt "owner", r'.OwnerAddress)])]) ∧
    ((TransferCopyright J e w).1.isOK = true →
      ∃ cid n b r, e.args.lookup (txt "copyright_id") = some cid ∧
        e.args.lookup (txt "new_owner_address") = some n ∧
        w.store cid = some b ∧ J.Unmarshal b = Except.ok r ∧
        (TransferCopyright J e w).2.events = w.events ++
          [(txt "CopyrightTransferred", [(txt "copyrightId", cid),
            (txt "oldOwner", r.OwnerAddress), (txt "newOwner", n)])]) ∧
    ((UpdateCopyrightDescription J e w).1.isOK = true →
      ∃ cid, e.args.lookup (txt "copyright_id") = some cid ∧
        (UpdateCopyrightDescription J e w).2.events = w.events ++
          [(txt "CopyrightDescriptionUpdated", [(txt "copyrightId", cid),
            (txt "newDescription", (e.args.lookup (txt "new_description")).getD (txt ""))])]) ∧
    ((DeleteCopyright J e w).1.isOK = true →
      ∃ cid, e.args.lookup (txt "copyright_id") = some cid ∧
        (DeleteCopyright J e w).2.events = w.events ++
          [(txt "CopyrightDeleted", [(txt "copyrightId", cid), (txt "deletedBy", e.initiator)])]) ∧
    (QueryCopyright J e w).2.events = w.events ∧
    (Initialize e w).2.events = w.events ∧
    (∀ op, (runOp J op e w).1.isFailure = true → (runOp J op e w).2.events = w.events) := by
  refine ⟨?_, ?_, ?_, ?_, ?_, ?_, ?_⟩
  · intro hok
    rcases RegisterCopyright_cases J e w with
      h | ⟨cid, wn, author, owner, wt, desc, b, h1, _, _, _, _, _, _, _, _, _, _, _, hm, _,
        hres⟩
    · exact (not_ok_of_failsCleanly h hok).elim
    · refine ⟨cid, b, _, h1, ?_, hm, ?_⟩
      · rw [hres]
        exact Store.put_same _ _ _
      · rw [hres]
        simp [World.events, eventsOf]
  · intro hok
    rcases TransferCopyright_cases J e w with
      h | ⟨cid, n, b, r, b', h1, h2, _, _, hs, hu, _, _, _, hres⟩
    · exact (not_ok_of_failsCleanly h hok).elim
    · refine ⟨cid, n, b, r, h1, h2, hs, hu, ?_⟩
      rw [hres]
      simp [World.events, eventsOf]
  · intro hok
    rcases UpdateCopyrightDescription_cases J e w with
      h | ⟨cid, b, r, b', h1, _, _, _, _, _, _, hres⟩
    · exact (not_ok_of_failsCleanly h hok).elim
    · refine ⟨cid, h1, ?_⟩
      rw [hres]
      simp [World.events, eventsOf]
  · intro hok
    rcases DeleteCopyright_cases J e w with
      h | ⟨cid, b, r, b', h1, _, _, _, _, _, _, hres⟩
    · exact (not_ok_of_failsCleanly h hok).elim
    · refine ⟨cid, h1, ?_⟩
      rw [hres]
      simp [World.events, eventsOf]
  · rcases QueryCopyright_cases J e w with h | ⟨_, _, _, _, _, _, _, _, hres⟩
    · exact h.events_eq
    · rw [hres]
      simp [World.events, eventsOf]
  · rcases Initialize_cases e w with h | ⟨_, _, _, _, hres⟩
    · exact h.events_eq
    · rw [hres]
      simp [World.events, eventsOf]
  · intro op hfail
    exact (runOp_failure_clean J op e w hfail).events_eq

/-- C18, at a deletion of `C1` by `caller1` on the store that holds
`demoRecord`. -/
theorem events_exactly_on_success_witness :
    (DeleteCopyright refJson (demoEnv [(txt "copyright_id", txt "C1")]) demoWorld).1.isOK = true ∧
    ∃ cid, (demoEnv [(txt "copyright_id", txt "C1")]).args.lookup (txt "copyright_id") = some cid ∧
      (DeleteCopyright refJson (demoEnv [(txt "copyright_id", txt "C1")]) demoWorld).2.events
        = demoWorld.events ++
          [(txt "CopyrightDeleted", [(txt "copyrightId", cid),
            (txt "deletedBy", (demoEnv [(txt "copyright_id", txt "C1")]).initiator)])] :=
  ⟨rfl,
    (events_exactly_on_success refJson (demoEnv [(txt "copyright_id", txt "C1")]) demoWorld).2.2.2.1
      rfl⟩

/-- C19. Transfer does not depend on the caller: on every store, with every
argument mapping and timestamp, `TransferCopyright` run for the caller `c1` and
run for the caller `c2` give the same response and the same host state (store,
calls and event); in particular a caller who is not the holder of a record that
is not deleted transfers it, provided the write is accepted: the stored record
then has as holder the new holder made valid UTF-8, which is the new holder
itself when that is valid UTF-8. -/
theorem transfer_ignores_caller (J : Json) (e : Env) (w : World) (c1 c2 : Bytes) :
    TransferCopyright J { e with initiator := c1 } w
      = TransferCopyright J { e with initiator := c2 } w ∧
    (J.Faithful →
      ∀ (cid n b : Bytes) (r : DigitalCopyright),
        e.args.lookup (txt "copyright_id") = some cid → e.args.lookup (txt "new_owner_address") = some n →
        cid ≠ txt "" → n ≠ txt "" → w.store cid = some b → J.Unmarshal b = Except.ok r →
        r.IsDeleted = false → (∀ v, e.putErr cid v = none) → c1 ≠ r.OwnerAddress →
        (TransferCopyright J { e with initiator := c1 } w).1
            = Response.OK (txt "Copyright " ++ cid ++ txt " transferred to " ++ n) ∧
        ∃ r', recordAt J (TransferCopyright J { e with initiator := c1 } w).2.store cid
            = some r' ∧ r'.OwnerAddress = n.toValidUTF8 ∧
          (n.IsValidUTF8 → r'.OwnerAddress = n)) := by
  constructor
  · rfl
  · intro hJ cid n b r h1 h2 n1 n2 hs hu hl hput _
    obtain ⟨b', hm, hu'⟩ := hJ.1
      { r with
        OwnerAddress := n
        TransactionHistory := r.TransactionHistory ++
          [txt "Transferred from " ++ r.OwnerAddress ++ txt " to " ++ n ++ txt " on " ++ e.now] }
    rw [TransferCopyright_live J { e with initiator := c1 } w cid n b b' r h1 h2 n1 n2 hs hu hl
      hm (hput b')]
    exact ⟨rfl, _, recordAt_put_same J _ cid b' _ hu', rfl, fun hv => hv⟩

/-- C19, at the transfer of `C1`, held by `addrA`, requested by `mallory` and
by `addrA`. -/
theorem transfer_ignores_caller_witness :
    TransferCopyright refJson
        { demoEnv [(txt "copyright_id", txt "C1"), (txt "new_owner_address", txt "addrB")] with
          initiator := txt "mallory" } demoWorld
      = TransferCopyright refJson
        { demoEnv [(txt "copyright_id", txt "C1"), (txt "new_owner_address", txt "addrB")] with
          initiator := txt "addrA" } demoWorld ∧
    txt "mallory" ≠ demoRecord.OwnerAddress ∧
    (TransferCopyright refJson
        { demoEnv [(txt "copyright_id", txt "C1"), (txt "new_owner_address", txt "addrB")] with
          initiator := txt "mallory" } demoWorld).1
        = Response.OK (txt "Copyright " ++ txt "C1" ++ txt " transferred to " ++ txt "addrB") ∧
    ∃ r', recordAt refJson (TransferCopyright refJson
        { demoEnv [(txt "copyright_id", txt "C1"), (txt "new_owner_address", txt "addrB")] with
          initiator := txt "mallory" } demoWorld).2.store (txt "C1") = some r' ∧
      r'.OwnerAddress = (txt "addrB").toValidUTF8 ∧
      ((txt "addrB").IsValidUTF8 → r'.OwnerAddress = txt "addrB") :=
  have h := transfer_ignores_caller refJson
    (demoEnv [(txt "copyright_id", txt "C1"), (txt "new_owner_address", txt "addrB")]) demoWorld
    (txt "mallory") (txt "addrA")
  have h2 := h.2 refJson_faithful (txt "C1") (txt "addrB") (Bytes.mk (RefJson.encRecord demoRecord))
    demoRecord (by decide) (by decide) (by decide) (by decide) rfl
    refJson_unmarshal_demoRecord rfl (fun _ => rfl) (by decide)
  ⟨h.1, by decide, h2.1, h2.2⟩

/-- C20. Query is read-only and returns the stored bytes verbatim: on every
store and with every argument mapping, `QueryCopyright` leaves the store as it
was and makes no write; whenever it succeeds, its payload is exactly the value
stored at the key `copyright_id`, which decodes to a record that is not
deleted; and it succeeds if and only if `copyright_id` is present and
non-empty, the key holds a value, the value decodes to a record, and the record
is not deleted. -/
theorem query_is_read_only (J : Json) (e : Env) (w : World) :
    (QueryCopyright J e w).2.store = w.store ∧
    (∃ l, (QueryCopyright J e w).2.log = w.log ++ l ∧ writesOf l = []) ∧
    (∀ body, (QueryCopyright J e w).1 = Response.OK body →
      ∃ cid r, e.args.lookup (txt "copyright_id") = some cid ∧ w.store cid = some body ∧
        J.Unmarshal body = Except.ok r ∧ r.IsDeleted = false) ∧
    ((QueryCopyright J e w).1.isOK = true ↔
      ∃ cid b r, e.args.lookup (txt "copyright_id") = some cid ∧ cid ≠ txt "" ∧
        w.store cid = some b ∧ J.Unmarshal b = Except.ok r ∧ r.IsDeleted = false) := by
  refine ⟨?_, ?_, ?_, ?_⟩
  · rcases QueryCopyright_cases J e w with h | ⟨_, _, _, _, _, _, _, _, hres⟩
    · exact h.store_eq
    · rw [hres]
  · obtain ⟨l, hl, _, hw⟩ := QueryCopyright_calls J e w
    exact ⟨l, hl, hw⟩
  · intro body hbody
    rcases QueryCopyright_cases J e w with h | ⟨cid, b, r, h1, _, hs, hu, hl, hres⟩
    · have hf := h.1
      rw [hbody] at hf
      cases hf
    · rw [hres] at hbody
      cases hbody
      exact ⟨cid, r, h1, hs, hu, hl⟩
  · constructor
    · intro hok
      rcases QueryCopyright_cases J e w with h | ⟨cid, b, r, h1, n1, hs, hu, hl, _⟩
      · exact (not_ok_of_failsCleanly h hok).elim
      · exact ⟨cid, b, r, h1, n1, hs, hu, hl⟩
    · rintro ⟨cid, b, r, h1, n1, hs, hu, hl⟩
      rw [QueryCopyright_live J e w cid b r h1 n1 hs hu hl]
      rfl

end CopyrightManager
